import Mathlib

/-!
# Simulation core of the arena game (`src/win64/main.cpp`)

A shallow embedding of the entity-component-system simulation: the component
records, the component stores, the per-frame systems and the game loop.

Modelling conventions.

* `float` values are elements of an ordered field `F` (exact arithmetic); the
  functions of `<cmath>` that the program calls are the fields of `MathLib F`.
* A `float` division is the division of `F`. The only divisor that can be zero
  is the distance of lines 416-417 of `AISystem::update`: at distance 0 the
  program evaluates `dx / distance` and `dy / distance` to NaN and the field
  evaluates them to 0, so the embedding follows the program only where that
  distance is not zero. The statements on the chase velocity and on the
  projectile of the AI in the frame that spawns it assume a positive distance.
* `int` values are `Int`; the one `int` subtraction of the gameplay code
  (`health.current -= projectile.damage`) and the `int` subtractions
  `display_width - 200`, `display_height - 200` of the entity creation and of
  the restart branch are reduced with `wrapInt32`.
* `std::unordered_map<uint32_t, V>` is `UMap V`, a list of entries; the order of
  the list is the order in which a range-`for` visits the entries.
* `Mix_PlayChannel(-1, chunk, 0)` appends the chunk handle to `World.played`.
-/

/-- Entity identifiers (`uint32_t` keys of the component maps). -/
abbrev Entity := Nat

/-- Two-s complement reduction of an `int` result to 32 bits. -/
def wrapInt32 (z : Int) : Int := (z + 2147483648) % 4294967296 - 2147483648

/-- The values an `int` can hold. -/
def IsInt32 (z : Int) : Prop := -2147483648 ≤ z ∧ z < 2147483648

structure PositionComponent (F : Type) where
  x : F
  y : F
deriving DecidableEq, Repr

structure VelocityComponent (F : Type) where
  x : F
  y : F
deriving DecidableEq, Repr

structure RotationComponent (F : Type) where
  angle : F
deriving DecidableEq, Repr

structure InputComponent where
  up : Bool
  down : Bool
  left : Bool
  right : Bool
  spacebar : Bool
  shoot : Bool
  restart : Bool
  quit : Bool
deriving DecidableEq, Repr

structure SDL_Rect where
  x : Int
  y : Int
  w : Int
  h : Int
deriving DecidableEq, Repr

/-- The texture pointer is an opaque handle. -/
structure RenderComponent where
  texture : Nat
  spriteRect : SDL_Rect
deriving DecidableEq, Repr

/-- The three `Mix_Chunk*` pointers are opaque handles. -/
structure SoundComponent where
  sfx_shoot : Nat
  sfx_hit : Nat
  sfx_explosion : Nat
deriving DecidableEq, Repr

/-- The pointer `playerPosition` always points at an element of the position
map; it is kept as the key of that element. -/
structure AIComponent (F : Type) where
  playerPosition : Entity
  chaseRange : F
  attackRange : F
  attackCooldown : F
  attackCooldownDuration : F
  attack_time : F
  attack_duration : F
  shoot_cooldown : F
  shoot_cooldown_duration : F
deriving DecidableEq, Repr

structure ProjectileComponent (F : Type) where
  active : Bool
  x : F
  y : F
  velocityX : F
  velocityY : F
  damage : Int
deriving DecidableEq, Repr

structure HealthComponent where
  current : Int
  maxHealth : Int
deriving DecidableEq, Repr

/-! Value-initialised components, as `operator[]` creates them for a missing key. -/

instance {F : Type} [Zero F] : Inhabited (PositionComponent F) := ⟨⟨0, 0⟩⟩
instance {F : Type} [Zero F] : Inhabited (VelocityComponent F) := ⟨⟨0, 0⟩⟩
instance {F : Type} [Zero F] : Inhabited (RotationComponent F) := ⟨⟨0⟩⟩
instance : Inhabited InputComponent :=
  ⟨⟨false, false, false, false, false, false, false, false⟩⟩
instance : Inhabited SDL_Rect := ⟨⟨0, 0, 0, 0⟩⟩
instance : Inhabited RenderComponent := ⟨⟨0, default⟩⟩
instance : Inhabited SoundComponent := ⟨⟨0, 0, 0⟩⟩
instance : Inhabited HealthComponent := ⟨⟨0, 0⟩⟩

/-! ## Component stores -/

/-- An unordered map as the list of its entries, in traversal order. -/
abbrev UMap (V : Type) := List (Entity × V)

namespace UMap

variable {V : Type}

/-- Keys in traversal order. -/
def keys (m : UMap V) : List Entity := m.map Prod.fst

/-- The test `m.count(k) != 0`. -/
def contains : UMap V → Entity → Bool
  | [], _ => false
  | (k, _) :: m, e => if k = e then true else contains m e

def find? : UMap V → Entity → Option V
  | [], _ => none
  | (k, v) :: m, e => if k = e then some v else find? m e

/-- The value that `m[e]` refers to: the stored one, or a value-initialised one. -/
def ref [Inhabited V] (m : UMap V) (e : Entity) : V := (find? m e).getD default

/-- The map after evaluating `m[e]`: a missing key has been inserted. Where the
new entry lands in the traversal order is not specified by the library; here it
is the end. -/
def touch [Inhabited V] (m : UMap V) (e : Entity) : UMap V :=
  if contains m e then m else m ++ [(e, default)]

/-- The map after `m[e] = v` (or after writing `v` through a reference to `m[e]`). -/
def set : UMap V → Entity → V → UMap V
  | [], e, v => [(e, v)]
  | (k, v0) :: m, e, v => if k = e then (k, v) :: m else (k, v0) :: set m e v

end UMap

/-- A range-`for` over a container by reference: the body may rewrite the
visited element and a threaded state. -/
def forEach {A S : Type} (f : A → S → A × S) : List A → S → List A × S
  | [], s => ([], s)
  | a :: l, s =>
    let r := f a s
    let rs := forEach f l r.2
    (r.1 :: rs.1, rs.2)

/-- All mutable state of `main`: the component maps, the cooldown members of
`ShootingSystem`, the two loop flags and the log of played audio chunks. -/
structure World (F : Type) where
  positions : UMap (PositionComponent F)
  velocities : UMap (VelocityComponent F)
  rotations : UMap (RotationComponent F)
  inputs : UMap InputComponent
  renders : UMap RenderComponent
  ais : UMap (AIComponent F)
  healths : UMap HealthComponent
  sfx : UMap SoundComponent
  projectiles : UMap (List (ProjectileComponent F))
  attackCooldown : F
  attackCooldownDuration : F
  won : Bool
  game_over : Bool
  played : List Nat
deriving Repr

/-! ## HealthSystem -/

section Health

variable {F : Type} [LinearOrderedField F]

/-- Method `HealthSystem::collides`: the projectile point lies strictly inside the
sprite rectangle. -/
def HealthSystem.collides (projectile : ProjectileComponent F)
    (position : PositionComponent F) (render : RenderComponent) : Bool :=
  decide (projectile.x > position.x) &&
  decide (projectile.x < position.x + (render.spriteRect.w : F)) &&
  decide (projectile.y > position.y) &&
  decide (projectile.y < position.y + (render.spriteRect.h : F))

/-- What the projectile loops of `HealthSystem::update` write besides the
projectiles: the target health, the sound map and the audio log. -/
structure HitState where
  health : HealthComponent
  sfx : UMap SoundComponent
  played : List Nat
deriving Repr

/-- Body of `for (auto& projectile : projectile_vector)` (lines 154-175). -/
def HealthSystem.hit (entity : Entity) (position : PositionComponent F)
    (render : RenderComponent) (projectile : ProjectileComponent F) (s : HitState) :
    ProjectileComponent F × HitState :=
  if !projectile.active then (projectile, s)
  else if HealthSystem.collides projectile position render then
    let current := wrapInt32 (s.health.current - projectile.damage)
    let sound := s.sfx.ref entity
    let sfx := s.sfx.touch entity
    let played := s.played ++ [sound.sfx_hit]
    if current ≤ 0 then
      ({ projectile with active := false },
       { health := { s.health with current := 0 }, sfx := sfx,
         played := played ++ [sound.sfx_explosion] })
    else
      ({ projectile with active := false },
       { health := { s.health with current := current }, sfx := sfx, played := played })
  else (projectile, s)

/-- Body of `for (auto& [entity2, projectile_vector] : *projectiles)` (lines 150-176). -/
def HealthSystem.hitOwner (entity : Entity) (position : PositionComponent F)
    (render : RenderComponent) (owner : Entity × List (ProjectileComponent F))
    (s : HitState) : (Entity × List (ProjectileComponent F)) × HitState :=
  if entity = owner.1 then (owner, s)
  else
    let r := forEach (HealthSystem.hit entity position render) owner.2 s
    ((owner.1, r.1), r.2)

/-- Body of `for (auto& [entity, health] : *healths)` (lines 144-177). -/
def HealthSystem.target (e : Entity × HealthComponent) (w : World F) :
    (Entity × HealthComponent) × World F :=
  let render := w.renders.ref e.1
  let position := w.positions.ref e.1
  let r := forEach (HealthSystem.hitOwner e.1 position render) w.projectiles
    ⟨e.2, w.sfx, w.played⟩
  ((e.1, r.2.health),
   { w with renders := w.renders.touch e.1, positions := w.positions.touch e.1,
            projectiles := r.1, sfx := r.2.sfx, played := r.2.played })

/-- Method `HealthSystem::update` (lines 142-178). -/
def HealthSystem.update (_deltaTime : F) (w : World F) : World F :=
  let r := forEach HealthSystem.target w.healths w
  { r.2 with healths := r.1 }

end Health

/-! ## The functions of `<cmath>` -/

/-- The math-library functions and constants the program calls (`cos`, `sin`,
`std::sqrt`, `std::atan2`, `M_PI`) and the conversion from `float` to `int`. -/
structure MathLib (F : Type) where
  cos : F → F
  sin : F → F
  sqrt : F → F
  atan2 : F → F → F
  pi : F
  toInt : F → Int

/-- Integral promotion of a `bool`. -/
def boolToInt (b : Bool) : Int := if b then 1 else 0

/-! ## MovementSystem -/

section Systems

variable {F : Type} [LinearOrderedField F]

/-- Body of `for (auto& [entity, position] : *positions)` (lines 102-131). -/
def MovementSystem.move (m : MathLib F) (deltaTime : F)
    (e : Entity × PositionComponent F) (w : World F) :
    (Entity × PositionComponent F) × World F :=
  if !w.velocities.contains e.1 || !w.inputs.contains e.1 then (e, w)
  else
    let input := w.inputs.ref e.1
    let angle := (w.rotations.ref e.1).angle
      + ((boolToInt input.right - boolToInt input.left : Int) : F) * 175 * deltaTime
    let direction_x := m.cos (angle * (m.pi / 180))
    let direction_y := m.sin (angle * (m.pi / 180))
    let v0 : VelocityComponent F := ⟨0, 0⟩
    let v1 : VelocityComponent F :=
      if input.up then ⟨350 * direction_x, 350 * direction_y⟩ else v0
    let velocity : VelocityComponent F :=
      if input.down then ⟨-350 * direction_x, -350 * direction_y⟩ else v1
    ((e.1, ⟨e.2.x + velocity.x * deltaTime, e.2.y + velocity.y * deltaTime⟩),
     { w with velocities := w.velocities.set e.1 velocity,
              rotations := w.rotations.set e.1 ⟨angle⟩ })

/-- Method `MovementSystem::update` (lines 100-132). -/
def MovementSystem.update (m : MathLib F) (deltaTime : F) (w : World F) : World F :=
  let r := forEach (MovementSystem.move m deltaTime) w.positions w
  { r.2 with positions := r.1 }

/-! ## InputSystem -/

inductive EventType where
  | SDL_KEYDOWN
  | SDL_KEYUP
  | SDL_QUIT
  | other
deriving DecidableEq, Repr

inductive Keycode where
  | SDLK_UP
  | SDLK_DOWN
  | SDLK_LEFT
  | SDLK_RIGHT
  | SDLK_RETURN
  | SDLK_SPACE
  | SDLK_ESCAPE
  | other
deriving DecidableEq, Repr

/-- The two fields of `SDL_Event` the program reads: `type` and `key.keysym.sym`. -/
structure SDL_Event where
  type : EventType
  sym : Keycode
deriving DecidableEq, Repr

/-- The `switch` of `InputSystem::handleEvent` (lines 197-220) on the input record. -/
def InputSystem.applyKey (event : SDL_Event) (i : InputComponent) : InputComponent :=
  let down := decide (event.type = EventType.SDL_KEYDOWN)
  match event.sym with
  | Keycode.SDLK_UP => { i with up := down }
  | Keycode.SDLK_DOWN => { i with down := down }
  | Keycode.SDLK_LEFT => { i with left := down }
  | Keycode.SDLK_RIGHT => { i with right := down }
  | Keycode.SDLK_RETURN => { i with restart := down }
  | Keycode.SDLK_SPACE => { i with shoot := down && !i.spacebar, spacebar := down }
  | Keycode.SDLK_ESCAPE => { i with quit := down }
  | Keycode.other => i

/-- Method `InputSystem::handleEvent` (lines 190-222); the entity is always `0`. -/
def InputSystem.handleEvent (event : SDL_Event) (w : World F) : World F :=
  if event.type = EventType.SDL_KEYDOWN ∨ event.type = EventType.SDL_KEYUP then
    { w with inputs := w.inputs.set 0 (InputSystem.applyKey event (w.inputs.ref 0)) }
  else w

/-! ## ShootingSystem -/

/-- Body of `for (auto& [entity, input] : *inputs)` (lines 238-269). -/
def ShootingSystem.shoot (m : MathLib F) (deltaTime : F)
    (e : Entity × InputComponent) (w : World F) : (Entity × InputComponent) × World F :=
  let attackCooldown := w.attackCooldown - 90 * deltaTime
  if attackCooldown ≤ 0 ∧ e.2.shoot = true then
    let position := w.positions.ref e.1
    let rotation := w.rotations.ref e.1
    let direction_x := m.cos (rotation.angle * (m.pi / 180))
    let direction_y := m.sin (rotation.angle * (m.pi / 180))
    let render := w.renders.ref e.1
    let projectile : ProjectileComponent F :=
      { active := true
        x := position.x + (render.spriteRect.w : F) * 0.5 - 5
        y := position.y + (render.spriteRect.h : F) * 0.5 - 5
        velocityX := direction_x * 450
        velocityY := direction_y * 450
        damage := 10 }
    let sound := w.sfx.ref e.1
    ((e.1, { e.2 with shoot := false }),
     { w with positions := w.positions.touch e.1,
              rotations := w.rotations.touch e.1,
              renders := w.renders.touch e.1,
              projectiles := w.projectiles.set e.1 (w.projectiles.ref e.1 ++ [projectile]),
              sfx := w.sfx.touch e.1,
              played := w.played ++ [sound.sfx_shoot],
              attackCooldown := w.attackCooldownDuration })
  else (e, { w with attackCooldown := attackCooldown })

/-- Method `ShootingSystem::update` (lines 236-270). -/
def ShootingSystem.update (m : MathLib F) (deltaTime : F) (w : World F) : World F :=
  let r := forEach (ShootingSystem.shoot m deltaTime) w.inputs w
  { r.2 with inputs := r.1 }

/-! ## AISystem -/

/-- The attack state machine of `AISystem::update` (lines 440-468), entered when
`distance <= ai.attackRange`: the three timers, and whether the branch of lines
446-462 (spawn a projectile, play the shoot chunk) is taken. -/
def AISystem.attack (deltaTime : F) (ai : AIComponent F) : AIComponent F × Bool :=
  let ai1 := { ai with attackCooldown := ai.attackCooldown - 120 * deltaTime }
  if ai1.attackCooldown ≤ 0 then
    let ai2 := { ai1 with attack_time := ai1.attack_time + 90 * deltaTime,
                          shoot_cooldown := ai1.shoot_cooldown - 90 * deltaTime }
    let fire := decide (ai2.shoot_cooldown ≤ 0)
    let ai3 := if fire then { ai2 with shoot_cooldown := ai2.shoot_cooldown_duration } else ai2
    let ai4 :=
      if ai3.attack_time ≥ ai3.attack_duration then
        { ai3 with attackCooldown := ai3.attackCooldownDuration, attack_time := 0 }
      else ai3
    (ai4, fire)
  else (ai1, false)

/-- Body of `for (auto& [entity, ai] : *ais)` (lines 397-469). The quotients
`direction_x`, `direction_y` are those of the program when `distance` is not
zero; at distance 0 the program has NaN there and this definition has 0. -/
def AISystem.drive (m : MathLib F) (deltaTime : F)
    (e : Entity × AIComponent F) (w : World F) : (Entity × AIComponent F) × World F :=
  if e.1 = 0 then (e, w)
  else if !w.positions.contains e.1 || !w.velocities.contains e.1 then (e, w)
  else
    let position := w.positions.ref e.1
    let player := w.positions.ref e.2.playerPosition
    let dx := player.x - position.x
    let dy := player.y - position.y
    let distance := m.sqrt (dx * dx + dy * dy)
    let direction_x := dx / distance
    let direction_y := dy / distance
    let rotation : RotationComponent F := ⟨m.atan2 dy dx * 180 / m.pi⟩
    let velocity : VelocityComponent F :=
      if distance < e.2.chaseRange then ⟨0, 0⟩
      else ⟨direction_x * 200, direction_y * 200⟩
    let position1 : PositionComponent F :=
      ⟨position.x + velocity.x * deltaTime, position.y + velocity.y * deltaTime⟩
    let render0 := w.renders.ref e.1
    let render : RenderComponent :=
      { render0 with spriteRect :=
          { render0.spriteRect with x := m.toInt position1.x, y := m.toInt position1.y } }
    let w1 : World F :=
      { w with positions := w.positions.set e.1 position1,
               velocities := w.velocities.set e.1 velocity,
               rotations := w.rotations.set e.1 rotation,
               renders := w.renders.set e.1 render }
    if distance ≤ e.2.attackRange then
      let r := AISystem.attack deltaTime e.2
      if r.2 then
        let projectile : ProjectileComponent F :=
          { active := true
            x := position1.x + (render.spriteRect.w : F) * 0.5 - 5
            y := position1.y + (render.spriteRect.h : F) * 0.5 - 5
            velocityX := direction_x * 750
            velocityY := direction_y * 750
            damage := 25 }
        let sound := w1.sfx.ref e.1
        ((e.1, r.1),
         { w1 with projectiles := w1.projectiles.set e.1 (w1.projectiles.ref e.1 ++ [projectile]),
                   sfx := w1.sfx.touch e.1,
                   played := w1.played ++ [sound.sfx_shoot] })
      else ((e.1, r.1), w1)
    else (e, w1)

/-- Method `AISystem::update` (lines 395-470). -/
def AISystem.update (m : MathLib F) (deltaTime : F) (w : World F) : World F :=
  let r := forEach (AISystem.drive m deltaTime) w.ais w
  { r.2 with ais := r.1 }

/-! ## ProjectileSystem -/

/-- Body of `for (auto& projectile : projectile_vector)` (lines 482-489). -/
def ProjectileSystem.advance (deltaTime : F) (projectile : ProjectileComponent F) :
    ProjectileComponent F :=
  if !projectile.active then projectile
  else
    { projectile with x := projectile.x + projectile.velocityX * deltaTime,
                      y := projectile.y + projectile.velocityY * deltaTime }

/-- Method `ProjectileSystem::update` (lines 476-491). -/
def ProjectileSystem.update (deltaTime : F) (w : World F) : World F :=
  if w.projectiles.isEmpty then w
  else
    { w with projectiles :=
        w.projectiles.map fun o => (o.1, o.2.map (ProjectileSystem.advance deltaTime)) }

end Systems

/-! ## The game loop of `main` -/

section Loop

variable {F : Type} [LinearOrderedField F]

/-- The values `main` obtains from SDL before the loop: the display bounds, the
sprite rectangles, and the texture and audio handles. -/
structure Game where
  display_width : Int
  display_height : Int
  player_texture : Nat
  player_rect : SDL_Rect
  enemy_texture : Nat
  enemy_rect : SDL_Rect
  sfx_shoot_player : Nat
  sfx_shoot_enemy : Nat
  sfx_hit_player : Nat
  sfx_hit_enemy : Nat
  sfx_explosion_player : Nat
  sfx_explosion_enemy : Nat
  sfx_win : Nat
deriving Repr

def playerEntity : Entity := 0

def enemy1 : Entity := 1

/-- The component maps after lines 688-721, the `ShootingSystem` members of
lines 233-234 and the flags of lines 767-768. -/
def initialWorld (g : Game) : World F :=
  { positions :=
      [(playerEntity, ⟨100, 100⟩),
       (enemy1, ⟨((wrapInt32 (g.display_width - 200) : Int) : F),
                 ((wrapInt32 (g.display_height - 200) : Int) : F)⟩)]
    velocities := [(playerEntity, ⟨0, 0⟩), (enemy1, ⟨0, 0⟩)]
    rotations := [(playerEntity, ⟨0⟩), (enemy1, ⟨0⟩)]
    inputs := [(playerEntity, ⟨false, false, false, false, false, false, false, false⟩)]
    renders := [(playerEntity, ⟨g.player_texture, g.player_rect⟩),
                (enemy1, ⟨g.enemy_texture, g.enemy_rect⟩)]
    ais := [(enemy1,
      { playerPosition := playerEntity
        chaseRange := 150
        attackRange := (g.display_width : F) * 0.7
        attackCooldown := 0
        attackCooldownDuration := 180
        attack_time := 0
        attack_duration := 80
        shoot_cooldown := 0
        shoot_cooldown_duration := 20 })]
    healths := [(playerEntity, ⟨100, 100⟩), (enemy1, ⟨100, 100⟩)]
    sfx := [(playerEntity, ⟨g.sfx_shoot_player, g.sfx_hit_player, g.sfx_explosion_player⟩),
            (enemy1, ⟨g.sfx_shoot_enemy, g.sfx_hit_enemy, g.sfx_explosion_enemy⟩)]
    projectiles := []
    attackCooldown := 0
    attackCooldownDuration := 20
    won := false
    game_over := false
    played := [] }

/-- The event loop of lines 772-778 on the events pending in this frame; `none`
is the jump to `cleanup`. -/
def pollEvents : List SDL_Event → World F → Option (World F)
  | [], w => some w
  | event :: rest, w =>
    if event.type = EventType.SDL_QUIT ∨ (w.inputs.ref playerEntity).quit = true then none
    else pollEvents rest (InputSystem.handleEvent event { w with inputs := w.inputs.touch playerEntity })

/-- The five system updates of lines 788-792, in order. -/
def runSystems (m : MathLib F) (deltaTime : F) (w : World F) : World F :=
  HealthSystem.update deltaTime
    (ProjectileSystem.update deltaTime
      (ShootingSystem.update m deltaTime
        (AISystem.update m deltaTime
          (MovementSystem.update m deltaTime w))))

/-- The restart branch (lines 802-819). -/
def restart (g : Game) (w : World F) : World F :=
  let positions1 := w.positions.set playerEntity ⟨100, 100⟩
  let rotations1 := w.rotations.set playerEntity ⟨0⟩
  let healths1 := w.healths.set playerEntity { w.healths.ref playerEntity with current := 100 }
  let positions2 := positions1.set enemy1
    ⟨((wrapInt32 (g.display_width - 200) : Int) : F),
     ((wrapInt32 (g.display_height - 200) : Int) : F)⟩
  let rotations2 := rotations1.set enemy1 ⟨0⟩
  let healths2 := healths1.set enemy1 { healths1.ref enemy1 with current := 100 }
  { w with positions := positions2, rotations := rotations2, healths := healths2,
           projectiles := w.projectiles.map fun o =>
             (o.1, o.2.map fun projectile => { projectile with active := false }),
           game_over := false, won := false }

/-- Lines 785-820 of the loop body: what one iteration does after the events
have been handled and `deltaTime` computed. The rendering calls that follow
(lines 822-831) write no gameplay component and are left out. -/
def simulate (m : MathLib F) (g : Game) (deltaTime : F) (w : World F) : World F :=
  if !w.game_over && !w.won then
    let w1 := runSystems m deltaTime w
    let game_over := decide ((w1.healths.ref playerEntity).current = 0)
    let healths1 := w1.healths.touch playerEntity
    let won := decide ((healths1.ref enemy1).current = 0)
    { w1 with healths := healths1.touch enemy1, game_over := game_over, won := won,
              played := if won then w1.played ++ [g.sfx_win] else w1.played }
  else if (w.inputs.ref playerEntity).restart then
    restart g { w with inputs := w.inputs.touch playerEntity }
  else { w with inputs := w.inputs.touch playerEntity }

/-- One iteration of the `while (true)` loop (lines 770-832) for the events
pending in the frame and the measured `deltaTime`. -/
def frame (m : MathLib F) (g : Game) (events : List SDL_Event) (deltaTime : F)
    (w : World F) : Option (World F) :=
  (pollEvents events w).map (simulate m g deltaTime)

end Loop

/-! ## Definitions used to state the properties -/

section Statements

variable {F : Type} [LinearOrderedField F]

/-- One execution of lines 163-173 on the `current` field: subtract, clamp at 0. -/
def HealthSystem.applyDamage (current damage : Int) : Int :=
  if wrapInt32 (current - damage) ≤ 0 then 0 else wrapInt32 (current - damage)

/-- What the loop of lines 154-175 leaves of one projectile: an active
projectile inside the rectangle is deactivated, any other is untouched. -/
def HealthSystem.deactivate (position : PositionComponent F) (render : RenderComponent)
    (p : ProjectileComponent F) : ProjectileComponent F :=
  if p.active && HealthSystem.collides p position render then { p with active := false } else p

/-- The damages of the active projectiles of one sequence that lie strictly
inside the rectangle, in sequence order. -/
def HealthSystem.hits (position : PositionComponent F) (render : RenderComponent)
    (v : List (ProjectileComponent F)) : List Int :=
  (v.filter fun p => p.active && HealthSystem.collides p position render).map
    ProjectileComponent.damage

/-- The damages of the active projectiles of owners other than `entity` that lie
strictly inside the rectangle, in traversal order. -/
def HealthSystem.hitsOn (entity : Entity) (position : PositionComponent F)
    (render : RenderComponent) : UMap (List (ProjectileComponent F)) → List Int
  | [] => []
  | o :: rest =>
    (if entity = o.1 then [] else HealthSystem.hits position render o.2)
      ++ HealthSystem.hitsOn entity position render rest

/-- The total damage `S` aimed at `entity` in world `w`: the sum of the damage of
all active projectiles of other entities strictly inside its sprite rectangle. -/
def HealthSystem.incoming (entity : Entity) (w : World F) : Int :=
  (HealthSystem.hitsOn entity (w.positions.ref entity) (w.renders.ref entity)
    w.projectiles).sum

/-- One owner entry after the target `entity` has been processed. -/
def HealthSystem.sweepOwner (entity : Entity) (position : PositionComponent F)
    (render : RenderComponent) (o : Entity × List (ProjectileComponent F)) :
    Entity × List (ProjectileComponent F) :=
  if entity = o.1 then o else (o.1, o.2.map (HealthSystem.deactivate position render))

/-- The projectile map after the target `entity` has been processed. -/
def HealthSystem.sweep (entity : Entity) (position : PositionComponent F)
    (render : RenderComponent) (projectiles : UMap (List (ProjectileComponent F))) :
    UMap (List (ProjectileComponent F)) :=
  projectiles.map (HealthSystem.sweepOwner entity position render)

/-- One owner entry after all the targets of `hs` have been processed in order. -/
def HealthSystem.sweepAll (position : Entity → PositionComponent F)
    (render : Entity → RenderComponent) :
    UMap HealthComponent → Entity × List (ProjectileComponent F) →
      Entity × List (ProjectileComponent F)
  | [], o => o
  | t :: rest, o =>
    HealthSystem.sweepAll position render rest
      (HealthSystem.sweepOwner t.1 (position t.1) (render t.1) o)

/-- The effect of `HealthSystem::update` on the health entries and the
projectile map as a recursion over the health entries, with the rectangle of
each target read through `position` and `render`. -/
def HealthSystem.resolve (position : Entity → PositionComponent F)
    (render : Entity → RenderComponent) :
    UMap HealthComponent → UMap (List (ProjectileComponent F)) →
      UMap HealthComponent × UMap (List (ProjectileComponent F))
  | [], projectiles => ([], projectiles)
  | t :: rest, projectiles =>
    let current := (HealthSystem.hitsOn t.1 (position t.1) (render t.1) projectiles).foldl
      HealthSystem.applyDamage t.2.current
    let r := HealthSystem.resolve position render rest
      (HealthSystem.sweep t.1 (position t.1) (render t.1) projectiles)
    ((t.1, { t.2 with current := current }) :: r.1, r.2)

end Statements

section Statements2

variable {F : Type}

/-- Every inactive projectile of the map `ps` is still at the same index of the
sequence of the same owner in `ps1`, unchanged (in particular still inactive). -/
def InactiveKept (ps ps1 : UMap (List (ProjectileComponent F))) : Prop :=
  ∀ (o : Entity) (v : List (ProjectileComponent F)), ps.find? o = some v →
    ∃ v1, ps1.find? o = some v1 ∧
      ∀ (i : Nat) (p : ProjectileComponent F), v[i]? = some p → p.active = false →
        v1[i]? = some p

/-- The projectile map without its inactive projectiles. -/
def activeOnly (ps : UMap (List (ProjectileComponent F))) :
    UMap (List (ProjectileComponent F)) :=
  ps.map fun o => (o.1, o.2.filter fun p => p.active)

end Statements2

section Runs

variable {F : Type} [LinearOrderedField F]

/-- A run of consecutive loop iterations, each with its pending events and its
`deltaTime`; `none` when an iteration jumps to `cleanup`. -/
def run (m : MathLib F) (g : Game) : List (List SDL_Event × F) → World F → Option (World F)
  | [], w => some w
  | f :: fs, w => (frame m g f.1 f.2 w).bind (run m g fs)

/-- In no iteration of the run is the restart input of the player true once the
events of the iteration are handled. -/
def restartFree (m : MathLib F) (g : Game) : List (List SDL_Event × F) → World F → Prop
  | [], _ => True
  | f :: fs, w =>
    match pollEvents f.1 w with
    | none => True
    | some w0 =>
      (w0.inputs.ref playerEntity).restart = false ∧
        restartFree m g fs (simulate m g f.2 w0)

end Runs

/-! ## Sample states -/

/-- Bisection for the integer square root: the largest `r` in `lo..hi` with
`r * r <= n`, in at most `fuel` halvings. -/
def isqrtAux : Nat → Nat → Nat → Nat → Nat
  | 0, lo, _, _ => lo
  | fuel + 1, lo, hi, n =>
    if hi ≤ lo then lo
    else
      let mid := (lo + hi + 1) / 2
      if mid * mid ≤ n then isqrtAux fuel mid hi n else isqrtAux fuel lo (mid - 1) n

/-- Integer square root of a number below `2 ^ 64`. -/
def isqrt (n : Nat) : Nat := isqrtAux 64 0 n n

/-- A computable stand-in for the math library over the rationals, to run the
systems on concrete states: truncated Taylor polynomials for `cos` and `sin`
(exact at 0), the integer square root of the integer part for `sqrt`, the
diamond-angle interpolation for `atan2`, 355/113 for `M_PI`, and truncation
toward zero for the conversion to `int`. -/
def MathLib.coarse : MathLib ℚ :=
  { cos := fun x => 1 - x ^ 2 / 2 + x ^ 4 / 24
    sin := fun x => x - x ^ 3 / 6 + x ^ 5 / 120
    sqrt := fun x => ((isqrt (Nat.floor x) : Nat) : ℚ)
    atan2 := fun y x =>
      if x = 0 ∧ y = 0 then 0
      else if 0 ≤ x then (355 / 226) * (y / (x + |y|))
      else if 0 ≤ y then (355 / 226) * (1 + (-x) / (-x + y))
      else -(355 / 226) * (1 + (-x) / (-x - y))
    pi := 355 / 113
    toInt := fun x => if 0 ≤ x then Int.floor x else Int.ceil x }


/-- A 1920 by 1080 display, 64 by 64 sprites, pairwise distinct handles. -/
def sampleGame : Game :=
  { display_width := 1920
    display_height := 1080
    player_texture := 1
    player_rect := ⟨0, 0, 64, 64⟩
    enemy_texture := 2
    enemy_rect := ⟨0, 0, 64, 64⟩
    sfx_shoot_player := 11
    sfx_shoot_enemy := 12
    sfx_hit_player := 13
    sfx_hit_enemy := 14
    sfx_explosion_player := 15
    sfx_explosion_enemy := 16
    sfx_win := 17 }

/-- The initial world of `sampleGame` with one projectile of the player, of
damage 10, inside the sprite rectangle of the enemy (which spans 1720..1784 by
880..944). -/
def duel (F : Type) [LinearOrderedField F] : World F :=
  { initialWorld sampleGame with
    projectiles := [(playerEntity, [⟨true, 1730, 890, 450, 0, 10⟩])] }

/-- Three entities with health: the sprites of entities 0 and 1 both span
0..64 by 0..64, entity 2 stands at (500, 500) and owns one active projectile of
damage 10 at (10, 10). -/
def crowd (F : Type) [LinearOrderedField F] : World F :=
  { positions := [(0, ⟨0, 0⟩), (1, ⟨0, 0⟩), (2, ⟨500, 500⟩)]
    velocities := []
    rotations := []
    inputs := []
    renders := [(0, ⟨1, ⟨0, 0, 64, 64⟩⟩), (1, ⟨2, ⟨0, 0, 64, 64⟩⟩), (2, ⟨3, ⟨0, 0, 64, 64⟩⟩)]
    ais := []
    healths := [(0, ⟨100, 100⟩), (1, ⟨100, 100⟩), (2, ⟨100, 100⟩)]
    sfx := []
    projectiles := [(2, [⟨true, 10, 10, 0, 0, 10⟩])]
    attackCooldown := 0
    attackCooldownDuration := 20
    won := false
    game_over := false
    played := [] }

/-- The sample duel after the projectile of the player has been spent. -/
def spent (F : Type) [LinearOrderedField F] : World F :=
  { initialWorld sampleGame with
    projectiles := [(playerEntity, [⟨false, 1730, 890, 450, 0, 10⟩])] }

/-- The sample duel lost: the health of the player is 0, `game_over` is set and
the RETURN key is held. -/
def lost (F : Type) [LinearOrderedField F] : World F :=
  { duel F with
    healths := [(playerEntity, ⟨0, 100⟩), (enemy1, ⟨75, 100⟩)]
    inputs := [(playerEntity, ⟨false, false, false, false, false, false, true, false⟩)]
    game_over := true }

/-- The sample duel with the enemy down to health 10: the projectile of the
player is about to finish it. -/
def lastHit (F : Type) [LinearOrderedField F] : World F :=
  { duel F with healths := [(playerEntity, ⟨100, 100⟩), (enemy1, ⟨10, 100⟩)] }

/-- The initial world of `sampleGame` just after a shot of the player: the
shooting cooldown stands at its full 20. -/
def reloading (F : Type) [LinearOrderedField F] : World F :=
  { initialWorld sampleGame with attackCooldown := 20 }

/-- The initial world of `sampleGame` with the fire request raised. -/
def firing (F : Type) [LinearOrderedField F] : World F :=
  { initialWorld sampleGame with
    inputs := [(playerEntity, ⟨false, false, false, false, true, true, false, false⟩)] }

/-- The initial world of `sampleGame` with the UP key held. -/
def advancing (F : Type) [LinearOrderedField F] : World F :=
  { initialWorld sampleGame with
    inputs := [(playerEntity, ⟨true, false, false, false, false, false, false, false⟩)] }

section Statements3

variable {F : Type} [LinearOrderedField F]

/-- The angle that lines 112 leave to the entity `e`: the old angle turned by
`(right - left) * 175 * deltaTime`. -/
def MovementSystem.facing (deltaTime : F) (w : World F) (e : Entity) : F :=
  (w.rotations.ref e).angle
    + ((boolToInt (w.inputs.ref e).right - boolToInt (w.inputs.ref e).left : Int) : F)
      * 175 * deltaTime

/-- The velocity that lines 114-126 leave to the entity `e`. -/
def MovementSystem.velocityOf (m : MathLib F) (deltaTime : F) (w : World F) (e : Entity) :
    VelocityComponent F :=
  let direction_x := m.cos (MovementSystem.facing deltaTime w e * (m.pi / 180))
  let direction_y := m.sin (MovementSystem.facing deltaTime w e * (m.pi / 180))
  if (w.inputs.ref e).down then ⟨-350 * direction_x, -350 * direction_y⟩
  else if (w.inputs.ref e).up then ⟨350 * direction_x, 350 * direction_y⟩
  else ⟨0, 0⟩

end Statements3

section Statements4

variable {F : Type} [LinearOrderedField F]

/-- A health entry after the damages aimed at it in the projectile map `ps` have
been applied in order. -/
def HealthSystem.struck (position : Entity → PositionComponent F)
    (render : Entity → RenderComponent) (ps : UMap (List (ProjectileComponent F)))
    (t : Entity × HealthComponent) : Entity × HealthComponent :=
  (t.1, ⟨(HealthSystem.hitsOn t.1 (position t.1) (render t.1) ps).foldl
    HealthSystem.applyDamage t.2.current, t.2.maxHealth⟩)

end Statements4

section Statements5

variable {F : Type} [LinearOrderedField F]

/-- What the body of the `AISystem::update` loop reads and writes for the entity
`e`, apart from its AI record: whether it has a position and a velocity, its
position, the position of the player entity, its velocity, rotation, render and
sound records and its projectile sequence. -/
structure AIView (F : Type) where
  hasPosition : Bool
  hasVelocity : Bool
  position : PositionComponent F
  player : PositionComponent F
  velocity : VelocityComponent F
  rotation : RotationComponent F
  render : RenderComponent
  sound : SoundComponent
  shots : List (ProjectileComponent F)

/-- The view of the entity `e` in the world `w`. -/
def AISystem.view (e : Entity) (w : World F) : AIView F :=
  { hasPosition := w.positions.contains e
    hasVelocity := w.velocities.contains e
    position := w.positions.ref e
    player := w.positions.ref playerEntity
    velocity := w.velocities.ref e
    rotation := w.rotations.ref e
    render := w.renders.ref e
    sound := w.sfx.ref e
    shots := w.projectiles.ref e }

/-- The distance `D` of lines 412-414 from the entity `e` to the position its AI
record points at, in the world `w`. -/
def AISystem.distance (m : MathLib F) (w : World F) (e : Entity) (ai : AIComponent F) : F :=
  m.sqrt
    (((w.positions.ref ai.playerPosition).x - (w.positions.ref e).x) *
        ((w.positions.ref ai.playerPosition).x - (w.positions.ref e).x) +
      ((w.positions.ref ai.playerPosition).y - (w.positions.ref e).y) *
        ((w.positions.ref ai.playerPosition).y - (w.positions.ref e).y))

/-- The unit vector of lines 416-417 from the entity toward that position, for a
distance other than zero (at distance 0 the program has NaN and this has 0). -/
def AISystem.direction (m : MathLib F) (w : World F) (e : Entity) (ai : AIComponent F) :
    F × F :=
  (((w.positions.ref ai.playerPosition).x - (w.positions.ref e).x) /
      AISystem.distance m w e ai,
   ((w.positions.ref ai.playerPosition).y - (w.positions.ref e).y) /
      AISystem.distance m w e ai)

/-- The velocity of lines 421-427. -/
def AISystem.velocityOf (m : MathLib F) (w : World F) (e : Entity) (ai : AIComponent F) :
    VelocityComponent F :=
  if AISystem.distance m w e ai < ai.chaseRange then ⟨0, 0⟩
  else ⟨(AISystem.direction m w e ai).1 * 200, (AISystem.direction m w e ai).2 * 200⟩

/-- The position of lines 430-431. -/
def AISystem.positionOf (m : MathLib F) (deltaTime : F) (w : World F) (e : Entity)
    (ai : AIComponent F) : PositionComponent F :=
  ⟨(w.positions.ref e).x + (AISystem.velocityOf m w e ai).x * deltaTime,
   (w.positions.ref e).y + (AISystem.velocityOf m w e ai).y * deltaTime⟩

/-- The projectile of lines 448-454. -/
def AISystem.shot (m : MathLib F) (deltaTime : F) (w : World F) (e : Entity)
    (ai : AIComponent F) : ProjectileComponent F :=
  { active := true
    x := (AISystem.positionOf m deltaTime w e ai).x
      + ((w.renders.ref e).spriteRect.w : F) * 0.5 - 5
    y := (AISystem.positionOf m deltaTime w e ai).y
      + ((w.renders.ref e).spriteRect.h : F) * 0.5 - 5
    velocityX := (AISystem.direction m w e ai).1 * 750
    velocityY := (AISystem.direction m w e ai).2 * 750
    damage := 25 }

/-- The rotation of line 419. -/
def AISystem.rotationOf (m : MathLib F) (w : World F) (e : Entity) (ai : AIComponent F) :
    RotationComponent F :=
  ⟨m.atan2 ((w.positions.ref ai.playerPosition).y - (w.positions.ref e).y)
      ((w.positions.ref ai.playerPosition).x - (w.positions.ref e).x) * 180 / m.pi⟩

/-- The render record after lines 434-436. -/
def AISystem.renderOf (m : MathLib F) (deltaTime : F) (w : World F) (e : Entity)
    (ai : AIComponent F) : RenderComponent :=
  { w.renders.ref e with
    spriteRect :=
      { (w.renders.ref e).spriteRect with
        x := m.toInt (AISystem.positionOf m deltaTime w e ai).x
        y := m.toInt (AISystem.positionOf m deltaTime w e ai).y } }

/-- The view of an entity with position and velocity, other than entity 0, after
the loop body has run on its AI record `ai` in the world `w`. -/
def AISystem.viewAfter (m : MathLib F) (deltaTime : F) (w : World F) (e : Entity)
    (ai : AIComponent F) : AIView F :=
  { hasPosition := true
    hasVelocity := true
    position := AISystem.positionOf m deltaTime w e ai
    player := w.positions.ref playerEntity
    velocity := AISystem.velocityOf m w e ai
    rotation := AISystem.rotationOf m w e ai
    render := AISystem.renderOf m deltaTime w e ai
    sound := w.sfx.ref e
    shots :=
      if AISystem.distance m w e ai ≤ ai.attackRange ∧ (AISystem.attack deltaTime ai).2 = true
      then w.projectiles.ref e ++ [AISystem.shot m deltaTime w e ai]
      else w.projectiles.ref e }

/-- The AI record after the loop body has run on it. -/
def AISystem.recordAfter (m : MathLib F) (deltaTime : F) (w : World F) (e : Entity)
    (ai : AIComponent F) : AIComponent F :=
  if AISystem.distance m w e ai ≤ ai.attackRange then (AISystem.attack deltaTime ai).1 else ai

end Statements5

/-- The initial world of `sampleGame` with the enemy moved to (400, 500), at
distance 500 from the player at (100, 100). -/
def closeRange (F : Type) [LinearOrderedField F] : World F :=
  { initialWorld sampleGame with
    positions := [(playerEntity, ⟨100, 100⟩), (enemy1, ⟨400, 500⟩)] }

/-- The state `closeRange` with the attack window of the enemy about to close
(`attack_time` 79 of 80) and its shoot timer at 10. -/
def closing (F : Type) [LinearOrderedField F] : World F :=
  { closeRange F with ais := [(enemy1, ⟨playerEntity, 150, 1344, 0, 180, 79, 80, 10, 20⟩)] }

section Statements6

variable {F : Type} [LinearOrderedField F]

/-- Whether the point of the projectile `p` of the entity `owner` lies strictly
inside the sprite rectangle of some entry of the health map `hs` whose entity is
not `owner`, the rectangles being read through `position` and `render`. -/
def HealthSystem.collidesAny (position : Entity → PositionComponent F)
    (render : Entity → RenderComponent) (hs : UMap HealthComponent) (owner : Entity)
    (p : ProjectileComponent F) : Bool :=
  hs.any fun t => decide (t.1 ≠ owner) && HealthSystem.collides p (position t.1) (render t.1)

end Statements6

/-- The initial world of `sampleGame` with the enemy moved to (110, 100), at
distance 10 from the player at (100, 100). -/
def pointBlank (F : Type) [LinearOrderedField F] : World F :=
  { initialWorld sampleGame with
    positions := [(playerEntity, ⟨100, 100⟩), (enemy1, ⟨110, 100⟩)] }

/-- The initial world of `sampleGame` with the UP and the DOWN key held. -/
def tugging (F : Type) [LinearOrderedField F] : World F :=
  { initialWorld sampleGame with
    inputs := [(playerEntity, ⟨true, true, false, false, false, false, false, false⟩)] }

/-! ## Lemmas on the component stores -/

namespace UMap

variable {V : Type}

theorem ref_touch [Inhabited V] (m : UMap V) (e k : Entity) :
    (m.touch e).ref k = m.ref k := by
  unfold touch
  split
  · rfl
  · rename_i h
    unfold ref
    induction m with
    | nil =>
      simp only [List.nil_append, find?]
      split
      · rfl
      · rfl
    | cons a m ih =>
      obtain ⟨k0, v0⟩ := a
      simp only [contains] at h
      split at h
      · simp at h
      · simp only [List.cons_append, find?]
        split
        · rfl
        · exact ih h

theorem find?_set_self (m : UMap V) (e : Entity) (v : V) : (m.set e v).find? e = some v := by
  induction m with
  | nil => simp [set, find?]
  | cons a m ih =>
    obtain ⟨k0, v0⟩ := a
    by_cases h : k0 = e
    · simp [set, find?, h]
    · simp [set, find?, h, ih]

theorem find?_set_ne (m : UMap V) (e k : Entity) (v : V) (h : e ≠ k) :
    (m.set e v).find? k = m.find? k := by
  induction m with
  | nil => simp [set, find?, h]
  | cons a m ih =>
    obtain ⟨k0, v0⟩ := a
    by_cases h0 : k0 = e
    · subst h0
      simp [set, find?, h]
    · by_cases h1 : k0 = k
      · subst h1
        simp [set, find?, h0]
      · simp [set, find?, h0, h1, ih]

theorem ref_set_self [Inhabited V] (m : UMap V) (e : Entity) (v : V) : (m.set e v).ref e = v := by
  simp [ref, find?_set_self]

theorem ref_set_ne [Inhabited V] (m : UMap V) (e k : Entity) (v : V) (h : e ≠ k) :
    (m.set e v).ref k = m.ref k := by
  simp [ref, find?_set_ne m e k v h]

theorem contains_set (m : UMap V) (e k : Entity) (v : V) :
    (m.set e v).contains k = (decide (e = k) || m.contains k) := by
  induction m with
  | nil => simp [set, contains]
  | cons a m ih =>
    obtain ⟨k0, v0⟩ := a
    by_cases h0 : k0 = e
    · subst h0
      by_cases h1 : k0 = k <;> simp [set, contains, h1]
    · by_cases h1 : k0 = k
      · subst h1
        simp [set, contains, h0]
      · simp [set, contains, h0, h1, ih]

theorem contains_touch [Inhabited V] (m : UMap V) (e k : Entity) :
    (m.touch e).contains k = (decide (e = k) || m.contains k) := by
  unfold touch
  by_cases hc : m.contains e = true
  · rw [if_pos hc]
    by_cases h : e = k
    · subst h
      simp [hc]
    · simp [h]
  · rw [if_neg hc]
    clear hc
    induction m with
    | nil => simp [contains]
    | cons a m ih =>
      obtain ⟨k0, v0⟩ := a
      by_cases h1 : k0 = k
      · simp [contains, h1]
      · simp [contains, h1, ih]

theorem find?_eq_none_of_contains (m : UMap V) (e : Entity) (h : m.contains e = false) :
    m.find? e = none := by
  induction m with
  | nil => rfl
  | cons a m ih =>
    obtain ⟨k0, v0⟩ := a
    by_cases h0 : k0 = e
    · simp [contains, h0] at h
    · simp only [contains, h0, if_false] at h
      simp [find?, h0, ih h]

end UMap

/-! ## Lemmas on `forEach` -/

theorem forEach_length {A S : Type} (f : A → S → A × S) (l : List A) (s : S) :
    (forEach f l s).1.length = l.length := by
  induction l generalizing s with
  | nil => rfl
  | cons a l ih => simp [forEach, ih]

theorem forEach_append {A S : Type} (f : A → S → A × S) (l1 l2 : List A) (s : S) :
    forEach f (l1 ++ l2) s =
      ((forEach f l1 s).1 ++ (forEach f l2 (forEach f l1 s).2).1,
       (forEach f l2 (forEach f l1 s).2).2) := by
  induction l1 generalizing s with
  | nil => simp [forEach]
  | cons a l ih => simp [forEach, ih]

/-- An invariant of the threaded state that every body execution keeps is kept
by the loop. -/
theorem forEach_state {A S : Type} (f : A → S → A × S) (I : S → Prop)
    (hf : ∀ a s, I s → I (f a s).2) (l : List A) (s : S) (hs : I s) :
    I (forEach f l s).2 := by
  induction l generalizing s with
  | nil => exact hs
  | cons a l ih => exact ih _ (hf a s hs)

/-- Elementwise postcondition of a loop under a state invariant. -/
theorem forEach_post {A S : Type} (f : A → S → A × S) (I : S → Prop) (P Q : A → Prop)
    (hf : ∀ a s, P a → I s → Q (f a s).1 ∧ I (f a s).2) (l : List A) (s : S)
    (hl : ∀ a ∈ l, P a) (hs : I s) :
    (∀ b ∈ (forEach f l s).1, Q b) ∧ I (forEach f l s).2 := by
  induction l generalizing s with
  | nil => exact ⟨by simp [forEach], hs⟩
  | cons a l ih =>
    have h1 := hf a s (hl a (List.mem_cons_self a l)) hs
    have h2 := ih (f a s).2 (fun b hb => hl b (List.mem_cons_of_mem a hb)) h1.2
    refine ⟨?_, h2.2⟩
    intro b hb
    simp only [forEach, List.mem_cons] at hb
    rcases hb with rfl | hb
    · exact h1.1
    · exact h2.1 b hb

/-! ## HealthSystem: the loops in closed form -/

section HealthLemmas

variable {F : Type} [LinearOrderedField F]

theorem HealthSystem.hit_fst (entity : Entity) (position : PositionComponent F)
    (render : RenderComponent) (p : ProjectileComponent F) (s : HitState) :
    (HealthSystem.hit entity position render p s).1 =
      HealthSystem.deactivate position render p := by
  unfold HealthSystem.hit HealthSystem.deactivate
  cases hp : p.active <;> cases hc : HealthSystem.collides p position render <;> simp
  split <;> rfl

theorem HealthSystem.hit_health (entity : Entity) (position : PositionComponent F)
    (render : RenderComponent) (p : ProjectileComponent F) (s : HitState) :
    (HealthSystem.hit entity position render p s).2.health =
      ⟨if (p.active && HealthSystem.collides p position render) = true then
          HealthSystem.applyDamage s.health.current p.damage
        else s.health.current, s.health.maxHealth⟩ := by
  unfold HealthSystem.hit HealthSystem.applyDamage
  cases hp : p.active <;> cases hc : HealthSystem.collides p position render <;> simp
  split <;> rfl

theorem HealthSystem.forEach_hit_fst (entity : Entity) (position : PositionComponent F)
    (render : RenderComponent) (v : List (ProjectileComponent F)) (s : HitState) :
    (forEach (HealthSystem.hit entity position render) v s).1 =
      v.map (HealthSystem.deactivate position render) := by
  induction v generalizing s with
  | nil => rfl
  | cons p v ih => simp [forEach, ih, HealthSystem.hit_fst]

theorem HealthSystem.forEach_hit_health (entity : Entity) (position : PositionComponent F)
    (render : RenderComponent) (v : List (ProjectileComponent F)) (s : HitState) :
    (forEach (HealthSystem.hit entity position render) v s).2.health =
      ⟨(HealthSystem.hits position render v).foldl HealthSystem.applyDamage s.health.current,
       s.health.maxHealth⟩ := by
  induction v generalizing s with
  | nil => rfl
  | cons p v ih =>
    simp only [forEach, ih, HealthSystem.hit_health, HealthSystem.hits]
    by_cases h : (p.active && HealthSystem.collides p position render) = true
    · simp [List.filter_cons, h]
    · simp [List.filter_cons, h]

theorem HealthSystem.forEach_hitOwner_fst (entity : Entity) (position : PositionComponent F)
    (render : RenderComponent) (projectiles : UMap (List (ProjectileComponent F)))
    (s : HitState) :
    (forEach (HealthSystem.hitOwner entity position render) projectiles s).1 =
      HealthSystem.sweep entity position render projectiles := by
  induction projectiles generalizing s with
  | nil => rfl
  | cons o rest ih =>
    simp only [forEach, ih, HealthSystem.sweep, List.map_cons]
    congr 1
    unfold HealthSystem.hitOwner HealthSystem.sweepOwner
    split
    · rfl
    · simp [HealthSystem.forEach_hit_fst]

theorem HealthSystem.forEach_hitOwner_health (entity : Entity)
    (position : PositionComponent F) (render : RenderComponent)
    (projectiles : UMap (List (ProjectileComponent F))) (s : HitState) :
    (forEach (HealthSystem.hitOwner entity position render) projectiles s).2.health =
      ⟨(HealthSystem.hitsOn entity position render projectiles).foldl
          HealthSystem.applyDamage s.health.current, s.health.maxHealth⟩ := by
  induction projectiles generalizing s with
  | nil => rfl
  | cons o rest ih =>
    simp only [forEach, ih, HealthSystem.hitsOn, List.foldl_append]
    unfold HealthSystem.hitOwner
    split
    · simp
    · simp [HealthSystem.forEach_hit_health]

theorem HealthSystem.target_fst (t : Entity × HealthComponent) (w : World F) :
    (HealthSystem.target t w).1 =
      (t.1, { t.2 with current :=
        (HealthSystem.hitsOn t.1 (w.positions.ref t.1) (w.renders.ref t.1)
          w.projectiles).foldl HealthSystem.applyDamage t.2.current }) := by
  simp [HealthSystem.target, HealthSystem.forEach_hitOwner_health]

theorem HealthSystem.target_projectiles (t : Entity × HealthComponent) (w : World F) :
    (HealthSystem.target t w).2.projectiles =
      HealthSystem.sweep t.1 (w.positions.ref t.1) (w.renders.ref t.1) w.projectiles := by
  simp [HealthSystem.target, HealthSystem.forEach_hitOwner_fst]

theorem HealthSystem.target_positions_ref (t : Entity × HealthComponent) (w : World F) :
    (HealthSystem.target t w).2.positions.ref = w.positions.ref := by
  funext k
  simp [HealthSystem.target, UMap.ref_touch]

theorem HealthSystem.target_renders_ref (t : Entity × HealthComponent) (w : World F) :
    (HealthSystem.target t w).2.renders.ref = w.renders.ref := by
  funext k
  simp [HealthSystem.target, UMap.ref_touch]

theorem HealthSystem.forEach_target (hs : UMap HealthComponent) (w : World F) :
    (forEach HealthSystem.target hs w).1 =
        (HealthSystem.resolve w.positions.ref w.renders.ref hs w.projectiles).1 ∧
      (forEach HealthSystem.target hs w).2.projectiles =
        (HealthSystem.resolve w.positions.ref w.renders.ref hs w.projectiles).2 := by
  induction hs generalizing w with
  | nil => exact ⟨rfl, rfl⟩
  | cons t rest ih =>
    have h := ih (HealthSystem.target t w).2
    rw [HealthSystem.target_positions_ref, HealthSystem.target_renders_ref,
      HealthSystem.target_projectiles] at h
    simp only [forEach, HealthSystem.resolve]
    exact ⟨by rw [h.1, HealthSystem.target_fst], h.2⟩

theorem HealthSystem.update_healths_eq (deltaTime : F) (w : World F) :
    (HealthSystem.update deltaTime w).healths =
      (HealthSystem.resolve w.positions.ref w.renders.ref w.healths w.projectiles).1 :=
  (HealthSystem.forEach_target w.healths w).1

theorem HealthSystem.update_projectiles_eq (deltaTime : F) (w : World F) :
    (HealthSystem.update deltaTime w).projectiles =
      (HealthSystem.resolve w.positions.ref w.renders.ref w.healths w.projectiles).2 :=
  (HealthSystem.forEach_target w.healths w).2

end HealthLemmas

/-! ## Arithmetic of the damage step -/

theorem wrapInt32_of_isInt32 (z : Int) (h : IsInt32 z) : wrapInt32 z = z := by
  unfold IsInt32 at h
  unfold wrapInt32
  omega

theorem HealthSystem.applyDamage_eq_max (c d : Int) (hc0 : 0 ≤ c) (hc : IsInt32 c)
    (hd0 : 0 ≤ d) (hd : IsInt32 d) : HealthSystem.applyDamage c d = max 0 (c - d) := by
  have hw : wrapInt32 (c - d) = c - d := by
    apply wrapInt32_of_isInt32
    unfold IsInt32 at *
    omega
  unfold HealthSystem.applyDamage
  rw [hw]
  split
  · rw [max_eq_left (by assumption)]
  · rw [max_eq_right (by omega)]

theorem HealthSystem.foldl_applyDamage (ds : List Int) (c : Int) (hc0 : 0 ≤ c)
    (hc : IsInt32 c) (hds : ∀ d ∈ ds, 0 ≤ d ∧ IsInt32 d) :
    ds.foldl HealthSystem.applyDamage c = max 0 (c - ds.sum) := by
  induction ds generalizing c with
  | nil => simp [hc0]
  | cons d ds ih =>
    have hd := hds d (List.mem_cons_self d ds)
    have h1 := HealthSystem.applyDamage_eq_max c d hc0 hc hd.1 hd.2
    have h2 : 0 ≤ HealthSystem.applyDamage c d := by rw [h1]; exact le_max_left _ _
    have h3 : IsInt32 (HealthSystem.applyDamage c d) := by
      rw [h1]
      unfold IsInt32 at *
      rcases max_cases 0 (c - d) with ⟨h, _⟩ | ⟨h, _⟩ <;> rw [h] <;> omega
    have hsum : 0 ≤ ds.sum := List.sum_nonneg fun x hx => (hds x (List.mem_cons_of_mem d hx)).1
    rw [List.foldl_cons, ih _ h2 h3 (fun x hx => hds x (List.mem_cons_of_mem d hx)), h1,
      List.sum_cons]
    rcases max_cases 0 (c - d) with ⟨h, h'⟩ | ⟨h, h'⟩
    · rw [h, max_eq_left (by omega), max_eq_left (by omega)]
    · rw [h]
      congr 1
      omega

section HealthFacts

variable {F : Type} [LinearOrderedField F]

theorem HealthSystem.mem_hits (position : PositionComponent F) (render : RenderComponent)
    (v : List (ProjectileComponent F)) (d : Int)
    (h : d ∈ HealthSystem.hits position render v) : ∃ p ∈ v, p.damage = d := by
  simp only [HealthSystem.hits, List.mem_map, List.mem_filter] at h
  obtain ⟨p, ⟨hp, _⟩, rfl⟩ := h
  exact ⟨p, hp, rfl⟩

theorem HealthSystem.mem_hitsOn (entity : Entity) (position : PositionComponent F)
    (render : RenderComponent) (projectiles : UMap (List (ProjectileComponent F))) (d : Int)
    (h : d ∈ HealthSystem.hitsOn entity position render projectiles) :
    ∃ o ∈ projectiles, entity ≠ o.1 ∧ ∃ p ∈ o.2, p.damage = d := by
  induction projectiles with
  | nil => simp [HealthSystem.hitsOn] at h
  | cons o rest ih =>
    simp only [HealthSystem.hitsOn, List.mem_append] at h
    rcases h with h | h
    · split at h
      · simp at h
      · rename_i hne
        exact ⟨o, List.mem_cons_self o rest, hne, HealthSystem.mem_hits position render o.2 d h⟩
    · obtain ⟨o', ho', hne, hp⟩ := ih h
      exact ⟨o', List.mem_cons_of_mem o ho', hne, hp⟩

theorem HealthSystem.deactivate_damage (position : PositionComponent F)
    (render : RenderComponent) (p : ProjectileComponent F) :
    (HealthSystem.deactivate position render p).damage = p.damage := by
  unfold HealthSystem.deactivate
  split <;> rfl

/-- A property of the damages of the projectiles of owners selected by `sel`
survives the processing of a target. -/
theorem HealthSystem.sweep_damage (entity : Entity) (position : PositionComponent F)
    (render : RenderComponent) (projectiles : UMap (List (ProjectileComponent F)))
    (sel : Entity → Prop) (P : Int → Prop)
    (h : ∀ o ∈ projectiles, sel o.1 → ∀ p ∈ o.2, P p.damage) :
    ∀ o ∈ HealthSystem.sweep entity position render projectiles, sel o.1 →
      ∀ p ∈ o.2, P p.damage := by
  intro o ho hsel p hp
  simp only [HealthSystem.sweep, List.mem_map] at ho
  obtain ⟨o0, ho0, rfl⟩ := ho
  unfold HealthSystem.sweepOwner at hp hsel
  split at hp
  · rename_i heq
    rw [if_pos heq] at hsel
    exact h o0 ho0 hsel p hp
  · rename_i hne
    rw [if_neg hne] at hsel
    simp only [List.mem_map] at hp
    obtain ⟨p0, hp0, rfl⟩ := hp
    rw [HealthSystem.deactivate_damage]
    exact h o0 ho0 hsel p0 hp0

theorem HealthSystem.resolve_clamped (position : Entity → PositionComponent F)
    (render : Entity → RenderComponent) (hs : UMap HealthComponent)
    (projectiles : UMap (List (ProjectileComponent F)))
    (hmax : ∀ t ∈ hs, IsInt32 t.2.maxHealth)
    (hh : ∀ t ∈ hs, 0 ≤ t.2.current ∧ t.2.current ≤ t.2.maxHealth)
    (hd : ∀ o ∈ projectiles, True → ∀ p ∈ o.2, 0 ≤ p.damage ∧ IsInt32 p.damage) :
    ∀ t ∈ (HealthSystem.resolve position render hs projectiles).1,
      0 ≤ t.2.current ∧ t.2.current ≤ t.2.maxHealth := by
  induction hs generalizing projectiles with
  | nil => simp [HealthSystem.resolve]
  | cons t rest ih =>
    intro t' ht'
    simp only [HealthSystem.resolve, List.mem_cons] at ht'
    rcases ht' with rfl | ht'
    · have h0 := hh t (List.mem_cons_self t rest)
      have hm := hmax t (List.mem_cons_self t rest)
      have hsum : 0 ≤ (HealthSystem.hitsOn t.1 (position t.1) (render t.1) projectiles).sum := by
        apply List.sum_nonneg
        intro d hd'
        obtain ⟨o, ho, _, p, hp, rfl⟩ := HealthSystem.mem_hitsOn _ _ _ _ d hd'
        exact (hd o ho trivial p hp).1
      simp only
      rw [HealthSystem.foldl_applyDamage _ _ h0.1 (by unfold IsInt32 at *; omega)]
      · constructor
        · exact le_max_left _ _
        · apply max_le <;> omega
      · intro d hd'
        obtain ⟨o, ho, _, p, hp, rfl⟩ := HealthSystem.mem_hitsOn _ _ _ _ d hd'
        exact hd o ho trivial p hp
    · exact ih _ (fun x hx => hmax x (List.mem_cons_of_mem t hx))
        (fun x hx => hh x (List.mem_cons_of_mem t hx))
        (HealthSystem.sweep_damage _ _ _ _ (fun _ => True) (fun d => 0 ≤ d ∧ IsInt32 d) hd)
        t' ht'

theorem HealthSystem.resolve_keys (position : Entity → PositionComponent F)
    (render : Entity → RenderComponent) (hs : UMap HealthComponent)
    (projectiles : UMap (List (ProjectileComponent F))) :
    (HealthSystem.resolve position render hs projectiles).1.map
        (fun t => (t.1, t.2.maxHealth)) = hs.map (fun t => (t.1, t.2.maxHealth)) := by
  induction hs generalizing projectiles with
  | nil => rfl
  | cons t rest ih => simp [HealthSystem.resolve, ih]

end HealthFacts

/-! ## HealthSystem: what a target does to the projectiles of the others -/

namespace UMap

variable {V : Type}

theorem mem_of_find? (m : UMap V) (e : Entity) (v : V) (h : m.find? e = some v) :
    (e, v) ∈ m := by
  induction m with
  | nil => simp [find?] at h
  | cons a m ih =>
    obtain ⟨k0, v0⟩ := a
    by_cases h0 : k0 = e
    · subst h0
      simp only [find?, if_true, Option.some.injEq] at h
      subst h
      exact List.mem_cons_self _ _
    · simp only [find?, h0, if_false] at h
      exact List.mem_cons_of_mem _ (ih h)

theorem find?_map_entry {W : Type} (g : Entity × V → Entity × W) (hg : ∀ o, (g o).1 = o.1)
    (m : UMap V) (k : Entity) :
    UMap.find? (m.map g) k = (UMap.find? m k).map fun v => (g (k, v)).2 := by
  induction m with
  | nil => rfl
  | cons a m ih =>
    obtain ⟨k0, v0⟩ := a
    have h1 : g (k0, v0) = (k0, (g (k0, v0)).2) := Prod.ext (hg (k0, v0)) rfl
    by_cases h0 : k0 = k
    · subst h0
      rw [List.map_cons, h1]
      simp [find?]
    · rw [List.map_cons, h1]
      simp [find?, h0, ih]

end UMap

section SweepLemmas

variable {F : Type} [LinearOrderedField F]

theorem HealthSystem.sweepOwner_fst (entity : Entity) (position : PositionComponent F)
    (render : RenderComponent) (o : Entity × List (ProjectileComponent F)) :
    (HealthSystem.sweepOwner entity position render o).1 = o.1 := by
  unfold HealthSystem.sweepOwner
  split <;> rfl

theorem HealthSystem.sweepAll_fst (position : Entity → PositionComponent F)
    (render : Entity → RenderComponent) (hs : UMap HealthComponent)
    (o : Entity × List (ProjectileComponent F)) :
    (HealthSystem.sweepAll position render hs o).1 = o.1 := by
  induction hs generalizing o with
  | nil => rfl
  | cons t rest ih => simp [HealthSystem.sweepAll, ih, HealthSystem.sweepOwner_fst]

theorem HealthSystem.resolve_snd (position : Entity → PositionComponent F)
    (render : Entity → RenderComponent) (hs : UMap HealthComponent)
    (projectiles : UMap (List (ProjectileComponent F))) :
    (HealthSystem.resolve position render hs projectiles).2 =
      projectiles.map (HealthSystem.sweepAll position render hs) := by
  induction hs generalizing projectiles with
  | nil => simp [HealthSystem.resolve, HealthSystem.sweepAll]
  | cons t rest ih =>
    simp only [HealthSystem.resolve, ih, HealthSystem.sweep, List.map_map]
    rfl

theorem HealthSystem.deactivate_inert (position : PositionComponent F)
    (render : RenderComponent) (p : ProjectileComponent F)
    (h : p.active = true → HealthSystem.collides p position render = false) :
    HealthSystem.deactivate position render p = p := by
  unfold HealthSystem.deactivate
  cases hp : p.active
  · simp
  · simp [h hp]

theorem HealthSystem.deactivate_active (position : PositionComponent F)
    (render : RenderComponent) (p : ProjectileComponent F)
    (h : (HealthSystem.deactivate position render p).active = true) :
    p.active = true ∧ HealthSystem.deactivate position render p = p := by
  unfold HealthSystem.deactivate at h ⊢
  split at h
  · simp at h
  · rename_i hn
    rw [if_neg hn]
    exact ⟨h, rfl⟩

theorem HealthSystem.collides_deactivate (position position1 : PositionComponent F)
    (render render1 : RenderComponent) (p : ProjectileComponent F) :
    HealthSystem.collides (HealthSystem.deactivate position render p) position1 render1 =
      HealthSystem.collides p position1 render1 := by
  unfold HealthSystem.deactivate
  split <;> rfl

theorem HealthSystem.deactivate_idem (position : PositionComponent F)
    (render : RenderComponent) (p : ProjectileComponent F) :
    HealthSystem.deactivate position render (HealthSystem.deactivate position render p) =
      HealthSystem.deactivate position render p := by
  apply HealthSystem.deactivate_inert
  intro h
  have h1 := HealthSystem.deactivate_active position render p h
  rw [h1.2]
  unfold HealthSystem.deactivate at h
  split at h
  · simp at h
  · rename_i hn
    simpa [h1.1] using hn

theorem HealthSystem.deactivate_after (position position1 : PositionComponent F)
    (render render1 : RenderComponent) (p : ProjectileComponent F)
    (h : p.active = true → HealthSystem.collides p position1 render1 = false) :
    HealthSystem.deactivate position1 render1 (HealthSystem.deactivate position render p) =
      HealthSystem.deactivate position render p := by
  apply HealthSystem.deactivate_inert
  intro h1
  rw [HealthSystem.collides_deactivate]
  exact h (HealthSystem.deactivate_active position render p h1).1

theorem HealthSystem.sweepOwner_inert (entity : Entity) (position : PositionComponent F)
    (render : RenderComponent) (o : Entity × List (ProjectileComponent F))
    (h : entity ≠ o.1 → ∀ p ∈ o.2, p.active = true →
      HealthSystem.collides p position render = false) :
    HealthSystem.sweepOwner entity position render o = o := by
  unfold HealthSystem.sweepOwner
  split
  · rfl
  · rename_i hne
    have : o.2.map (HealthSystem.deactivate position render) = o.2 := by
      conv_rhs => rw [← List.map_id o.2]
      apply List.map_congr_left
      intro p hp
      exact HealthSystem.deactivate_inert position render p (h hne p hp)
    rw [this]

/-- Targets whose rectangle holds no active projectile of the owner leave the
owner entry as it is. -/
theorem HealthSystem.sweepAll_inert (position : Entity → PositionComponent F)
    (render : Entity → RenderComponent) (hs : UMap HealthComponent)
    (o : Entity × List (ProjectileComponent F))
    (h : ∀ t ∈ hs, t.1 ≠ o.1 → ∀ p ∈ o.2, p.active = true →
      HealthSystem.collides p (position t.1) (render t.1) = false) :
    HealthSystem.sweepAll position render hs o = o := by
  induction hs with
  | nil => rfl
  | cons t rest ih =>
    simp only [HealthSystem.sweepAll]
    rw [HealthSystem.sweepOwner_inert _ _ _ _ (h t (List.mem_cons_self t rest))]
    exact ih fun t' ht' => h t' (List.mem_cons_of_mem t ht')

/-- Once the target `e` has swept an owner entry, later targets whose rectangle
holds no active projectile of that owner (and later entries of `e` itself) leave
it as it is. -/
theorem HealthSystem.sweepAll_swept (position : Entity → PositionComponent F)
    (render : Entity → RenderComponent) (e : Entity) (hs : UMap HealthComponent)
    (o : Entity) (v : List (ProjectileComponent F))
    (h : ∀ t ∈ hs, t.1 ≠ e → t.1 ≠ o → ∀ p ∈ v, p.active = true →
      HealthSystem.collides p (position t.1) (render t.1) = false) :
    HealthSystem.sweepAll position render hs
        (o, v.map (HealthSystem.deactivate (position e) (render e))) =
      (o, v.map (HealthSystem.deactivate (position e) (render e))) := by
  induction hs with
  | nil => rfl
  | cons t rest ih =>
    simp only [HealthSystem.sweepAll]
    have hstep : HealthSystem.sweepOwner t.1 (position t.1) (render t.1)
        (o, v.map (HealthSystem.deactivate (position e) (render e))) =
        (o, v.map (HealthSystem.deactivate (position e) (render e))) := by
      unfold HealthSystem.sweepOwner
      split
      · rfl
      · rename_i hne
        simp only [List.map_map]
        congr 1
        apply List.map_congr_left
        intro p hp
        simp only [Function.comp]
        by_cases hte : t.1 = e
        · rw [hte]
          exact HealthSystem.deactivate_idem _ _ p
        · exact HealthSystem.deactivate_after _ _ _ _ p
            (h t (List.mem_cons_self t rest) hte hne p hp)
    rw [hstep]
    exact ih fun t' ht' => h t' (List.mem_cons_of_mem t ht')

/-- The entry of an owner other than `e` after the whole update, when no other
target holds an active projectile of that owner in its rectangle. -/
theorem HealthSystem.sweepAll_target (position : Entity → PositionComponent F)
    (render : Entity → RenderComponent) (e : Entity) (hs : UMap HealthComponent)
    (he : hs.contains e = true) (o : Entity) (v : List (ProjectileComponent F)) (hoe : o ≠ e)
    (h : ∀ t ∈ hs, t.1 ≠ e → t.1 ≠ o → ∀ p ∈ v, p.active = true →
      HealthSystem.collides p (position t.1) (render t.1) = false) :
    HealthSystem.sweepAll position render hs (o, v) =
      (o, v.map (HealthSystem.deactivate (position e) (render e))) := by
  induction hs with
  | nil => simp [UMap.contains] at he
  | cons t rest ih =>
    obtain ⟨k, hk⟩ := t
    simp only [HealthSystem.sweepAll]
    by_cases hke : k = e
    · subst hke
      have : HealthSystem.sweepOwner k (position k) (render k) (o, v) =
          (o, v.map (HealthSystem.deactivate (position k) (render k))) := by
        unfold HealthSystem.sweepOwner
        rw [if_neg (fun hh => hoe hh.symm)]
      rw [this]
      exact HealthSystem.sweepAll_swept position render k rest o v
        fun t' ht' => h t' (List.mem_cons_of_mem _ ht')
    · simp only [UMap.contains, hke, if_false] at he
      rw [HealthSystem.sweepOwner_inert _ _ _ (o, v)
        (fun hne p hp => h (k, hk) (List.mem_cons_self _ _) hke hne p hp)]
      exact ih he fun t' ht' => h t' (List.mem_cons_of_mem _ ht')

end SweepLemmas

section ResolveLemmas

variable {F : Type} [LinearOrderedField F]

theorem HealthSystem.hitsOn_map (e : Entity) (position : PositionComponent F)
    (render : RenderComponent) (projectiles : UMap (List (ProjectileComponent F)))
    (g : Entity × List (ProjectileComponent F) → Entity × List (ProjectileComponent F))
    (hg1 : ∀ o, (g o).1 = o.1) (hg2 : ∀ o ∈ projectiles, o.1 ≠ e → g o = o) :
    HealthSystem.hitsOn e position render (projectiles.map g) =
      HealthSystem.hitsOn e position render projectiles := by
  induction projectiles with
  | nil => rfl
  | cons o rest ih =>
    simp only [List.map_cons, HealthSystem.hitsOn, hg1]
    rw [ih fun o' ho' => hg2 o' (List.mem_cons_of_mem o ho')]
    congr 1
    by_cases he : e = o.1
    · simp [he]
    · rw [hg2 o (List.mem_cons_self o rest) (fun h => he h.symm)]

theorem HealthSystem.hitsOn_filter (e : Entity) (position : PositionComponent F)
    (render : RenderComponent) (projectiles : UMap (List (ProjectileComponent F))) :
    HealthSystem.hitsOn e position render projectiles =
      HealthSystem.hitsOn e position render (projectiles.filter fun o => decide (o.1 ≠ e)) := by
  induction projectiles with
  | nil => rfl
  | cons o rest ih =>
    by_cases he : o.1 = e
    · have : (decide (o.1 ≠ e)) = false := by simp [he]
      rw [List.filter_cons_of_neg (by simp [he])]
      simp only [HealthSystem.hitsOn, he, if_true, List.nil_append]
      exact ih
    · rw [List.filter_cons_of_pos (by simp [he])]
      simp only [HealthSystem.hitsOn]
      rw [ih]

theorem HealthSystem.filter_sweep (e entity : Entity) (position : PositionComponent F)
    (render : RenderComponent) (projectiles : UMap (List (ProjectileComponent F))) :
    (HealthSystem.sweep entity position render projectiles).filter (fun o => decide (o.1 ≠ e)) =
      HealthSystem.sweep entity position render
        (projectiles.filter fun o => decide (o.1 ≠ e)) := by
  induction projectiles with
  | nil => rfl
  | cons o rest ih =>
    simp only [HealthSystem.sweep, List.map_cons] at ih ⊢
    by_cases he : o.1 = e
    · rw [List.filter_cons_of_neg (by simp [he, HealthSystem.sweepOwner_fst]),
        List.filter_cons_of_neg (by simp [he]), ih]
    · rw [List.filter_cons_of_pos (by simp [he, HealthSystem.sweepOwner_fst]),
        List.filter_cons_of_pos (by simp [he]), ih, List.map_cons]

/-- The health that the update leaves to `e` is a function of the projectiles
of the other owners. -/
theorem HealthSystem.resolve_find_congr (position : Entity → PositionComponent F)
    (render : Entity → RenderComponent) (e : Entity) (hs : UMap HealthComponent)
    (a b : UMap (List (ProjectileComponent F)))
    (hab : a.filter (fun o => decide (o.1 ≠ e)) = b.filter (fun o => decide (o.1 ≠ e))) :
    (HealthSystem.resolve position render hs a).1.find? e =
      (HealthSystem.resolve position render hs b).1.find? e := by
  induction hs generalizing a b with
  | nil => rfl
  | cons t rest ih =>
    obtain ⟨k, hk⟩ := t
    simp only [HealthSystem.resolve, UMap.find?]
    by_cases hke : k = e
    · subst hke
      simp only [if_true]
      rw [HealthSystem.hitsOn_filter k _ _ a, HealthSystem.hitsOn_filter k _ _ b, hab]
    · simp only [hke, if_false]
      apply ih
      rw [HealthSystem.filter_sweep, HealthSystem.filter_sweep, hab]

/-- The health that the update leaves to `e` when no target in front of it holds
an active projectile of a third owner in its rectangle. -/
theorem HealthSystem.resolve_find_target (position : Entity → PositionComponent F)
    (render : Entity → RenderComponent) (e : Entity) (h : HealthComponent)
    (hs : UMap HealthComponent) (projectiles : UMap (List (ProjectileComponent F)))
    (hfind : hs.find? e = some h)
    (hsep : ∀ t ∈ hs, t.1 ≠ e → ∀ o ∈ projectiles, o.1 ≠ e → o.1 ≠ t.1 →
      ∀ p ∈ o.2, p.active = true →
        HealthSystem.collides p (position t.1) (render t.1) = false) :
    (HealthSystem.resolve position render hs projectiles).1.find? e =
      some ⟨(HealthSystem.hitsOn e (position e) (render e) projectiles).foldl
        HealthSystem.applyDamage h.current, h.maxHealth⟩ := by
  induction hs generalizing projectiles with
  | nil => simp [UMap.find?] at hfind
  | cons t rest ih =>
    obtain ⟨k, hk⟩ := t
    simp only [HealthSystem.resolve, UMap.find?]
    by_cases hke : k = e
    · subst hke
      simp only [UMap.find?, if_true, Option.some.injEq] at hfind
      subst hfind
      simp
    · simp only [UMap.find?, hke, if_false] at hfind
      simp only [hke, if_false]
      have hfix : ∀ o ∈ projectiles, o.1 ≠ e →
          HealthSystem.sweepOwner k (position k) (render k) o = o := by
        intro o ho hoe
        apply HealthSystem.sweepOwner_inert
        intro hne p hp hact
        exact hsep (k, hk) (List.mem_cons_self _ _) hke o ho hoe (fun hh => hne hh.symm) p hp hact
      rw [ih _ hfind, HealthSystem.sweep,
        HealthSystem.hitsOn_map e _ _ projectiles _ (HealthSystem.sweepOwner_fst k _ _) hfix]
      intro t ht hte o ho hoe hot p hp hact
      simp only [HealthSystem.sweep, List.mem_map] at ho
      obtain ⟨o0, ho0, rfl⟩ := ho
      rw [HealthSystem.sweepOwner_fst] at hoe hot
      rw [hfix o0 ho0 hoe] at hp
      exact hsep t (List.mem_cons_of_mem _ ht) hte o0 ho0 hoe hot p hp hact

theorem UMap.contains_of_find? {V : Type} (m : UMap V) (e : Entity) (v : V)
    (h : m.find? e = some v) : m.contains e = true := by
  cases hc : m.contains e
  · rw [UMap.find?_eq_none_of_contains m e hc] at h
    simp at h
  · rfl

end ResolveLemmas

/-! ## Which components a system writes -/

theorem forEach_proj {A S X : Type} (f : A → S → A × S) (π : S → X)
    (hf : ∀ a s, π (f a s).2 = π s) (l : List A) (s : S) :
    π (forEach f l s).2 = π s :=
  forEach_state f (fun s' => π s' = π s) (fun a s' h => (hf a s').trans h) l s rfl

section InactiveBasics

variable {F : Type}

theorem InactiveKept.refl (ps : UMap (List (ProjectileComponent F))) : InactiveKept ps ps :=
  fun _ v hv => ⟨v, hv, fun _ _ hp _ => hp⟩

theorem InactiveKept.trans {a b c : UMap (List (ProjectileComponent F))}
    (hab : InactiveKept a b) (hbc : InactiveKept b c) : InactiveKept a c := by
  intro o v hv
  obtain ⟨v1, hv1, h1⟩ := hab o v hv
  obtain ⟨v2, hv2, h2⟩ := hbc o v1 hv1
  exact ⟨v2, hv2, fun i p hp hact => h2 i p (h1 i p hp hact) hact⟩

/-- The call `projectiles[e].push_back(q)` keeps every projectile where it is. -/
theorem InactiveKept.push_back (ps : UMap (List (ProjectileComponent F))) (e : Entity)
    (q : ProjectileComponent F) : InactiveKept ps (ps.set e (ps.ref e ++ [q])) := by
  intro o v hv
  by_cases hoe : e = o
  · subst hoe
    refine ⟨ps.ref e ++ [q], UMap.find?_set_self _ _ _, ?_⟩
    intro i p hp _
    have hr : ps.ref e = v := by simp [UMap.ref, hv]
    rw [hr]
    have hi : i < v.length := by
      by_contra hcon
      rw [List.getElem?_eq_none (by omega)] at hp
      simp at hp
    rw [List.getElem?_append_left hi]
    exact hp
  · exact ⟨v, by rw [UMap.find?_set_ne _ _ _ _ hoe]; exact hv, fun _ _ hp _ => hp⟩

/-- Rewriting every sequence elementwise with a function that fixes inactive
projectiles keeps every inactive projectile where it is. -/
theorem InactiveKept.map (ps : UMap (List (ProjectileComponent F)))
    (g : Entity × List (ProjectileComponent F) → Entity × List (ProjectileComponent F))
    (hg1 : ∀ o, (g o).1 = o.1)
    (hg2 : ∀ o, ∀ (i : Nat) (p : ProjectileComponent F), o.2[i]? = some p →
      p.active = false → (g o).2[i]? = some p) :
    InactiveKept ps (ps.map g) := by
  intro o v hv
  refine ⟨(g (o, v)).2, ?_, fun i p hp hact => hg2 (o, v) i p hp hact⟩
  rw [UMap.find?_map_entry g hg1, hv]
  rfl

theorem activeOnly_idem (ps : UMap (List (ProjectileComponent F))) :
    activeOnly (activeOnly ps) = activeOnly ps := by
  simp [activeOnly, List.filter_filter]

end InactiveBasics

section InactiveLemmas

variable {F : Type} [LinearOrderedField F]

theorem MovementSystem.move_projectiles (m : MathLib F) (deltaTime : F)
    (e : Entity × PositionComponent F) (w : World F) :
    (MovementSystem.move m deltaTime e w).2.projectiles = w.projectiles := by
  unfold MovementSystem.move
  split <;> rfl

theorem MovementSystem.movement_keeps_projectiles (m : MathLib F) (deltaTime : F) (w : World F) :
    (MovementSystem.update m deltaTime w).projectiles = w.projectiles :=
  forEach_proj _ World.projectiles (MovementSystem.move_projectiles m deltaTime) _ _

theorem AISystem.drive_inactiveKept (m : MathLib F) (deltaTime : F)
    (e : Entity × AIComponent F) (w : World F) :
    InactiveKept w.projectiles (AISystem.drive m deltaTime e w).2.projectiles := by
  unfold AISystem.drive
  split
  · exact InactiveKept.refl _
  · split
    · exact InactiveKept.refl _
    · simp only
      split
      · split
        · exact InactiveKept.push_back _ _ _
        · exact InactiveKept.refl _
      · exact InactiveKept.refl _

theorem AISystem.ai_inactiveKept (m : MathLib F) (deltaTime : F) (w : World F) :
    InactiveKept w.projectiles (AISystem.update m deltaTime w).projectiles :=
  forEach_state _ (fun s => InactiveKept w.projectiles s.projectiles)
    (fun a s h => h.trans (AISystem.drive_inactiveKept m deltaTime a s)) _ _
    (InactiveKept.refl _)

theorem ShootingSystem.shoot_inactiveKept (m : MathLib F) (deltaTime : F)
    (e : Entity × InputComponent) (w : World F) :
    InactiveKept w.projectiles (ShootingSystem.shoot m deltaTime e w).2.projectiles := by
  unfold ShootingSystem.shoot
  simp only
  split
  · exact InactiveKept.push_back _ _ _
  · exact InactiveKept.refl _

theorem ShootingSystem.shooting_inactiveKept (m : MathLib F) (deltaTime : F) (w : World F) :
    InactiveKept w.projectiles (ShootingSystem.update m deltaTime w).projectiles :=
  forEach_state _ (fun s => InactiveKept w.projectiles s.projectiles)
    (fun a s h => h.trans (ShootingSystem.shoot_inactiveKept m deltaTime a s)) _ _
    (InactiveKept.refl _)

theorem ProjectileSystem.projectile_inactiveKept (deltaTime : F) (w : World F) :
    InactiveKept w.projectiles (ProjectileSystem.update deltaTime w).projectiles := by
  unfold ProjectileSystem.update
  split
  · exact InactiveKept.refl _
  · apply InactiveKept.map w.projectiles
      (fun o => (o.1, o.2.map (ProjectileSystem.advance deltaTime))) (fun _ => rfl)
    intro o i p hp hact
    simp only [List.getElem?_map, hp, Option.map_some']
    unfold ProjectileSystem.advance
    simp [hact]

theorem HealthSystem.sweepAll_getElem? (position : Entity → PositionComponent F)
    (render : Entity → RenderComponent) (hs : UMap HealthComponent)
    (o : Entity × List (ProjectileComponent F)) (i : Nat) (p : ProjectileComponent F)
    (hp : o.2[i]? = some p) (hact : p.active = false) :
    (HealthSystem.sweepAll position render hs o).2[i]? = some p := by
  induction hs generalizing o with
  | nil => exact hp
  | cons t rest ih =>
    simp only [HealthSystem.sweepAll]
    apply ih
    unfold HealthSystem.sweepOwner
    split
    · exact hp
    · simp only [List.getElem?_map, hp, Option.map_some']
      rw [HealthSystem.deactivate_inert _ _ p (by simp [hact])]

theorem HealthSystem.health_inactiveKept (deltaTime : F) (w : World F) :
    InactiveKept w.projectiles (HealthSystem.update deltaTime w).projectiles := by
  rw [HealthSystem.update_projectiles_eq, HealthSystem.resolve_snd]
  exact InactiveKept.map _ _ (HealthSystem.sweepAll_fst _ _ _)
    (fun o i p hp hact => HealthSystem.sweepAll_getElem? _ _ _ o i p hp hact)

theorem restart_inactiveKept (g : Game) (w : World F) :
    InactiveKept w.projectiles (restart g w).projectiles := by
  unfold restart
  apply InactiveKept.map w.projectiles
    (fun o => (o.1, o.2.map fun projectile => { projectile with active := false }))
    (fun _ => rfl)
  intro o i p hp hact
  simp only [List.getElem?_map, hp, Option.map_some']
  rw [← hact]

end InactiveLemmas

section ActiveOnlyLemmas

variable {F : Type} [LinearOrderedField F]

theorem HealthSystem.hits_filter_active (position : PositionComponent F)
    (render : RenderComponent) (v : List (ProjectileComponent F)) :
    HealthSystem.hits position render (v.filter fun p => p.active) =
      HealthSystem.hits position render v := by
  unfold HealthSystem.hits
  rw [List.filter_filter]
  congr 1
  apply List.filter_congr
  intro p _
  cases p.active <;> simp

theorem HealthSystem.filter_map_deactivate (position : PositionComponent F)
    (render : RenderComponent) (v : List (ProjectileComponent F)) :
    (v.map (HealthSystem.deactivate position render)).filter (fun p => p.active) =
      v.filter fun p => p.active && !HealthSystem.collides p position render := by
  induction v with
  | nil => rfl
  | cons p v ih =>
    rw [List.map_cons]
    cases hp : p.active <;> cases hc : HealthSystem.collides p position render <;>
      simp [List.filter_cons, HealthSystem.deactivate, hp, hc, ih]

theorem HealthSystem.hitsOn_activeOnly (e : Entity) (position : PositionComponent F)
    (render : RenderComponent) (ps : UMap (List (ProjectileComponent F))) :
    HealthSystem.hitsOn e position render (activeOnly ps) =
      HealthSystem.hitsOn e position render ps := by
  induction ps with
  | nil => rfl
  | cons o rest ih =>
    simp only [activeOnly, List.map_cons, HealthSystem.hitsOn] at ih ⊢
    rw [ih, HealthSystem.hits_filter_active]

theorem HealthSystem.activeOnly_sweep (e : Entity) (position : PositionComponent F)
    (render : RenderComponent) (ps : UMap (List (ProjectileComponent F))) :
    activeOnly (HealthSystem.sweep e position render (activeOnly ps)) =
      activeOnly (HealthSystem.sweep e position render ps) := by
  induction ps with
  | nil => rfl
  | cons o rest ih =>
    simp only [activeOnly, HealthSystem.sweep, List.map_cons, List.map_map] at ih ⊢
    rw [ih]
    congr 1
    unfold HealthSystem.sweepOwner
    by_cases he : e = o.1
    · simp [he, List.filter_filter]
    · simp only [he, if_false]
      rw [HealthSystem.filter_map_deactivate, HealthSystem.filter_map_deactivate,
        List.filter_filter]
      congr 1
      apply List.filter_congr
      intro p _
      cases p.active <;> simp

/-- The healths that the update leaves are a function of the active projectiles. -/
theorem HealthSystem.resolve_activeOnly (position : Entity → PositionComponent F)
    (render : Entity → RenderComponent) (hs : UMap HealthComponent)
    (a b : UMap (List (ProjectileComponent F))) (hab : activeOnly a = activeOnly b) :
    (HealthSystem.resolve position render hs a).1 =
      (HealthSystem.resolve position render hs b).1 := by
  induction hs generalizing a b with
  | nil => rfl
  | cons t rest ih =>
    simp only [HealthSystem.resolve]
    rw [← HealthSystem.hitsOn_activeOnly _ _ _ a, ← HealthSystem.hitsOn_activeOnly _ _ _ b, hab]
    congr 1
    apply ih
    rw [← HealthSystem.activeOnly_sweep _ _ _ a, ← HealthSystem.activeOnly_sweep _ _ _ b, hab]

theorem HealthSystem.resolve_all_inactive (position : Entity → PositionComponent F)
    (render : Entity → RenderComponent) (hs : UMap HealthComponent)
    (ps : UMap (List (ProjectileComponent F)))
    (hoff : ∀ o ∈ ps, ∀ p ∈ o.2, p.active = false) :
    (HealthSystem.resolve position render hs ps).1 = hs := by
  induction hs with
  | nil => rfl
  | cons t rest ih =>
    have hsweep : HealthSystem.sweep t.1 (position t.1) (render t.1) ps = ps := by
      unfold HealthSystem.sweep
      conv_rhs => rw [← List.map_id ps]
      apply List.map_congr_left
      intro o ho
      apply HealthSystem.sweepOwner_inert
      intro _ p hp hact
      rw [hoff o ho p hp] at hact
      exact absurd hact (by decide)
    have hnil : HealthSystem.hitsOn t.1 (position t.1) (render t.1) ps = [] := by
      apply List.eq_nil_iff_forall_not_mem.mpr
      intro d hd
      clear hsweep ih
      induction ps with
      | nil => simp [HealthSystem.hitsOn] at hd
      | cons o more ih2 =>
        simp only [HealthSystem.hitsOn, List.mem_append] at hd
        rcases hd with hd | hd
        · split at hd
          · simp at hd
          · simp only [HealthSystem.hits, List.mem_map, List.mem_filter] at hd
            obtain ⟨p, ⟨hp, hact⟩, _⟩ := hd
            simp [hoff o (List.mem_cons_self o more) p hp] at hact
        · exact ih2 (fun o' ho' => hoff o' (List.mem_cons_of_mem o ho')) hd
    simp only [HealthSystem.resolve, hsweep, hnil, ih, List.foldl_nil]

end ActiveOnlyLemmas

/-! ## The event loop writes the input map only -/

section LoopLemmas

variable {F : Type}

theorem InputSystem.handleEvent_eq (event : SDL_Event) (w : World F) :
    InputSystem.handleEvent event w =
      { w with inputs := (InputSystem.handleEvent event w).inputs } := by
  unfold InputSystem.handleEvent
  split <;> rfl

theorem pollEvents_eq (events : List SDL_Event) (w w0 : World F)
    (h : pollEvents events w = some w0) : w0 = { w with inputs := w0.inputs } := by
  induction events generalizing w with
  | nil =>
    simp only [pollEvents, Option.some.injEq] at h
    subst h
    rfl
  | cons event rest ih =>
    simp only [pollEvents] at h
    split at h
    · exact absurd h (by simp)
    · have h1 := ih _ h
      rw [InputSystem.handleEvent_eq] at h1
      exact h1

end LoopLemmas

section LoopLemmas2

variable {F : Type} [LinearOrderedField F]

theorem frame_eq (m : MathLib F) (g : Game) (events : List SDL_Event) (deltaTime : F)
    (w w0 : World F) (h : pollEvents events w = some w0) :
    frame m g events deltaTime w = some (simulate m g deltaTime w0) := by
  simp [frame, h]

/-- An iteration in an ended game without restart input runs no system. -/
theorem simulate_ended (m : MathLib F) (g : Game) (deltaTime : F) (w0 : World F)
    (hend : w0.game_over = true ∨ w0.won = true)
    (hrestart : (w0.inputs.ref playerEntity).restart = false) :
    simulate m g deltaTime w0 = { w0 with inputs := w0.inputs.touch playerEntity } := by
  have hflags : (!w0.game_over && !w0.won) = false := by
    rcases hend with h | h <;> simp [h]
  unfold simulate
  rw [if_neg (by simp [hflags]), if_neg (by simp [hrestart])]

/-- While the game stays won without restart input, the flag and the audio log
stay as they are. -/
theorem run_won (m : MathLib F) (g : Game) (fs : List (List SDL_Event × F))
    (w1 w2 : World F) (hwon : w1.won = true) (hfree : restartFree m g fs w1)
    (hrun : run m g fs w1 = some w2) : w2.won = true ∧ w2.played = w1.played := by
  induction fs generalizing w1 with
  | nil =>
    simp only [run, Option.some.injEq] at hrun
    subst hrun
    exact ⟨hwon, rfl⟩
  | cons f fs ih =>
    simp only [run, frame] at hrun
    simp only [restartFree] at hfree
    cases hp : pollEvents f.1 w1 with
    | none => simp [hp] at hrun
    | some w0 =>
      rw [hp] at hrun hfree
      simp only [Option.map_some', Option.some_bind] at hrun
      have hw0 := pollEvents_eq f.1 w1 w0 hp
      have hwon0 : w0.won = true := by rw [hw0]; exact hwon
      have hpl0 : w0.played = w1.played := by rw [hw0]
      have hsim := simulate_ended m g f.2 w0 (Or.inr hwon0) hfree.1
      have h := ih (simulate m g f.2 w0) (by rw [hsim]; exact hwon0) hfree.2 hrun
      refine ⟨h.1, ?_⟩
      rw [h.2, hsim]
      exact hpl0

/-- Frames without events in a won game with the RETURN key up change nothing. -/
theorem run_idle (m : MathLib F) (g : Game) (deltaTime : F) (n : Nat) (w : World F)
    (hwon : w.won = true) (hrestart : (w.inputs.ref playerEntity).restart = false)
    (hin : w.inputs.contains playerEntity = true) :
    run m g (List.replicate n ([], deltaTime)) w = some w ∧
      restartFree m g (List.replicate n ([], deltaTime)) w := by
  have hsim : simulate m g deltaTime w = w := by
    rw [simulate_ended m g deltaTime w (Or.inr hwon) hrestart]
    simp [UMap.touch, hin]
  induction n with
  | zero => exact ⟨rfl, trivial⟩
  | succ n ih =>
    simp only [List.replicate_succ, run, restartFree, frame, pollEvents, Option.map_some',
      Option.some_bind, hsim]
    exact ⟨ih.1, hrestart, ih.2⟩

end LoopLemmas2

/-! ## Which systems write the input map and the shooting cooldown -/

section InputLemmas

variable {F : Type} [LinearOrderedField F]

theorem MovementSystem.movement_keeps_inputs (m : MathLib F) (deltaTime : F) (w : World F) :
    (MovementSystem.update m deltaTime w).inputs = w.inputs :=
  forEach_proj _ World.inputs
    (fun a s => by unfold MovementSystem.move; split <;> rfl) _ _

theorem MovementSystem.movement_keeps_cooldown (m : MathLib F) (deltaTime : F) (w : World F) :
    (MovementSystem.update m deltaTime w).attackCooldown = w.attackCooldown :=
  forEach_proj _ World.attackCooldown
    (fun a s => by unfold MovementSystem.move; split <;> rfl) _ _

theorem AISystem.drive_inputs (m : MathLib F) (deltaTime : F) (e : Entity × AIComponent F)
    (w : World F) :
    (AISystem.drive m deltaTime e w).2.inputs = w.inputs ∧
      (AISystem.drive m deltaTime e w).2.attackCooldown = w.attackCooldown := by
  unfold AISystem.drive
  split
  · exact ⟨rfl, rfl⟩
  · split
    · exact ⟨rfl, rfl⟩
    · simp only
      split
      · split <;> exact ⟨rfl, rfl⟩
      · exact ⟨rfl, rfl⟩

theorem AISystem.ai_keeps_inputs (m : MathLib F) (deltaTime : F) (w : World F) :
    (AISystem.update m deltaTime w).inputs = w.inputs :=
  forEach_proj _ World.inputs (fun a s => (AISystem.drive_inputs m deltaTime a s).1) _ _

theorem AISystem.ai_keeps_cooldown (m : MathLib F) (deltaTime : F) (w : World F) :
    (AISystem.update m deltaTime w).attackCooldown = w.attackCooldown :=
  forEach_proj _ World.attackCooldown
    (fun a s => (AISystem.drive_inputs m deltaTime a s).2) _ _

theorem ProjectileSystem.projectile_keeps_inputs (deltaTime : F) (w : World F) :
    (ProjectileSystem.update deltaTime w).inputs = w.inputs := by
  unfold ProjectileSystem.update
  split <;> rfl

theorem HealthSystem.health_keeps_inputs (deltaTime : F) (w : World F) :
    (HealthSystem.update deltaTime w).inputs = w.inputs :=
  forEach_proj _ World.inputs (fun _ _ => rfl) _ _

/-- Method `ShootingSystem::update` when exactly one entity has an input record. -/
theorem ShootingSystem.update_single (m : MathLib F) (deltaTime : F) (w : World F)
    (e : Entity) (input : InputComponent) (hin : w.inputs = [(e, input)]) :
    ShootingSystem.update m deltaTime w =
      { (ShootingSystem.shoot m deltaTime (e, input) w).2 with
        inputs := [(ShootingSystem.shoot m deltaTime (e, input) w).1] } := by
  unfold ShootingSystem.update
  rw [hin]
  rfl

/-- The fire request after one iteration that handles a SPACE key-down, for a
world whose only input record is the one of the player. -/
theorem frame_space (m : MathLib F) (g : Game) (deltaTime : F) (w : World F)
    (i : InputComponent) (hin : w.inputs = [(playerEntity, i)])
    (hspace : i.spacebar = false) (hquit : i.quit = false) :
    ∃ w1, frame m g [⟨EventType.SDL_KEYDOWN, Keycode.SDLK_SPACE⟩] deltaTime w = some w1 ∧
      ((w1.inputs.ref playerEntity).shoot = false ↔
        (w.game_over = false ∧ w.won = false ∧ w.attackCooldown - 90 * deltaTime ≤ 0)) := by
  have hpoll : pollEvents [⟨EventType.SDL_KEYDOWN, Keycode.SDLK_SPACE⟩] w =
      some { w with inputs := [(playerEntity, { i with shoot := true, spacebar := true })] } := by
    simp [pollEvents, InputSystem.handleEvent, InputSystem.applyKey, hin, UMap.ref, UMap.find?,
      UMap.touch, UMap.contains, UMap.set, hquit, hspace, playerEntity]
  refine ⟨_, frame_eq m g _ deltaTime w _ hpoll, ?_⟩
  unfold simulate
  by_cases hplay : w.game_over = false ∧ w.won = false
  · rw [if_pos (by simp [hplay.1, hplay.2])]
    simp only [runSystems, HealthSystem.health_keeps_inputs, ProjectileSystem.projectile_keeps_inputs]
    rw [ShootingSystem.update_single m deltaTime _ playerEntity
      { i with shoot := true, spacebar := true }
      (by rw [AISystem.ai_keeps_inputs, MovementSystem.movement_keeps_inputs])]
    simp only [ShootingSystem.shoot, AISystem.ai_keeps_cooldown,
      MovementSystem.movement_keeps_cooldown]
    by_cases hcd : w.attackCooldown - 90 * deltaTime ≤ 0
    · simp [hcd, hplay, UMap.ref, UMap.find?]
    · simp [hcd, UMap.ref, UMap.find?]
  · have hflags : (!w.game_over && !w.won) = false := by
      cases h1 : w.game_over <;> cases h2 : w.won <;> simp_all
    rw [if_neg (by simp [hflags])]
    have hno : ¬(w.game_over = false ∧ w.won = false ∧ w.attackCooldown - 90 * deltaTime ≤ 0) :=
      fun h => hplay ⟨h.1, h.2.1⟩
    simp only [hno, iff_false]
    split <;> simp [restart, UMap.ref, UMap.find?, UMap.touch, UMap.contains]

end InputLemmas

/-! ## MovementSystem: the entry of one entity -/

section MovementLemmas

variable {F : Type} [LinearOrderedField F]

theorem MovementSystem.move_fst_key (m : MathLib F) (deltaTime : F)
    (a : Entity × PositionComponent F) (s : World F) :
    (MovementSystem.move m deltaTime a s).1.1 = a.1 := by
  unfold MovementSystem.move
  split <;> rfl

/-- Processing the entry of another entity keeps the records of `e`. -/
theorem MovementSystem.move_other (m : MathLib F) (deltaTime : F)
    (a : Entity × PositionComponent F) (s : World F) (e : Entity) (h : a.1 ≠ e) :
    (MovementSystem.move m deltaTime a s).2.velocities.ref e = s.velocities.ref e ∧
      (MovementSystem.move m deltaTime a s).2.rotations.ref e = s.rotations.ref e ∧
      (MovementSystem.move m deltaTime a s).2.inputs = s.inputs ∧
      (MovementSystem.move m deltaTime a s).2.velocities.contains e =
        s.velocities.contains e := by
  unfold MovementSystem.move
  split
  · exact ⟨rfl, rfl, rfl, rfl⟩
  · refine ⟨UMap.ref_set_ne _ _ _ _ h, UMap.ref_set_ne _ _ _ _ h, rfl, ?_⟩
    simp [UMap.contains_set, h]

theorem MovementSystem.forEach_move_other (m : MathLib F) (deltaTime : F)
    (l : UMap (PositionComponent F)) (s : World F) (e : Entity) (h : ∀ a ∈ l, a.1 ≠ e) :
    (forEach (MovementSystem.move m deltaTime) l s).2.velocities.ref e = s.velocities.ref e ∧
      (forEach (MovementSystem.move m deltaTime) l s).2.rotations.ref e =
        s.rotations.ref e := by
  have := (forEach_post (MovementSystem.move m deltaTime)
    (fun s' => s'.velocities.ref e = s.velocities.ref e ∧
      s'.rotations.ref e = s.rotations.ref e)
    (fun a => a.1 ≠ e) (fun _ => True)
    (fun a s' ha hs' => by
      have h1 := MovementSystem.move_other m deltaTime a s' e ha
      exact ⟨trivial, h1.1.trans hs'.1, h1.2.1.trans hs'.2⟩)
    l s h ⟨rfl, rfl⟩).2
  exact this

/-- The entry of an entity that holds UP only, after the loop over the positions. -/
theorem MovementSystem.forEach_move_forward (m : MathLib F) (deltaTime : F) (e : Entity)
    (input : InputComponent) (hup : input.up = true) (hdown : input.down = false)
    (hleft : input.left = false) (hright : input.right = false)
    (l : UMap (PositionComponent F)) (s : World F) (pos : PositionComponent F)
    (hkeys : l.keys.Nodup) (hpos : l.find? e = some pos)
    (hvel : s.velocities.contains e = true) (hinp : s.inputs.find? e = some input) :
    UMap.find? (forEach (MovementSystem.move m deltaTime) l s).1 e =
        some ⟨pos.x + 350 * m.cos ((s.rotations.ref e).angle * (m.pi / 180)) * deltaTime,
              pos.y + 350 * m.sin ((s.rotations.ref e).angle * (m.pi / 180)) * deltaTime⟩ ∧
      (forEach (MovementSystem.move m deltaTime) l s).2.velocities.ref e =
        ⟨350 * m.cos ((s.rotations.ref e).angle * (m.pi / 180)),
         350 * m.sin ((s.rotations.ref e).angle * (m.pi / 180))⟩ ∧
      (forEach (MovementSystem.move m deltaTime) l s).2.rotations.ref e =
        s.rotations.ref e := by
  induction l generalizing s with
  | nil => simp [UMap.find?] at hpos
  | cons a rest ih =>
    obtain ⟨k, p⟩ := a
    simp only [UMap.keys, List.map_cons, List.nodup_cons] at hkeys
    by_cases hke : k = e
    · subst hke
      simp only [UMap.find?, if_true, Option.some.injEq] at hpos
      subst hpos
      have hrest : ∀ a ∈ rest, a.1 ≠ k := by
        intro a ha hak
        exact hkeys.1 (hak ▸ List.mem_map_of_mem Prod.fst ha)
      have hic : s.inputs.contains k = true := UMap.contains_of_find? _ _ _ hinp
      have hir : s.inputs.ref k = input := by simp [UMap.ref, hinp]
      have hmove : MovementSystem.move m deltaTime (k, p) s =
          ((k, ⟨p.x + 350 * m.cos ((s.rotations.ref k).angle * (m.pi / 180)) * deltaTime,
                p.y + 350 * m.sin ((s.rotations.ref k).angle * (m.pi / 180)) * deltaTime⟩),
           { s with
             velocities := s.velocities.set k
               ⟨350 * m.cos ((s.rotations.ref k).angle * (m.pi / 180)),
                350 * m.sin ((s.rotations.ref k).angle * (m.pi / 180))⟩,
             rotations := s.rotations.set k ⟨(s.rotations.ref k).angle⟩ }) := by
        unfold MovementSystem.move
        simp [hvel, hic, hir, hup, hdown, hleft, hright, boolToInt]
      have ho := MovementSystem.forEach_move_other m deltaTime rest
        (MovementSystem.move m deltaTime (k, p) s).2 k hrest
      simp only [forEach]
      rw [hmove] at ho ⊢
      refine ⟨by simp [UMap.find?], ?_, ?_⟩
      · rw [ho.1]
        exact UMap.ref_set_self _ _ _
      · rw [ho.2]
        exact UMap.ref_set_self _ _ _
    · simp only [UMap.find?, hke, if_false] at hpos
      have h1 := MovementSystem.move_other m deltaTime (k, p) s e hke
      have hkey := MovementSystem.move_fst_key m deltaTime (k, p) s
      have h2 := ih (MovementSystem.move m deltaTime (k, p) s).2 hkeys.2 hpos
        (by rw [h1.2.2.2]; exact hvel) (by rw [h1.2.2.1]; exact hinp)
      rw [h1.2.1] at h2
      simp only [forEach]
      refine ⟨?_, h2.2.1, h2.2.2⟩
      rw [show (MovementSystem.move m deltaTime (k, p) s).1 =
        ((MovementSystem.move m deltaTime (k, p) s).1.1,
          (MovementSystem.move m deltaTime (k, p) s).1.2) from rfl, hkey]
      simp only [UMap.find?, hke, if_false]
      exact h2.1

end MovementLemmas

/-! ## The sample states, evaluated -/

theorem isqrt_sample : isqrt 3232800 = 1797 := by decide

/-- The systems of one frame of 1/60 s on the sample state `lastHit`: the enemy
has stepped toward the player, the projectile has advanced to 1737.5 and hit. -/
theorem runSystems_lastHit :
    runSystems MathLib.coarse (1 / 60 : ℚ) (lastHit ℚ) =
      { positions := [(0, ⟨100, 100⟩), (1, ⟨1028480 / 599, 1578760 / 1797⟩)]
        velocities := [(0, ⟨0, 0⟩), (1, ⟨-108000 / 599, -52000 / 599⟩)]
        rotations := [(0, ⟨0⟩), (1, ⟨-603 / 4⟩)]
        inputs := [(0, ⟨false, false, false, false, false, false, false, false⟩)]
        renders := [(0, ⟨1, ⟨0, 0, 64, 64⟩⟩), (1, ⟨2, ⟨1716, 878, 64, 64⟩⟩)]
        ais := [(1, ⟨0, 150, 1344, 0, 180, 0, 80, 0, 20⟩)]
        healths := [(0, ⟨100, 100⟩), (1, ⟨0, 100⟩)]
        sfx := [(0, ⟨11, 13, 15⟩), (1, ⟨12, 14, 16⟩)]
        projectiles := [(0, [⟨false, 3475 / 2, 890, 450, 0, 10⟩])]
        attackCooldown := -3 / 2
        attackCooldownDuration := 20
        won := false
        game_over := false
        played := [14, 16] } := by
  norm_num [runSystems, HealthSystem.update, HealthSystem.target, HealthSystem.hitOwner,
    HealthSystem.hit, forEach, HealthSystem.collides, ProjectileSystem.update,
    ProjectileSystem.advance, ShootingSystem.update, ShootingSystem.shoot, AISystem.update,
    AISystem.drive, AISystem.attack, MovementSystem.update, MovementSystem.move,
    MathLib.coarse, lastHit, duel, initialWorld, sampleGame, UMap.ref, UMap.find?,
    UMap.touch, UMap.contains, UMap.set, playerEntity, enemy1, wrapInt32, boolToInt,
    isqrt_sample]

/-! ## C1: the clamping law -/

section Claims

variable {F : Type} [LinearOrderedField F]

/-- C1. Clamping law: for every `dt` and every state in which each health
satisfies `0 <= current <= maxHealth` and every projectile has `damage >= 0`
(all of them `int` values), after `HealthSystem.update(dt)` every health still
satisfies `0 <= current <= maxHealth`; the health entries are those of before,
with their `maxHealth`, in the same order. -/
theorem HealthSystem.update_clamps (deltaTime : F) (w : World F)
    (hmax : ∀ t ∈ w.healths, IsInt32 t.2.maxHealth)
    (hdam : ∀ o ∈ w.projectiles, ∀ p ∈ o.2, IsInt32 p.damage)
    (hh : ∀ t ∈ w.healths, 0 ≤ t.2.current ∧ t.2.current ≤ t.2.maxHealth)
    (hd : ∀ o ∈ w.projectiles, ∀ p ∈ o.2, 0 ≤ p.damage) :
    (∀ t ∈ (HealthSystem.update deltaTime w).healths,
        0 ≤ t.2.current ∧ t.2.current ≤ t.2.maxHealth) ∧
      (HealthSystem.update deltaTime w).healths.map (fun t => (t.1, t.2.maxHealth)) =
        w.healths.map (fun t => (t.1, t.2.maxHealth)) := by
  rw [HealthSystem.update_healths_eq]
  exact ⟨HealthSystem.resolve_clamped _ _ _ _ hmax hh
    (fun o ho _ p hp => ⟨hd o ho p hp, hdam o ho p hp⟩), HealthSystem.resolve_keys _ _ _ _⟩

/-- C1 at the sample duel: the hypotheses hold there. -/
theorem HealthSystem.update_clamps_witness :
    (∀ t ∈ (HealthSystem.update (1 / 60 : ℚ) (duel ℚ)).healths,
        0 ≤ t.2.current ∧ t.2.current ≤ t.2.maxHealth) ∧
      (HealthSystem.update (1 / 60 : ℚ) (duel ℚ)).healths.map (fun t => (t.1, t.2.maxHealth)) =
        (duel ℚ).healths.map (fun t => (t.1, t.2.maxHealth)) :=
  HealthSystem.update_clamps (1 / 60 : ℚ) (duel ℚ)
    (by simp [duel, initialWorld, IsInt32])
    (by simp [duel, IsInt32])
    (by simp [duel, initialWorld])
    (by simp [duel])

/-! ## C2: damage resolution -/

/-- Damage resolution for a target `e` when no active projectile of an owner
other than `e` lies inside the sprite rectangle of another health-bearing entity
that is not its owner: the health of `e` after `HealthSystem.update` is
`max(0, h - S)`, and the projectile sequence of every other owner is the one of
before with the projectiles inside the rectangle of `e` deactivated. -/
theorem HealthSystem.update_resolves_separated (deltaTime : F) (w : World F) (e : Entity)
    (h : HealthComponent) (hfind : w.healths.find? e = some h)
    (h0 : 0 ≤ h.current) (hint : IsInt32 h.current)
    (hd : ∀ o ∈ w.projectiles, o.1 ≠ e → ∀ p ∈ o.2, 0 ≤ p.damage ∧ IsInt32 p.damage)
    (hsep : ∀ t ∈ w.healths, t.1 ≠ e → ∀ o ∈ w.projectiles, o.1 ≠ e → o.1 ≠ t.1 →
      ∀ p ∈ o.2, p.active = true →
        HealthSystem.collides p (w.positions.ref t.1) (w.renders.ref t.1) = false) :
    (HealthSystem.update deltaTime w).healths.find? e =
        some ⟨max 0 (h.current - HealthSystem.incoming e w), h.maxHealth⟩ ∧
      List.Forall₂
        (fun o o' => o'.1 = o.1 ∧ (o.1 ≠ e → o'.2 =
          o.2.map (HealthSystem.deactivate (w.positions.ref e) (w.renders.ref e))))
        w.projectiles (HealthSystem.update deltaTime w).projectiles := by
  constructor
  · rw [HealthSystem.update_healths_eq,
      HealthSystem.resolve_find_target _ _ e h _ _ hfind hsep,
      HealthSystem.foldl_applyDamage _ _ h0 hint]
    · rfl
    · intro d hd'
      obtain ⟨o, ho, hne, p, hp, rfl⟩ := HealthSystem.mem_hitsOn _ _ _ _ d hd'
      exact hd o ho (fun hh => hne hh.symm) p hp
  · rw [HealthSystem.update_projectiles_eq, HealthSystem.resolve_snd,
      List.forall₂_map_right_iff, List.forall₂_same]
    intro o ho
    refine ⟨HealthSystem.sweepAll_fst _ _ _ _, fun hoe => ?_⟩
    have hs := HealthSystem.sweepAll_target w.positions.ref w.renders.ref e w.healths
      (UMap.contains_of_find? _ _ _ hfind) o.1 o.2 hoe
      (fun t ht hte hto p hp hact => hsep t ht hte o ho hoe (fun hh => hto hh.symm) p hp hact)
    rw [show o = (o.1, o.2) from rfl, hs]

/-- C2. Damage resolution in the two-entity configuration of the game (health
entries and projectile sequences keyed only by ids 0 and 1, lines 701 and 713):
for every target entity `e` with health `h` (never negative in the program,
which starts it at 100 and clamps it at 0) and every list of projectiles of the
other entity with non-negative damage (all `int` values), after one
`HealthSystem.update` the health of `e` is `max(0, h - S)`, with `S` the sum of
the damage of the active projectiles of the other entity strictly inside the
sprite rectangle of `e`, and the projectile sequence of the other owner is the
one of before with exactly those projectiles deactivated, with no early exit
once the health reaches 0. -/
theorem HealthSystem.update_resolves_damage (deltaTime : F) (w : World F) (e : Entity)
    (h : HealthComponent) (hfind : w.healths.find? e = some h)
    (h0 : 0 ≤ h.current) (hint : IsInt32 h.current)
    (hd : ∀ o ∈ w.projectiles, o.1 ≠ e → ∀ p ∈ o.2, 0 ≤ p.damage ∧ IsInt32 p.damage)
    (htwo : ∀ t ∈ w.healths, t.1 = 0 ∨ t.1 = 1)
    (ptwo : ∀ o ∈ w.projectiles, o.1 = 0 ∨ o.1 = 1) :
    (HealthSystem.update deltaTime w).healths.find? e =
        some ⟨max 0 (h.current - HealthSystem.incoming e w), h.maxHealth⟩ ∧
      List.Forall₂
        (fun o o' => o'.1 = o.1 ∧ (o.1 ≠ e → o'.2 =
          o.2.map (HealthSystem.deactivate (w.positions.ref e) (w.renders.ref e))))
        w.projectiles (HealthSystem.update deltaTime w).projectiles := by
  have he : e = 0 ∨ e = 1 := htwo (e, h) (UMap.mem_of_find? _ _ _ hfind)
  apply HealthSystem.update_resolves_separated deltaTime w e h hfind h0 hint hd
  intro t ht hte o ho hoe hot
  exfalso
  have h1 := htwo t ht
  have h2 := ptwo o ho
  rcases he with he | he <;> rcases h1 with h1 | h1 <;> rcases h2 with h2 | h2 <;>
    simp_all

/-- C2 at the sample duel: one colliding player projectile of damage 10 against
the enemy with health 100 gives health 90 and an inactive projectile. -/
theorem HealthSystem.update_resolves_damage_witness :
    (HealthSystem.update (1 / 60 : ℚ) (duel ℚ)).healths.find? enemy1 = some ⟨90, 100⟩ ∧
      (HealthSystem.update (1 / 60 : ℚ) (duel ℚ)).projectiles =
        [(playerEntity, [⟨false, 1730, 890, 450, 0, 10⟩])] := by
  have key := HealthSystem.update_resolves_damage (1 / 60 : ℚ) (duel ℚ) enemy1 ⟨100, 100⟩
    (by simp [duel, initialWorld, UMap.find?, playerEntity, enemy1])
    (by decide) (by unfold IsInt32; decide)
    (by simp [duel, IsInt32])
    (by simp [duel, initialWorld, playerEntity, enemy1])
    (by simp [duel, playerEntity])
  have hin : HealthSystem.incoming enemy1 (duel ℚ) = 10 := by
    simp [HealthSystem.incoming, HealthSystem.hitsOn, HealthSystem.hits,
      HealthSystem.collides, duel, initialWorld, sampleGame, UMap.ref, UMap.find?,
      playerEntity, enemy1, wrapInt32]
    norm_num
  rw [hin] at key
  refine ⟨key.1, ?_⟩
  have h2 := key.2
  generalize (HealthSystem.update (1 / 60 : ℚ) (duel ℚ)).projectiles = ps at h2
  simp only [duel] at h2
  cases h2 with
  | cons hhead htail =>
    cases htail
    obtain ⟨h1, h3⟩ := hhead
    rename_i o'
    obtain ⟨k, v⟩ := o'
    simp only at h1 h3
    subst h1
    rw [h3 (by decide)]
    simp [HealthSystem.deactivate, HealthSystem.collides, initialWorld, sampleGame, UMap.ref,
      UMap.find?, playerEntity, enemy1, wrapInt32]
    norm_num

/-- Outside the configuration of the game, with three health-bearing entities,
the separation hypothesis of `HealthSystem.update_resolves_separated` cannot be
dropped: the projectile of entity 2 lies in the rectangles of entities 0 and 1;
entity 0 is visited first and takes it, and the health of entity 1 stays 100
although `max(0, 100 - S) = 90` for it. -/
theorem HealthSystem.update_three_entities :
    (crowd ℚ).healths.find? 1 = some ⟨100, 100⟩ ∧
      max 0 (100 - HealthSystem.incoming 1 (crowd ℚ)) = 90 ∧
      (HealthSystem.update (1 / 60 : ℚ) (crowd ℚ)).healths.find? 1 = some ⟨100, 100⟩ ∧
      (HealthSystem.update (1 / 60 : ℚ) (crowd ℚ)).healths.find? 0 = some ⟨90, 100⟩ := by
  have hin : HealthSystem.incoming 1 (crowd ℚ) = 10 := by
    norm_num [HealthSystem.incoming, HealthSystem.hitsOn, HealthSystem.hits,
      HealthSystem.collides, crowd, UMap.ref, UMap.find?, List.filter]
  refine ⟨by simp [crowd, UMap.find?], by rw [hin]; decide, ?_, ?_⟩
  · rw [HealthSystem.update_healths_eq]
    norm_num [HealthSystem.resolve, HealthSystem.hitsOn, HealthSystem.hits,
      HealthSystem.sweep, HealthSystem.sweepOwner, HealthSystem.deactivate,
      HealthSystem.collides, crowd, UMap.ref, UMap.find?, List.filter]
  · rw [HealthSystem.update_healths_eq]
    norm_num [HealthSystem.resolve, HealthSystem.hitsOn, HealthSystem.hits,
      HealthSystem.sweep, HealthSystem.sweepOwner, HealthSystem.deactivate,
      HealthSystem.collides, crowd, UMap.ref, UMap.find?, List.filter]
    decide

/-! ## C3: self-damage exclusion -/

/-- C3. Self-damage exclusion: for every entity `e` and every world,
`HealthSystem.update` leaves `e` the health it would leave if `e` owned no
projectiles at all (its entries removed from the projectile map); and when no
projectile of another owner is active, the health of `e` is unchanged, wherever
the projectiles of `e` are. -/
theorem HealthSystem.update_self_exclusion (deltaTime : F) (w : World F) (e : Entity) :
    (HealthSystem.update deltaTime w).healths.find? e =
        (HealthSystem.update deltaTime
          { w with projectiles := w.projectiles.filter fun o => decide (o.1 ≠ e) }).healths.find? e ∧
      ((∀ o ∈ w.projectiles, o.1 ≠ e → ∀ p ∈ o.2, p.active = false) →
        (HealthSystem.update deltaTime w).healths.find? e = w.healths.find? e) := by
  constructor
  · rw [HealthSystem.update_healths_eq, HealthSystem.update_healths_eq]
    apply HealthSystem.resolve_find_congr
    simp
  · intro hoff
    rw [HealthSystem.update_healths_eq]
    cases hfind : w.healths.find? e with
    | none =>
      have hc : w.healths.contains e = false := by
        cases hc : w.healths.contains e
        · rfl
        · exfalso
          clear hoff
          generalize w.healths = hs at hfind hc
          induction hs with
          | nil => simp [UMap.contains] at hc
          | cons t rest ih =>
            obtain ⟨k, hk⟩ := t
            by_cases hke : k = e
            · simp [UMap.find?, hke] at hfind
            · simp only [UMap.find?, hke, if_false] at hfind
              simp only [UMap.contains, hke, if_false] at hc
              exact ih hfind hc
      apply UMap.find?_eq_none_of_contains
      generalize w.projectiles = ps
      generalize w.healths = hs at hc
      induction hs generalizing ps with
      | nil => rfl
      | cons t rest ih =>
        obtain ⟨k, hk⟩ := t
        by_cases hke : k = e
        · simp [UMap.contains, hke] at hc
        · simp only [UMap.contains, hke, if_false] at hc
          simp only [HealthSystem.resolve, UMap.contains, hke, if_false]
          exact ih _ hc
    | some h =>
      rw [HealthSystem.resolve_find_target _ _ e h _ _ hfind]
      · have hnil : HealthSystem.hitsOn e (w.positions.ref e) (w.renders.ref e)
            w.projectiles = [] := by
          apply List.eq_nil_iff_forall_not_mem.mpr
          intro d hd
          generalize w.projectiles = ps at hoff hd
          induction ps with
          | nil => simp [HealthSystem.hitsOn] at hd
          | cons o rest ih =>
            simp only [HealthSystem.hitsOn, List.mem_append] at hd
            rcases hd with hd | hd
            · split at hd
              · simp at hd
              · rename_i hne
                simp only [HealthSystem.hits, List.mem_map, List.mem_filter] at hd
                obtain ⟨p, ⟨hp, hact⟩, _⟩ := hd
                have := hoff o (List.mem_cons_self o rest) (fun hh => hne hh.symm) p hp
                simp [this] at hact
            · exact ih (fun o' ho' => hoff o' (List.mem_cons_of_mem o ho')) hd
        rw [hnil]
        rfl
      · intro t _ _ o ho hoe _ p hp hact
        rw [hoff o ho hoe p hp] at hact
        exact absurd hact (by decide)

/-- C3 at the sample duel: the only active projectile is the player-s own. -/
theorem HealthSystem.update_self_exclusion_witness :
    (HealthSystem.update (1 / 60 : ℚ) (duel ℚ)).healths.find? playerEntity =
      (duel ℚ).healths.find? playerEntity :=
  (HealthSystem.update_self_exclusion (1 / 60 : ℚ) (duel ℚ) playerEntity).2
    (by simp [duel, playerEntity])

/-! ## C4: idempotent deactivation -/

/-- C4. Idempotent deactivation: under each frame operation
(`MovementSystem.update`, `AISystem.update`, `ShootingSystem.update`,
`ProjectileSystem.update`, `HealthSystem.update`, the restart branch) every
projectile that is inactive before is at the same index of the sequence of its
owner afterwards, unchanged and so still inactive; the healths that
`HealthSystem.update` leaves are those it leaves when the inactive projectiles
are removed, and with all projectiles inactive all healths are unchanged. -/
theorem inactive_projectiles_stay (m : MathLib F) (g : Game) (deltaTime : F) (w : World F) :
    InactiveKept w.projectiles (MovementSystem.update m deltaTime w).projectiles ∧
    InactiveKept w.projectiles (AISystem.update m deltaTime w).projectiles ∧
    InactiveKept w.projectiles (ShootingSystem.update m deltaTime w).projectiles ∧
    InactiveKept w.projectiles (ProjectileSystem.update deltaTime w).projectiles ∧
    InactiveKept w.projectiles (HealthSystem.update deltaTime w).projectiles ∧
    InactiveKept w.projectiles (restart g w).projectiles ∧
    (HealthSystem.update deltaTime w).healths =
      (HealthSystem.update deltaTime
        { w with projectiles := activeOnly w.projectiles }).healths ∧
    ((∀ o ∈ w.projectiles, ∀ p ∈ o.2, p.active = false) →
      (HealthSystem.update deltaTime w).healths = w.healths) := by
  refine ⟨?_, AISystem.ai_inactiveKept m deltaTime w,
    ShootingSystem.shooting_inactiveKept m deltaTime w,
    ProjectileSystem.projectile_inactiveKept deltaTime w,
    HealthSystem.health_inactiveKept deltaTime w, restart_inactiveKept g w, ?_, ?_⟩
  · rw [MovementSystem.movement_keeps_projectiles]
    exact InactiveKept.refl _
  · rw [HealthSystem.update_healths_eq, HealthSystem.update_healths_eq]
    exact HealthSystem.resolve_activeOnly _ _ _ _ _ (activeOnly_idem _).symm
  · intro hoff
    rw [HealthSystem.update_healths_eq]
    exact HealthSystem.resolve_all_inactive _ _ _ _ hoff

/-- C4 at the sample duel with the projectile spent: it lies inside the
rectangle of the enemy and the healths stay as they are. -/
theorem inactive_projectiles_stay_witness :
    (HealthSystem.update (1 / 60 : ℚ) (spent ℚ)).healths = (spent ℚ).healths :=
  (inactive_projectiles_stay MathLib.coarse
    sampleGame (1 / 60 : ℚ) (spent ℚ)).2.2.2.2.2.2.2 (by simp [spent])

/-! ## C5: restart -/

/-- C5. Restart: for every state of the game loop with `game_over` set in which,
once the events of the frame are handled, the restart input of the player is
true, the loop iteration sets the health of the player and of the enemy to 100,
the position of the player to (100, 100) and of the enemy to
(display_width - 200, display_height - 200), both rotation angles to 0, every
projectile of every owner to inactive, and clears `game_over` and `won`. The two
`int` subtractions are assumed not to overflow. -/
theorem restart_resets (m : MathLib F) (g : Game) (events : List SDL_Event) (deltaTime : F)
    (w w0 : World F) (hpoll : pollEvents events w = some w0)
    (hover : w.game_over = true)
    (hrestart : (w0.inputs.ref playerEntity).restart = true)
    (hwidth : IsInt32 (g.display_width - 200)) (hheight : IsInt32 (g.display_height - 200)) :
    ∃ w1, frame m g events deltaTime w = some w1 ∧
      (w1.healths.ref playerEntity).current = 100 ∧
      (w1.healths.ref enemy1).current = 100 ∧
      w1.positions.ref playerEntity = ⟨100, 100⟩ ∧
      w1.positions.ref enemy1 =
        ⟨((g.display_width - 200 : Int) : F), ((g.display_height - 200 : Int) : F)⟩ ∧
      w1.rotations.ref playerEntity = ⟨0⟩ ∧
      w1.rotations.ref enemy1 = ⟨0⟩ ∧
      w1.projectiles = w.projectiles.map (fun o =>
        (o.1, o.2.map fun projectile => { projectile with active := false })) ∧
      (∀ o ∈ w1.projectiles, ∀ p ∈ o.2, p.active = false) ∧
      w1.game_over = false ∧ w1.won = false := by
  refine ⟨_, frame_eq m g events deltaTime w w0 hpoll, ?_⟩
  have hw0 := pollEvents_eq events w w0 hpoll
  have hgo : w0.game_over = true := by rw [hw0]; exact hover
  have hpr : w0.projectiles = w.projectiles := by rw [hw0]
  have h01 : playerEntity ≠ enemy1 := by decide
  have hsim : simulate m g deltaTime w0 =
      restart g { w0 with inputs := w0.inputs.touch playerEntity } := by
    unfold simulate
    rw [if_neg (by simp [hgo]), if_pos hrestart]
  rw [hsim]
  unfold restart
  simp only [wrapInt32_of_isInt32 _ hwidth, wrapInt32_of_isInt32 _ hheight]
  refine ⟨?_, ?_, ?_, ?_, ?_, ?_, ?_, ?_, trivial, trivial⟩
  · rw [UMap.ref_set_ne _ _ _ _ h01.symm, UMap.ref_set_self]
  · rw [UMap.ref_set_self]
  · rw [UMap.ref_set_ne _ _ _ _ h01.symm, UMap.ref_set_self]
  · rw [UMap.ref_set_self]
  · rw [UMap.ref_set_ne _ _ _ _ h01.symm, UMap.ref_set_self]
  · rw [UMap.ref_set_self]
  · rw [hpr]
  · intro o ho p hp
    simp only [List.mem_map] at ho
    obtain ⟨o0, _, rfl⟩ := ho
    simp only [List.mem_map] at hp
    obtain ⟨p0, _, rfl⟩ := hp
    rfl

/-- C5 at the lost sample duel, with no event pending. -/
theorem restart_resets_witness :
    ∃ w1, frame MathLib.coarse sampleGame [] (1 / 60 : ℚ) (lost ℚ) = some w1 ∧
      (w1.healths.ref playerEntity).current = 100 ∧
      (w1.healths.ref enemy1).current = 100 ∧
      w1.positions.ref playerEntity = ⟨100, 100⟩ ∧
      w1.positions.ref enemy1 = ⟨((1920 - 200 : Int) : ℚ), ((1080 - 200 : Int) : ℚ)⟩ ∧
      w1.rotations.ref playerEntity = ⟨0⟩ ∧
      w1.rotations.ref enemy1 = ⟨0⟩ ∧
      w1.projectiles = (lost ℚ).projectiles.map (fun o =>
        (o.1, o.2.map fun projectile => { projectile with active := false })) ∧
      (∀ o ∈ w1.projectiles, ∀ p ∈ o.2, p.active = false) ∧
      w1.game_over = false ∧ w1.won = false :=
  restart_resets MathLib.coarse sampleGame [] (1 / 60 : ℚ) (lost ℚ) (lost ℚ) rfl rfl
    (by simp [lost, UMap.ref, UMap.find?]) (by unfold IsInt32; decide) (by unfold IsInt32; decide)

/-! ## C6: the win transition and its cue -/

/-- C6. Win transition and one-shot cue: for every Playing frame in which the
health of the enemy is 0 after `HealthSystem.update`, the `won` flag is true at
the end of that frame and the frame appends the win chunk once to what the
systems played; and after any number of following frames in which the restart
input is false, `won` is still true and nothing more has been played, so that
across the transition frame and the following Won frames the cue fires exactly
once. -/
theorem win_cue_once (m : MathLib F) (g : Game) (events : List SDL_Event) (deltaTime : F)
    (w w0 : World F) (hpoll : pollEvents events w = some w0)
    (hplaying : w.game_over = false ∧ w.won = false)
    (hzero : ((runSystems m deltaTime w0).healths.ref enemy1).current = 0) :
    ∃ w1, frame m g events deltaTime w = some w1 ∧
      w1.won = true ∧
      w1.played = (runSystems m deltaTime w0).played ++ [g.sfx_win] ∧
      ∀ (fs : List (List SDL_Event × F)) (w2 : World F),
        restartFree m g fs w1 → run m g fs w1 = some w2 →
          w2.won = true ∧ w2.played = (runSystems m deltaTime w0).played ++ [g.sfx_win] := by
  refine ⟨_, frame_eq m g events deltaTime w w0 hpoll, ?_⟩
  have hw0 := pollEvents_eq events w w0 hpoll
  have h1 : w0.game_over = false := by rw [hw0]; exact hplaying.1
  have h2 : w0.won = false := by rw [hw0]; exact hplaying.2
  have hwon : (simulate m g deltaTime w0).won = true := by
    unfold simulate
    rw [if_pos (by simp [h1, h2])]
    simp [UMap.ref_touch, hzero]
  have hplayed : (simulate m g deltaTime w0).played =
      (runSystems m deltaTime w0).played ++ [g.sfx_win] := by
    unfold simulate
    rw [if_pos (by simp [h1, h2])]
    simp [UMap.ref_touch, hzero]
  refine ⟨hwon, hplayed, fun fs w2 hfree hrun => ?_⟩
  have h := run_won m g fs _ w2 hwon hfree hrun
  exact ⟨h.1, h.2.trans hplayed⟩

/-- C6 at the sample state `lastHit`: the hit brings the enemy to 0 in the first
frame; after that frame and five more frames the log holds the hit chunk, the
explosion chunk and the win chunk, once each. -/
theorem win_cue_once_witness :
    ∃ w2, run MathLib.coarse sampleGame (List.replicate 6 ([], (1 / 60 : ℚ))) (lastHit ℚ) =
        some w2 ∧ w2.won = true ∧ w2.played = [14, 16, 17] := by
  obtain ⟨w1, hframe, hwon, _, hnext⟩ :=
    win_cue_once MathLib.coarse sampleGame [] (1 / 60 : ℚ) (lastHit ℚ) (lastHit ℚ) rfl
      ⟨rfl, rfl⟩ (by rw [runSystems_lastHit]; rfl)
  have hw1 : w1 = simulate MathLib.coarse sampleGame (1 / 60 : ℚ) (lastHit ℚ) := by
    rw [frame_eq MathLib.coarse sampleGame [] (1 / 60 : ℚ) (lastHit ℚ) (lastHit ℚ) rfl] at hframe
    exact (Option.some.inj hframe).symm
  have hinputs : w1.inputs =
      [(0, ⟨false, false, false, false, false, false, false, false⟩)] := by
    rw [hw1]
    unfold simulate
    rw [if_pos (by rfl)]
    simp only [runSystems_lastHit]
  have hidle := run_idle MathLib.coarse sampleGame (1 / 60 : ℚ) 5 w1 hwon
    (by rw [hinputs]; rfl) (by rw [hinputs]; rfl)
  refine ⟨w1, ?_, hwon, ?_⟩
  · rw [List.replicate_succ, run, hframe]
    exact hidle.1
  · rw [(hnext _ w1 hidle.2 hidle.1).2, runSystems_lastHit]
    rfl

/-! ## C7: the world is frozen while the game is ended -/

/-- C7. Frozen world while Ended: for every game-loop state with `game_over` or
`won` set in which, once the events of the frame are handled, the restart input
is false, the loop iteration changes nothing but the input map (as the events
set it): every position, velocity, rotation, health, AI timer, the shooting
cooldown, every projectile and both flags are unchanged, whatever `dt` is. -/
theorem frozen_while_ended (m : MathLib F) (g : Game) (events : List SDL_Event)
    (deltaTime : F) (w w0 : World F) (hpoll : pollEvents events w = some w0)
    (hend : w.game_over = true ∨ w.won = true)
    (hrestart : (w0.inputs.ref playerEntity).restart = false) :
    frame m g events deltaTime w =
      some { w with inputs := w0.inputs.touch playerEntity } := by
  rw [frame_eq m g events deltaTime w w0 hpoll]
  have hw0 := pollEvents_eq events w w0 hpoll
  have h1 : w0.game_over = w.game_over := by rw [hw0]
  have h2 : w0.won = w.won := by rw [hw0]
  rw [simulate_ended m g deltaTime w0 (by rw [h1, h2]; exact hend) hrestart]
  congr 1
  conv_lhs => rw [hw0]

/-- C7 at the lost sample duel when the RETURN key is released in the frame. -/
theorem frozen_while_ended_witness :
    frame MathLib.coarse sampleGame [⟨EventType.SDL_KEYUP, Keycode.SDLK_RETURN⟩] (1 / 60 : ℚ)
        (lost ℚ) =
      some { lost ℚ with inputs :=
        [(playerEntity, ⟨false, false, false, false, false, false, false, false⟩)] } :=
  frozen_while_ended MathLib.coarse sampleGame [⟨EventType.SDL_KEYUP, Keycode.SDLK_RETURN⟩]
    (1 / 60 : ℚ) (lost ℚ)
    { lost ℚ with inputs :=
        [(playerEntity, ⟨false, false, false, false, false, false, false, false⟩)] }
    (by simp [pollEvents, InputSystem.handleEvent, InputSystem.applyKey, lost, UMap.ref,
      UMap.find?, UMap.touch, UMap.contains, UMap.set, playerEntity])
    (Or.inl rfl) (by simp [UMap.ref, UMap.find?])

/-! ## C8: the shooting cooldown gate -/

/-- C8. Shooting cooldown gate: with a single input-bearing entity and the
cooldown duration at its 20, one `ShootingSystem.update` appends exactly one
projectile (active, damage 10, velocity 450 x (cos, sin) of the facing) to the
sequence of the entity when `attackCooldown - 90*dt <= 0` and `input.shoot` is
true, and then `input.shoot` becomes false and `attackCooldown` becomes 20;
otherwise the projectile sequences and the input are unchanged and
`attackCooldown` is only decremented by `90*dt`. -/
theorem ShootingSystem.update_gate (m : MathLib F) (deltaTime : F) (w : World F)
    (e : Entity) (input : InputComponent) (hin : w.inputs = [(e, input)])
    (hdur : w.attackCooldownDuration = 20) :
    ((w.attackCooldown - 90 * deltaTime ≤ 0 ∧ input.shoot = true) →
      (ShootingSystem.update m deltaTime w).projectiles =
          w.projectiles.set e (w.projectiles.ref e ++
            [{ active := true
               x := (w.positions.ref e).x + ((w.renders.ref e).spriteRect.w : F) * 0.5 - 5
               y := (w.positions.ref e).y + ((w.renders.ref e).spriteRect.h : F) * 0.5 - 5
               velocityX := m.cos ((w.rotations.ref e).angle * (m.pi / 180)) * 450
               velocityY := m.sin ((w.rotations.ref e).angle * (m.pi / 180)) * 450
               damage := 10 }]) ∧
        (ShootingSystem.update m deltaTime w).inputs = [(e, { input with shoot := false })] ∧
        (ShootingSystem.update m deltaTime w).attackCooldown = 20) ∧
    (¬(w.attackCooldown - 90 * deltaTime ≤ 0 ∧ input.shoot = true) →
      (ShootingSystem.update m deltaTime w).projectiles = w.projectiles ∧
        (ShootingSystem.update m deltaTime w).inputs = w.inputs ∧
        (ShootingSystem.update m deltaTime w).attackCooldown =
          w.attackCooldown - 90 * deltaTime) := by
  rw [ShootingSystem.update_single m deltaTime w e input hin]
  unfold ShootingSystem.shoot
  constructor
  · intro h
    rw [if_pos h]
    exact ⟨rfl, rfl, hdur⟩
  · intro h
    rw [if_neg h]
    exact ⟨rfl, hin.symm, rfl⟩

/-- C8 at the sample state `firing`: the request is raised and the cooldown is 0. -/
theorem ShootingSystem.update_gate_witness :
    (ShootingSystem.update MathLib.coarse (1 / 60 : ℚ) (firing ℚ)).projectiles =
        [(playerEntity, [⟨true, 127, 127, 450, 0, 10⟩])] ∧
      (ShootingSystem.update MathLib.coarse (1 / 60 : ℚ) (firing ℚ)).inputs =
        [(playerEntity, ⟨false, false, false, false, true, false, false, false⟩)] ∧
      (ShootingSystem.update MathLib.coarse (1 / 60 : ℚ) (firing ℚ)).attackCooldown = 20 := by
  have h := (ShootingSystem.update_gate MathLib.coarse (1 / 60 : ℚ) (firing ℚ) playerEntity
    ⟨false, false, false, false, true, true, false, false⟩ rfl rfl).1
    ⟨by norm_num [firing, initialWorld], rfl⟩
  refine ⟨?_, h.2.1, h.2.2⟩
  rw [h.1]
  norm_num [firing, initialWorld, sampleGame, MathLib.coarse, UMap.ref, UMap.find?, UMap.set,
    playerEntity, enemy1]
  rfl

/-! ## C9: the fire request after the frame of the key-down -/

/-- C9, as the code has it. In a world whose only input record is the one of
the player (quit not requested), after `InputSystem.handleEvent` processes a
SPACE key-down with `spacebar` previously false and one frame of system updates
then runs with no further events, `input.shoot` is false at the start of the
next frame exactly when the game is Playing and `attackCooldown - 90*dt <= 0`
(the shot is fired in that frame); when the cooldown is still positive, or the
game is Ended, `input.shoot` is still true at the start of the next frame. The
statement is about this one frame: what later SPACE events do to the request
(line 214) is outside it. -/
theorem shoot_request_consumed (m : MathLib F) (g : Game) (deltaTime : F) (w : World F)
    (i : InputComponent) (hin : w.inputs = [(playerEntity, i)])
    (hspace : i.spacebar = false) (hquit : i.quit = false) :
    ∃ w1, frame m g [⟨EventType.SDL_KEYDOWN, Keycode.SDLK_SPACE⟩] deltaTime w = some w1 ∧
      ((w1.inputs.ref playerEntity).shoot = false ↔
        (w.game_over = false ∧ w.won = false ∧ w.attackCooldown - 90 * deltaTime ≤ 0)) :=
  frame_space m g deltaTime w i hin hspace hquit

/-- C9 at the initial world of the sample game, where the cooldown is 0: the
request is consumed in the frame of the key-down. -/
theorem shoot_request_consumed_witness :
    ∃ w1, frame MathLib.coarse sampleGame [⟨EventType.SDL_KEYDOWN, Keycode.SDLK_SPACE⟩]
        (1 / 60 : ℚ) (initialWorld sampleGame) = some w1 ∧
      (w1.inputs.ref playerEntity).shoot = false := by
  obtain ⟨w1, h1, h2⟩ := shoot_request_consumed MathLib.coarse sampleGame (1 / 60 : ℚ)
    (initialWorld sampleGame) ⟨false, false, false, false, false, false, false, false⟩
    rfl rfl rfl
  exact ⟨w1, h1, h2.mpr ⟨rfl, rfl, by norm_num [initialWorld]⟩⟩

/-- C9 as stated fails while the shooting cooldown is running: with the
cooldown at 20 and a frame of 1/60 s, `input.shoot` is still true at the start
of the next frame. -/
theorem shoot_request_consumed_counterexample :
    ∃ w1, frame MathLib.coarse sampleGame [⟨EventType.SDL_KEYDOWN, Keycode.SDLK_SPACE⟩]
        (1 / 60 : ℚ) (reloading ℚ) = some w1 ∧
      (w1.inputs.ref playerEntity).shoot = true := by
  obtain ⟨w1, h1, h2⟩ := frame_space MathLib.coarse sampleGame (1 / 60 : ℚ)
    (reloading ℚ) ⟨false, false, false, false, false, false, false, false⟩ rfl rfl rfl
  refine ⟨w1, h1, ?_⟩
  cases hs : (w1.inputs.ref playerEntity).shoot
  · have := (h2.mp hs).2.2
    norm_num [reloading] at this
  · rfl

end Claims

/-! ## C10: forward movement -/

/-- C10. Forward movement, over the reals with the real `cos`, `sin` and `pi`:
for every entity with position, velocity and input, every angle and every `dt`,
with `up` true and `left`, `right`, `down` false, `MovementSystem.update` leaves
the rotation angle unchanged, sets the velocity to 350 x (cos, sin) of the angle
in radians, so that its magnitude is exactly 350, and advances the position by
velocity x `dt`. The keys of the position map are distinct. -/
theorem MovementSystem.update_forward (m : MathLib ℝ) (hcos : m.cos = Real.cos)
    (hsin : m.sin = Real.sin) (hpi : m.pi = Real.pi) (deltaTime : ℝ) (w : World ℝ)
    (e : Entity) (pos : PositionComponent ℝ) (input : InputComponent)
    (hkeys : w.positions.keys.Nodup) (hpos : w.positions.find? e = some pos)
    (hvel : w.velocities.contains e = true) (hinp : w.inputs.find? e = some input)
    (hup : input.up = true) (hdown : input.down = false)
    (hleft : input.left = false) (hright : input.right = false) :
    (MovementSystem.update m deltaTime w).rotations.ref e = w.rotations.ref e ∧
      (MovementSystem.update m deltaTime w).velocities.ref e =
        ⟨350 * Real.cos ((w.rotations.ref e).angle * (Real.pi / 180)),
         350 * Real.sin ((w.rotations.ref e).angle * (Real.pi / 180))⟩ ∧
      Real.sqrt (((MovementSystem.update m deltaTime w).velocities.ref e).x ^ 2 +
        ((MovementSystem.update m deltaTime w).velocities.ref e).y ^ 2) = 350 ∧
      (MovementSystem.update m deltaTime w).positions.find? e =
        some ⟨pos.x + ((MovementSystem.update m deltaTime w).velocities.ref e).x * deltaTime,
              pos.y + ((MovementSystem.update m deltaTime w).velocities.ref e).y * deltaTime⟩ := by
  have h := MovementSystem.forEach_move_forward m deltaTime e input hup hdown hleft hright
    w.positions w pos hkeys hpos hvel hinp
  rw [hcos, hsin, hpi] at h
  have hv : (MovementSystem.update m deltaTime w).velocities.ref e =
      ⟨350 * Real.cos ((w.rotations.ref e).angle * (Real.pi / 180)),
       350 * Real.sin ((w.rotations.ref e).angle * (Real.pi / 180))⟩ := h.2.1
  refine ⟨h.2.2, hv, ?_, ?_⟩
  · rw [hv]
    have hsq : (350 * Real.cos ((w.rotations.ref e).angle * (Real.pi / 180))) ^ 2 +
        (350 * Real.sin ((w.rotations.ref e).angle * (Real.pi / 180))) ^ 2 = 350 ^ 2 := by
      have := Real.cos_sq_add_sin_sq ((w.rotations.ref e).angle * (Real.pi / 180))
      nlinarith [this]
    simp only
    rw [hsq]
    exact Real.sqrt_sq (by norm_num)
  · rw [hv]
    exact h.1

/-- C10 at the initial world of the sample game with the UP key held. -/
theorem MovementSystem.update_forward_witness :
    (MovementSystem.update
        ⟨Real.cos, Real.sin, Real.sqrt, fun y x => Complex.arg ⟨x, y⟩, Real.pi,
          fun x => Int.floor x⟩ (1 / 60) (advancing ℝ)).velocities.ref playerEntity =
      ⟨350 * Real.cos (((advancing ℝ).rotations.ref playerEntity).angle * (Real.pi / 180)),
       350 * Real.sin (((advancing ℝ).rotations.ref playerEntity).angle * (Real.pi / 180))⟩ :=
  (MovementSystem.update_forward
    ⟨Real.cos, Real.sin, Real.sqrt, fun y x => Complex.arg ⟨x, y⟩, Real.pi,
      fun x => Int.floor x⟩ rfl rfl rfl (1 / 60) (advancing ℝ) playerEntity ⟨100, 100⟩
    ⟨true, false, false, false, false, false, false, false⟩
    (by simp [advancing, initialWorld, UMap.keys, playerEntity, enemy1])
    (by simp [advancing, initialWorld, UMap.find?])
    (by simp [advancing, initialWorld, UMap.contains])
    (by simp [advancing, UMap.find?]) rfl rfl rfl rfl).2.1

/-! ## MovementSystem: the entry of one entity, for any input -/

section MovementEntry

variable {F : Type} [LinearOrderedField F]

/-- The loop body on an entity that has a velocity and an input record. -/
theorem MovementSystem.move_eq (m : MathLib F) (deltaTime : F) (e : Entity)
    (p : PositionComponent F) (s : World F) (hvel : s.velocities.contains e = true)
    (hinp : s.inputs.contains e = true) :
    MovementSystem.move m deltaTime (e, p) s =
      ((e, ⟨p.x + (MovementSystem.velocityOf m deltaTime s e).x * deltaTime,
            p.y + (MovementSystem.velocityOf m deltaTime s e).y * deltaTime⟩),
       { s with
         velocities := s.velocities.set e (MovementSystem.velocityOf m deltaTime s e),
         rotations := s.rotations.set e ⟨MovementSystem.facing deltaTime s e⟩ }) := by
  unfold MovementSystem.move MovementSystem.velocityOf MovementSystem.facing
  simp only [hvel, hinp, Bool.not_true, Bool.or_self, Bool.false_eq_true, if_false]

/-- The entry of an entity with velocity and input after the loop over the
positions, whose keys are distinct. -/
theorem MovementSystem.forEach_move_entry (m : MathLib F) (deltaTime : F) (e : Entity)
    (l : UMap (PositionComponent F)) (s : World F) (pos : PositionComponent F)
    (hkeys : l.keys.Nodup) (hpos : l.find? e = some pos)
    (hvel : s.velocities.contains e = true) (hinp : s.inputs.contains e = true) :
    UMap.find? (forEach (MovementSystem.move m deltaTime) l s).1 e =
        some ⟨pos.x + (MovementSystem.velocityOf m deltaTime s e).x * deltaTime,
              pos.y + (MovementSystem.velocityOf m deltaTime s e).y * deltaTime⟩ ∧
      (forEach (MovementSystem.move m deltaTime) l s).2.velocities.ref e =
        MovementSystem.velocityOf m deltaTime s e ∧
      (forEach (MovementSystem.move m deltaTime) l s).2.rotations.ref e =
        ⟨MovementSystem.facing deltaTime s e⟩ := by
  induction l generalizing s with
  | nil => simp [UMap.find?] at hpos
  | cons a rest ih =>
    obtain ⟨k, p⟩ := a
    simp only [UMap.keys, List.map_cons, List.nodup_cons] at hkeys
    by_cases hke : k = e
    · subst hke
      simp only [UMap.find?, if_true, Option.some.injEq] at hpos
      subst hpos
      have hrest : ∀ a ∈ rest, a.1 ≠ k := by
        intro a ha hak
        exact hkeys.1 (hak ▸ List.mem_map_of_mem Prod.fst ha)
      have ho := MovementSystem.forEach_move_other m deltaTime rest
        (MovementSystem.move m deltaTime (k, p) s).2 k hrest
      simp only [forEach]
      rw [MovementSystem.move_eq m deltaTime k p s hvel hinp] at ho ⊢
      refine ⟨by simp [UMap.find?], ?_, ?_⟩
      · rw [ho.1]
        exact UMap.ref_set_self _ _ _
      · rw [ho.2]
        exact UMap.ref_set_self _ _ _
    · simp only [UMap.find?, hke, if_false] at hpos
      have h1 := MovementSystem.move_other m deltaTime (k, p) s e hke
      have hkey := MovementSystem.move_fst_key m deltaTime (k, p) s
      have h2 := ih (MovementSystem.move m deltaTime (k, p) s).2 hkeys.2 hpos
        (by rw [h1.2.2.2]; exact hvel) (by rw [h1.2.2.1]; exact hinp)
      have hf : MovementSystem.facing deltaTime (MovementSystem.move m deltaTime (k, p) s).2 e =
          MovementSystem.facing deltaTime s e := by
        unfold MovementSystem.facing
        rw [h1.2.1, h1.2.2.1]
      have hv : MovementSystem.velocityOf m deltaTime
          (MovementSystem.move m deltaTime (k, p) s).2 e =
          MovementSystem.velocityOf m deltaTime s e := by
        unfold MovementSystem.velocityOf
        rw [hf, h1.2.2.1]
      rw [hf, hv] at h2
      simp only [forEach]
      refine ⟨?_, h2.2.1, h2.2.2⟩
      rw [show (MovementSystem.move m deltaTime (k, p) s).1 =
        ((MovementSystem.move m deltaTime (k, p) s).1.1,
          (MovementSystem.move m deltaTime (k, p) s).1.2) from rfl, hkey]
      simp only [UMap.find?, hke, if_false]
      exact h2.1

end MovementEntry

/-! ## C11: up and down held together -/

section Claim11

variable {F : Type} [LinearOrderedField F]

/-- C11, as the code has it. For every angle and `dt`, when `input.down` is true
for an entity with position, velocity and input (whatever `input.up` is, so in
particular when both are true), the assignment of the `down` branch (lines
123-126) comes last and stands:
`MovementSystem.update` sets the velocity to -350 x (cos, sin) of the facing
(the angle after the turn of line 112, in radians) and moves the position by
velocity x `dt`. The keys of the position map are distinct. -/
theorem MovementSystem.update_down_overrides (m : MathLib F) (deltaTime : F) (w : World F)
    (e : Entity) (pos : PositionComponent F) (input : InputComponent)
    (hkeys : w.positions.keys.Nodup) (hpos : w.positions.find? e = some pos)
    (hvel : w.velocities.contains e = true) (hinp : w.inputs.find? e = some input)
    (hdown : input.down = true) :
    (MovementSystem.update m deltaTime w).velocities.ref e =
        ⟨-350 * m.cos (MovementSystem.facing deltaTime w e * (m.pi / 180)),
         -350 * m.sin (MovementSystem.facing deltaTime w e * (m.pi / 180))⟩ ∧
      (MovementSystem.update m deltaTime w).positions.find? e =
        some ⟨pos.x + -350 * m.cos (MovementSystem.facing deltaTime w e * (m.pi / 180))
                * deltaTime,
              pos.y + -350 * m.sin (MovementSystem.facing deltaTime w e * (m.pi / 180))
                * deltaTime⟩ := by
  have h := MovementSystem.forEach_move_entry m deltaTime e w.positions w pos hkeys hpos hvel
    (UMap.contains_of_find? _ _ _ hinp)
  have hir : w.inputs.ref e = input := by simp [UMap.ref, hinp]
  have hv : MovementSystem.velocityOf m deltaTime w e =
      ⟨-350 * m.cos (MovementSystem.facing deltaTime w e * (m.pi / 180)),
       -350 * m.sin (MovementSystem.facing deltaTime w e * (m.pi / 180))⟩ := by
    unfold MovementSystem.velocityOf
    simp [hir, hdown]
  rw [hv] at h
  exact ⟨h.2.1, h.1⟩

/-- C11 at the sample state `tugging`: the player faces +x and backs off at 350. -/
theorem MovementSystem.update_down_overrides_witness :
    (MovementSystem.update MathLib.coarse (1 / 60 : ℚ) (tugging ℚ)).velocities.ref
        playerEntity = ⟨-350, 0⟩ ∧
      (MovementSystem.update MathLib.coarse (1 / 60 : ℚ) (tugging ℚ)).positions.find?
        playerEntity = some ⟨565 / 6, 100⟩ := by
  have h := MovementSystem.update_down_overrides MathLib.coarse (1 / 60 : ℚ) (tugging ℚ)
    playerEntity ⟨100, 100⟩ ⟨true, true, false, false, false, false, false, false⟩
    (by simp [tugging, initialWorld, UMap.keys, playerEntity, enemy1])
    (by simp [tugging, initialWorld, UMap.find?])
    (by simp [tugging, initialWorld, UMap.contains])
    (by simp [tugging, UMap.find?]) rfl
  have hf : MovementSystem.facing (1 / 60 : ℚ) (tugging ℚ) playerEntity = 0 := by
    norm_num [MovementSystem.facing, tugging, initialWorld, UMap.ref, UMap.find?, boolToInt]
  rw [hf] at h
  norm_num [MathLib.coarse] at h
  exact h

/-- C11 as stated fails: with UP and DOWN both held in the initial world of the
sample game, the velocity after `MovementSystem.update` is (-350, 0), not (0, 0),
and the player has moved from x = 100 to x = 100 - 350/60. -/
theorem MovementSystem.update_down_overrides_counterexample :
    (MovementSystem.update MathLib.coarse (1 / 60 : ℚ) (tugging ℚ)).velocities =
        [(playerEntity, ⟨-350, 0⟩), (enemy1, ⟨0, 0⟩)] ∧
      (MovementSystem.update MathLib.coarse (1 / 60 : ℚ) (tugging ℚ)).positions =
        [(playerEntity, ⟨565 / 6, 100⟩), (enemy1, ⟨1720, 880⟩)] := by
  constructor <;>
  norm_num [MovementSystem.update, MovementSystem.move, forEach, MathLib.coarse, tugging,
    initialWorld, sampleGame, UMap.ref, UMap.find?, UMap.contains, UMap.set, playerEntity,
    enemy1, wrapInt32, boolToInt]

end Claim11

/-! ## HealthSystem: the traversal order -/

section OrderLemmas

variable {F : Type} [LinearOrderedField F]

theorem HealthSystem.deactivate_eq (position : PositionComponent F) (render : RenderComponent)
    (p : ProjectileComponent F) :
    HealthSystem.deactivate position render p =
      { p with active := p.active && !HealthSystem.collides p position render } := by
  unfold HealthSystem.deactivate
  cases hp : p.active <;> cases hc : HealthSystem.collides p position render <;> simp [← hp]

theorem HealthSystem.deactivate_comm (position position1 : PositionComponent F)
    (render render1 : RenderComponent) (p : ProjectileComponent F) :
    HealthSystem.deactivate position render (HealthSystem.deactivate position1 render1 p) =
      HealthSystem.deactivate position1 render1 (HealthSystem.deactivate position render p) := by
  rw [HealthSystem.deactivate_eq position render, HealthSystem.collides_deactivate,
    HealthSystem.deactivate_eq position1 render1 (HealthSystem.deactivate position render p),
    HealthSystem.collides_deactivate, HealthSystem.deactivate_eq, HealthSystem.deactivate_eq]
  simp only [ProjectileComponent.mk.injEq, and_true]
  cases p.active <;> cases HealthSystem.collides p position render <;>
    cases HealthSystem.collides p position1 render1 <;> rfl

theorem HealthSystem.sweepOwner_comm (e e1 : Entity) (position position1 : PositionComponent F)
    (render render1 : RenderComponent) (o : Entity × List (ProjectileComponent F)) :
    HealthSystem.sweepOwner e position render
        (HealthSystem.sweepOwner e1 position1 render1 o) =
      HealthSystem.sweepOwner e1 position1 render1
        (HealthSystem.sweepOwner e position render o) := by
  unfold HealthSystem.sweepOwner
  by_cases h : e = o.1 <;> by_cases h1 : e1 = o.1 <;> simp [h, h1]
  intro p _
  exact HealthSystem.deactivate_comm _ _ _ _ p

/-- What the update leaves of an owner entry does not depend on the order in
which the targets are visited. -/
theorem HealthSystem.sweepAll_perm (position : Entity → PositionComponent F)
    (render : Entity → RenderComponent) (hs hs1 : UMap HealthComponent)
    (hperm : List.Perm hs1 hs) (o : Entity × List (ProjectileComponent F)) :
    HealthSystem.sweepAll position render hs1 o = HealthSystem.sweepAll position render hs o := by
  induction hperm generalizing o with
  | nil => rfl
  | cons t _ ih => simp only [HealthSystem.sweepAll, ih]
  | swap t t1 l => simp only [HealthSystem.sweepAll, HealthSystem.sweepOwner_comm]
  | trans _ _ ih1 ih2 => rw [ih1, ih2]

/-- The damages aimed at `e` do not depend on the order of the owner entries,
when these have distinct keys among 0 and 1 and `e` is 0 or 1. -/
theorem HealthSystem.hitsOn_perm (e : Entity) (position : PositionComponent F)
    (render : RenderComponent) (ps ps1 : UMap (List (ProjectileComponent F)))
    (hperm : List.Perm ps1 ps) (he : e = 0 ∨ e = 1) (hkeys : ps.keys.Nodup)
    (htwo : ∀ o ∈ ps, o.1 = 0 ∨ o.1 = 1) :
    HealthSystem.hitsOn e position render ps1 = HealthSystem.hitsOn e position render ps := by
  induction hperm with
  | nil => rfl
  | cons o _ ih =>
    simp only [UMap.keys, List.map_cons, List.nodup_cons] at hkeys
    simp only [HealthSystem.hitsOn]
    rw [ih hkeys.2 fun o' ho' => htwo o' (List.mem_cons_of_mem o ho')]
  | swap o o1 l =>
    simp only [UMap.keys, List.map_cons, List.nodup_cons, List.mem_cons, not_or] at hkeys
    have h0 := htwo o (List.mem_cons_self _ _)
    have h1 := htwo o1 (List.mem_cons_of_mem _ (List.mem_cons_self _ _))
    have hne : ¬o.1 = o1.1 := hkeys.1.1
    simp only [HealthSystem.hitsOn, ← List.append_assoc]
    congr 1
    by_cases ha : e = o.1
    · simp [ha]
    · by_cases hb : e = o1.1
      · simp [hb]
      · exfalso
        rcases he with he | he <;> rcases h0 with h0 | h0 <;> rcases h1 with h1 | h1 <;>
          simp_all
  | trans _ h2 ih1 ih2 =>
    have hk2 := (List.Perm.nodup_iff (List.Perm.map Prod.fst h2)).mpr hkeys
    rw [ih1 hk2 (fun o ho => htwo o ((List.Perm.mem_iff h2).mp ho)), ih2 hkeys htwo]

end OrderLemmas

section OrderResolve

variable {F : Type} [LinearOrderedField F]

/-- With health entries and owner entries keyed by 0 and 1 only, each health
entry is rewritten from the projectile map as it was before the update. -/
theorem HealthSystem.resolve_fst_two (position : Entity → PositionComponent F)
    (render : Entity → RenderComponent) (hs : UMap HealthComponent)
    (ps : UMap (List (ProjectileComponent F))) (hkeys : hs.keys.Nodup)
    (htwo : ∀ t ∈ hs, t.1 = 0 ∨ t.1 = 1) (hptwo : ∀ o ∈ ps, o.1 = 0 ∨ o.1 = 1) :
    (HealthSystem.resolve position render hs ps).1 =
      hs.map (HealthSystem.struck position render ps) := by
  induction hs generalizing ps with
  | nil => rfl
  | cons t rest ih =>
    simp only [UMap.keys, List.map_cons, List.nodup_cons] at hkeys
    have ht := htwo t (List.mem_cons_self t rest)
    simp only [HealthSystem.resolve, List.map_cons]
    congr 1
    rw [ih _ hkeys.2 (fun t' ht' => htwo t' (List.mem_cons_of_mem t ht'))]
    · apply List.map_congr_left
      intro t' ht'
      have ht2 := htwo t' (List.mem_cons_of_mem t ht')
      have hne : t.1 ≠ t'.1 := fun h => hkeys.1 (h ▸ List.mem_map_of_mem Prod.fst ht')
      unfold HealthSystem.struck
      rw [HealthSystem.sweep, HealthSystem.hitsOn_map t'.1 _ _ ps _
        (HealthSystem.sweepOwner_fst t.1 _ _)]
      intro o ho hoe
      have ho2 := hptwo o ho
      unfold HealthSystem.sweepOwner
      rw [if_pos]
      rcases ht with ht | ht <;> rcases ht2 with ht2 | ht2 <;> rcases ho2 with ho2 | ho2 <;>
        simp_all
    · intro o ho
      simp only [HealthSystem.sweep, List.mem_map] at ho
      obtain ⟨o0, ho0, rfl⟩ := ho
      rw [HealthSystem.sweepOwner_fst]
      exact hptwo o0 ho0

end OrderResolve

/-! ## C16: iteration-order independence of collision resolution -/

section Claim16

variable {F : Type} [LinearOrderedField F]

/-- C16. Iteration-order independence: in the two-entity configuration (health
entries and projectile sequences keyed only by ids 0 and 1, each key once), for
every order `hs1` in which the health map and every order `ps1` in which the
projectile map is traversed, `HealthSystem.update` produces the same health
entries and the same projectile sequences, active flags included, as for the
orders of `w`; the results are permutations of each other because each result is
listed in its own traversal order. -/
theorem HealthSystem.update_order_independent (deltaTime : F) (w : World F)
    (hs1 : UMap HealthComponent) (ps1 : UMap (List (ProjectileComponent F)))
    (hperm : List.Perm hs1 w.healths) (pperm : List.Perm ps1 w.projectiles)
    (hkeys : w.healths.keys.Nodup) (pkeys : w.projectiles.keys.Nodup)
    (htwo : ∀ t ∈ w.healths, t.1 = 0 ∨ t.1 = 1)
    (ptwo : ∀ o ∈ w.projectiles, o.1 = 0 ∨ o.1 = 1) :
    List.Perm
        (HealthSystem.update deltaTime { w with healths := hs1, projectiles := ps1 }).healths
        (HealthSystem.update deltaTime w).healths ∧
      List.Perm
        (HealthSystem.update deltaTime { w with healths := hs1, projectiles := ps1 }).projectiles
        (HealthSystem.update deltaTime w).projectiles := by
  have hkeys1 : hs1.keys.Nodup :=
    (List.Perm.nodup_iff (List.Perm.map Prod.fst hperm)).mpr hkeys
  have htwo1 : ∀ t ∈ hs1, t.1 = 0 ∨ t.1 = 1 :=
    fun t ht => htwo t ((List.Perm.mem_iff hperm).mp ht)
  have ptwo1 : ∀ o ∈ ps1, o.1 = 0 ∨ o.1 = 1 :=
    fun o ho => ptwo o ((List.Perm.mem_iff pperm).mp ho)
  constructor
  · rw [HealthSystem.update_healths_eq, HealthSystem.update_healths_eq,
      HealthSystem.resolve_fst_two _ _ _ _ hkeys htwo ptwo,
      HealthSystem.resolve_fst_two _ _ _ _ hkeys1 htwo1 ptwo1]
    have hcongr : hs1.map (HealthSystem.struck w.positions.ref w.renders.ref ps1) =
        hs1.map (HealthSystem.struck w.positions.ref w.renders.ref w.projectiles) := by
      apply List.map_congr_left
      intro t ht
      unfold HealthSystem.struck
      rw [HealthSystem.hitsOn_perm t.1 _ _ _ _ pperm (htwo1 t ht) pkeys ptwo]
    simp only
    rw [hcongr]
    exact List.Perm.map _ hperm
  · rw [HealthSystem.update_projectiles_eq, HealthSystem.update_projectiles_eq,
      HealthSystem.resolve_snd, HealthSystem.resolve_snd]
    have hfun : HealthSystem.sweepAll w.positions.ref w.renders.ref hs1 =
        HealthSystem.sweepAll w.positions.ref w.renders.ref w.healths :=
      funext fun o => HealthSystem.sweepAll_perm _ _ _ _ hperm o
    simp only
    rw [hfun]
    exact List.Perm.map _ pperm

/-- C16 at the sample duel: visiting the enemy before the player gives the same
healths and the same projectile sequence. -/
theorem HealthSystem.update_order_independent_witness :
    List.Perm
        (HealthSystem.update (1 / 60 : ℚ)
          { duel ℚ with healths := [(enemy1, ⟨100, 100⟩), (playerEntity, ⟨100, 100⟩)] }).healths
        (HealthSystem.update (1 / 60 : ℚ) (duel ℚ)).healths ∧
      List.Perm
        (HealthSystem.update (1 / 60 : ℚ)
          { duel ℚ with
            healths := [(enemy1, ⟨100, 100⟩), (playerEntity, ⟨100, 100⟩)] }).projectiles
        (HealthSystem.update (1 / 60 : ℚ) (duel ℚ)).projectiles :=
  HealthSystem.update_order_independent (1 / 60 : ℚ) (duel ℚ)
    [(enemy1, ⟨100, 100⟩), (playerEntity, ⟨100, 100⟩)] (duel ℚ).projectiles
    (List.Perm.swap _ _ _) (List.Perm.refl _)
    (by simp [duel, initialWorld, UMap.keys, playerEntity, enemy1])
    (by simp [duel, UMap.keys])
    (by simp [duel, initialWorld, playerEntity, enemy1])
    (by simp [duel, playerEntity])

end Claim16

/-! ## AISystem: the entry of one entity -/

section AIEntry

variable {F : Type} [LinearOrderedField F]

theorem AISystem.drive_fst_key (m : MathLib F) (deltaTime : F) (a : Entity × AIComponent F)
    (s : World F) : (AISystem.drive m deltaTime a s).1.1 = a.1 := by
  unfold AISystem.drive
  split
  · rfl
  · split
    · rfl
    · simp only
      split
      · split <;> rfl
      · rfl

/-- Processing the AI record of another entity keeps the view of `e`. -/
theorem AISystem.drive_other (m : MathLib F) (deltaTime : F) (a : Entity × AIComponent F)
    (s : World F) (e : Entity) (h : a.1 ≠ e) :
    AISystem.view e (AISystem.drive m deltaTime a s).2 = AISystem.view e s := by
  unfold AISystem.drive
  split
  · rfl
  · rename_i h0
    have h0' : a.1 ≠ playerEntity := h0
    split
    · rfl
    · simp only
      split
      · split <;>
          simp [AISystem.view, UMap.ref_set_ne _ _ _ _ h, UMap.ref_set_ne _ _ _ _ h0',
            UMap.contains_set, UMap.ref_touch, h]
      · simp [AISystem.view, UMap.ref_set_ne _ _ _ _ h, UMap.ref_set_ne _ _ _ _ h0',
          UMap.contains_set, h]

theorem AISystem.forEach_drive_other (m : MathLib F) (deltaTime : F)
    (l : UMap (AIComponent F)) (s : World F) (e : Entity) (h : ∀ a ∈ l, a.1 ≠ e) :
    AISystem.view e (forEach (AISystem.drive m deltaTime) l s).2 = AISystem.view e s :=
  (forEach_post (AISystem.drive m deltaTime)
    (fun s' => AISystem.view e s' = AISystem.view e s) (fun a => a.1 ≠ e) (fun _ => True)
    (fun a s' ha hs' => ⟨trivial, (AISystem.drive_other m deltaTime a s' e ha).trans hs'⟩)
    l s h rfl).2

/-- The loop body on the AI record of an entity, other than entity 0, that has a
position and a velocity. -/
theorem AISystem.drive_view (m : MathLib F) (deltaTime : F) (e : Entity)
    (ai : AIComponent F) (w : World F) (h0 : e ≠ 0) (hp : w.positions.contains e = true)
    (hv : w.velocities.contains e = true) :
    (AISystem.drive m deltaTime (e, ai) w).1 = (e, AISystem.recordAfter m deltaTime w e ai) ∧
      AISystem.view e (AISystem.drive m deltaTime (e, ai) w).2 =
        AISystem.viewAfter m deltaTime w e ai := by
  have h0' : e ≠ playerEntity := h0
  unfold AISystem.drive AISystem.recordAfter AISystem.viewAfter
  simp only [h0, hp, hv, if_false, Bool.not_true, Bool.or_self, Bool.false_eq_true]
  by_cases hd : AISystem.distance m w e ai ≤ ai.attackRange
  · have hd' := hd
    unfold AISystem.distance at hd'
    by_cases hf : (AISystem.attack deltaTime ai).2 = true
    · simp only [hd', hd, hf, if_true, and_self]
      refine ⟨trivial, ?_⟩
      simp [AISystem.view, UMap.ref_set_self, UMap.ref_set_ne _ _ _ _ h0', UMap.contains_set,
        UMap.ref_touch, AISystem.positionOf, AISystem.velocityOf, AISystem.rotationOf,
        AISystem.renderOf, AISystem.shot, AISystem.direction, AISystem.distance]
    · simp only [hd', hd, hf, if_true, if_false, and_false, Bool.false_eq_true]
      refine ⟨trivial, ?_⟩
      simp [AISystem.view, UMap.ref_set_self, UMap.ref_set_ne _ _ _ _ h0', UMap.contains_set,
        AISystem.positionOf, AISystem.velocityOf, AISystem.rotationOf,
        AISystem.renderOf, AISystem.direction, AISystem.distance]
  · have hd' := hd
    unfold AISystem.distance at hd'
    simp only [hd', hd, if_false, false_and]
    refine ⟨trivial, ?_⟩
    simp [AISystem.view, UMap.ref_set_self, UMap.ref_set_ne _ _ _ _ h0', UMap.contains_set,
      AISystem.positionOf, AISystem.velocityOf, AISystem.rotationOf,
      AISystem.renderOf, AISystem.direction, AISystem.distance]

/-- The outcome of the loop body for `e` is a function of the view of `e`, when
the AI record points at the position of the player entity. -/
theorem AISystem.after_congr (m : MathLib F) (deltaTime : F) (e : Entity)
    (ai : AIComponent F) (s w : World F) (hview : AISystem.view e s = AISystem.view e w)
    (hpl : ai.playerPosition = playerEntity) :
    AISystem.recordAfter m deltaTime s e ai = AISystem.recordAfter m deltaTime w e ai ∧
      AISystem.viewAfter m deltaTime s e ai = AISystem.viewAfter m deltaTime w e ai := by
  have h1 : s.positions.ref e = w.positions.ref e := congrArg AIView.position hview
  have h2 : s.positions.ref playerEntity = w.positions.ref playerEntity :=
    congrArg AIView.player hview
  have h3 : s.renders.ref e = w.renders.ref e := congrArg AIView.render hview
  have h4 : s.sfx.ref e = w.sfx.ref e := congrArg AIView.sound hview
  have h5 : s.projectiles.ref e = w.projectiles.ref e := congrArg AIView.shots hview
  have hd : AISystem.distance m s e ai = AISystem.distance m w e ai := by
    unfold AISystem.distance
    rw [hpl, h1, h2]
  have hdir : AISystem.direction m s e ai = AISystem.direction m w e ai := by
    unfold AISystem.direction
    rw [hd, hpl, h1, h2]
  have hvel : AISystem.velocityOf m s e ai = AISystem.velocityOf m w e ai := by
    unfold AISystem.velocityOf
    rw [hd, hdir]
  have hpos : AISystem.positionOf m deltaTime s e ai = AISystem.positionOf m deltaTime w e ai := by
    unfold AISystem.positionOf
    rw [hvel, h1]
  have hrot : AISystem.rotationOf m s e ai = AISystem.rotationOf m w e ai := by
    unfold AISystem.rotationOf
    rw [hpl, h1, h2]
  have hren : AISystem.renderOf m deltaTime s e ai = AISystem.renderOf m deltaTime w e ai := by
    unfold AISystem.renderOf
    rw [hpos, h3]
  have hshot : AISystem.shot m deltaTime s e ai = AISystem.shot m deltaTime w e ai := by
    unfold AISystem.shot
    rw [hpos, hdir, h3]
  constructor
  · unfold AISystem.recordAfter
    rw [hd]
  · unfold AISystem.viewAfter
    rw [hd, hvel, hpos, hrot, hren, hshot, h2, h4, h5]

/-- The AI record and the view of an entity after the loop over the AI records,
whose keys are distinct. -/
theorem AISystem.forEach_drive_entry (m : MathLib F) (deltaTime : F) (e : Entity)
    (ai : AIComponent F) (hpl : ai.playerPosition = playerEntity) (h0 : e ≠ 0)
    (w : World F) (hp : w.positions.contains e = true) (hv : w.velocities.contains e = true)
    (l : UMap (AIComponent F)) (s : World F) (hkeys : l.keys.Nodup)
    (hfind : l.find? e = some ai) (hview : AISystem.view e s = AISystem.view e w) :
    UMap.find? (forEach (AISystem.drive m deltaTime) l s).1 e =
        some (AISystem.recordAfter m deltaTime w e ai) ∧
      AISystem.view e (forEach (AISystem.drive m deltaTime) l s).2 =
        AISystem.viewAfter m deltaTime w e ai := by
  induction l generalizing s with
  | nil => simp [UMap.find?] at hfind
  | cons a rest ih =>
    obtain ⟨k, a⟩ := a
    simp only [UMap.keys, List.map_cons, List.nodup_cons] at hkeys
    by_cases hke : k = e
    · subst hke
      simp only [UMap.find?, if_true, Option.some.injEq] at hfind
      subst hfind
      have hrest : ∀ b ∈ rest, b.1 ≠ k := by
        intro b hb hbk
        exact hkeys.1 (hbk ▸ List.mem_map_of_mem Prod.fst hb)
      have hps : s.positions.contains k = true :=
        (congrArg AIView.hasPosition hview).trans hp
      have hvs : s.velocities.contains k = true :=
        (congrArg AIView.hasVelocity hview).trans hv
      have hdv := AISystem.drive_view m deltaTime k a s h0 hps hvs
      have hc := AISystem.after_congr m deltaTime k a s w hview hpl
      have ho := AISystem.forEach_drive_other m deltaTime rest
        (AISystem.drive m deltaTime (k, a) s).2 k hrest
      simp only [forEach]
      refine ⟨?_, ?_⟩
      · rw [hdv.1, hc.1]
        simp [UMap.find?]
      · rw [ho, hdv.2, hc.2]
    · simp only [UMap.find?, hke, if_false] at hfind
      have h1 := AISystem.drive_other m deltaTime (k, a) s e hke
      have hkey := AISystem.drive_fst_key m deltaTime (k, a) s
      have h2 := ih (AISystem.drive m deltaTime (k, a) s).2 hkeys.2 hfind (h1.trans hview)
      simp only [forEach]
      refine ⟨?_, h2.2⟩
      rw [show (AISystem.drive m deltaTime (k, a) s).1 =
        ((AISystem.drive m deltaTime (k, a) s).1.1,
          (AISystem.drive m deltaTime (k, a) s).1.2) from rfl, hkey]
      simp only [UMap.find?, hke, if_false]
      exact h2.1

/-- The AI record and the view of an AI-driven entity after `AISystem::update`. -/
theorem AISystem.update_entry (m : MathLib F) (deltaTime : F) (w : World F) (e : Entity)
    (ai : AIComponent F) (hkeys : w.ais.keys.Nodup) (hfind : w.ais.find? e = some ai)
    (hpl : ai.playerPosition = playerEntity) (h0 : e ≠ 0)
    (hp : w.positions.contains e = true) (hv : w.velocities.contains e = true) :
    (AISystem.update m deltaTime w).ais.find? e =
        some (AISystem.recordAfter m deltaTime w e ai) ∧
      AISystem.view e (AISystem.update m deltaTime w) =
        AISystem.viewAfter m deltaTime w e ai :=
  AISystem.forEach_drive_entry m deltaTime e ai hpl h0 w hp hv w.ais w hkeys hfind rfl

end AIEntry

/-! ## C12: chase and stand-off -/

/-- C12. Chase and stand-off, over the reals with the real square root. For every
AI-driven entity `e` (id other than 0, with position and velocity, its AI record
pointing at the position of the player), every player position, every positive
`chaseRange` (the program sets it to 150 at line 717 and never writes it) and
every `dt`, with `D` the Euclidean distance from `e` to the player before the
update: `AISystem.update` sets the velocity of `e` to (0, 0) when
`D < chaseRange`, and when `D >= chaseRange` to 200 x (player - enemy) / D, a
vector of magnitude exactly 200 pointing at the player. The keys of the AI map
are distinct. With a positive `chaseRange` the case `D >= chaseRange` has
`D > 0`, so the quotient by `D` is the one of the program. -/
theorem AISystem.update_chase (m : MathLib ℝ) (hsqrt : m.sqrt = Real.sqrt) (deltaTime : ℝ)
    (w : World ℝ) (e : Entity) (ai : AIComponent ℝ) (hkeys : w.ais.keys.Nodup)
    (hfind : w.ais.find? e = some ai) (hpl : ai.playerPosition = playerEntity) (h0 : e ≠ 0)
    (hp : w.positions.contains e = true) (hv : w.velocities.contains e = true)
    (hrange : 0 < ai.chaseRange) :
    (Real.sqrt (((w.positions.ref playerEntity).x - (w.positions.ref e).x) ^ 2 +
          ((w.positions.ref playerEntity).y - (w.positions.ref e).y) ^ 2) < ai.chaseRange →
        (AISystem.update m deltaTime w).velocities.ref e = ⟨0, 0⟩) ∧
      (ai.chaseRange ≤
          Real.sqrt (((w.positions.ref playerEntity).x - (w.positions.ref e).x) ^ 2 +
            ((w.positions.ref playerEntity).y - (w.positions.ref e).y) ^ 2) →
        (AISystem.update m deltaTime w).velocities.ref e =
            ⟨((w.positions.ref playerEntity).x - (w.positions.ref e).x) /
                Real.sqrt (((w.positions.ref playerEntity).x - (w.positions.ref e).x) ^ 2 +
                  ((w.positions.ref playerEntity).y - (w.positions.ref e).y) ^ 2) * 200,
             ((w.positions.ref playerEntity).y - (w.positions.ref e).y) /
                Real.sqrt (((w.positions.ref playerEntity).x - (w.positions.ref e).x) ^ 2 +
                  ((w.positions.ref playerEntity).y - (w.positions.ref e).y) ^ 2) * 200⟩ ∧
          Real.sqrt (((AISystem.update m deltaTime w).velocities.ref e).x ^ 2 +
            ((AISystem.update m deltaTime w).velocities.ref e).y ^ 2) = 200) := by
  have hview := (AISystem.update_entry m deltaTime w e ai hkeys hfind hpl h0 hp hv).2
  have hvel : (AISystem.update m deltaTime w).velocities.ref e = AISystem.velocityOf m w e ai :=
    congrArg AIView.velocity hview
  have hD : AISystem.distance m w e ai =
      Real.sqrt (((w.positions.ref playerEntity).x - (w.positions.ref e).x) ^ 2 +
        ((w.positions.ref playerEntity).y - (w.positions.ref e).y) ^ 2) := by
    unfold AISystem.distance
    rw [hsqrt, hpl, sq, sq]
  rw [hvel]
  unfold AISystem.velocityOf AISystem.direction
  rw [hD, hpl]
  constructor
  · intro hlt
    rw [if_pos hlt]
  · intro hge
    have hpos := lt_of_lt_of_le hrange hge
    rw [if_neg (not_lt.mpr hge)]
    refine ⟨rfl, ?_⟩
    have hsq := Real.sq_sqrt (add_nonneg
      (sq_nonneg ((w.positions.ref playerEntity).x - (w.positions.ref e).x))
      (sq_nonneg ((w.positions.ref playerEntity).y - (w.positions.ref e).y)))
    generalize Real.sqrt (((w.positions.ref playerEntity).x - (w.positions.ref e).x) ^ 2 +
      ((w.positions.ref playerEntity).y - (w.positions.ref e).y) ^ 2) = D at hsq hpos
    generalize (w.positions.ref playerEntity).x - (w.positions.ref e).x = dx at hsq
    generalize (w.positions.ref playerEntity).y - (w.positions.ref e).y = dy at hsq
    have hne : D ≠ 0 := ne_of_gt hpos
    have h200 : (dx / D * 200) ^ 2 + (dy / D * 200) ^ 2 = 200 ^ 2 := by
      field_simp
      nlinarith [hsq]
    simp only
    rw [h200]
    exact Real.sqrt_sq (by norm_num)

/-- C12 at the sample state `closeRange`: the enemy is 500 away from the player,
beyond its chase range of 150, and gets a velocity of magnitude 200. -/
theorem AISystem.update_chase_witness :
    Real.sqrt
      (((AISystem.update
          ⟨Real.cos, Real.sin, Real.sqrt, fun y x => Complex.arg ⟨x, y⟩, Real.pi,
            fun x => Int.floor x⟩ (1 / 60) (closeRange ℝ)).velocities.ref enemy1).x ^ 2 +
        ((AISystem.update
          ⟨Real.cos, Real.sin, Real.sqrt, fun y x => Complex.arg ⟨x, y⟩, Real.pi,
            fun x => Int.floor x⟩ (1 / 60) (closeRange ℝ)).velocities.ref enemy1).y ^ 2) =
      200 := by
  have hD : Real.sqrt
      ((((closeRange ℝ).positions.ref playerEntity).x -
          ((closeRange ℝ).positions.ref enemy1).x) ^ 2 +
        (((closeRange ℝ).positions.ref playerEntity).y -
          ((closeRange ℝ).positions.ref enemy1).y) ^ 2) = 500 := by
    have h : ((((closeRange ℝ).positions.ref playerEntity).x -
          ((closeRange ℝ).positions.ref enemy1).x) ^ 2 +
        (((closeRange ℝ).positions.ref playerEntity).y -
          ((closeRange ℝ).positions.ref enemy1).y) ^ 2) = 500 ^ 2 := by
      norm_num [closeRange, UMap.ref, UMap.find?, playerEntity, enemy1]
    rw [h]
    exact Real.sqrt_sq (by norm_num)
  exact ((AISystem.update_chase
    ⟨Real.cos, Real.sin, Real.sqrt, fun y x => Complex.arg ⟨x, y⟩, Real.pi,
      fun x => Int.floor x⟩ rfl (1 / 60) (closeRange ℝ) enemy1
    ⟨playerEntity, 150, ((1920 : Int) : ℝ) * 0.7, 0, 180, 0, 80, 0, 20⟩
    (by simp [closeRange, initialWorld, UMap.keys])
    (by simp [closeRange, initialWorld, sampleGame, UMap.find?])
    rfl (by decide)
    (by simp [closeRange, UMap.contains, playerEntity, enemy1])
    (by simp [closeRange, initialWorld, UMap.contains, playerEntity, enemy1])
    (by norm_num)).2
    (by rw [hD]; norm_num)).2

/-! ## C14: the three AI timers -/

theorem isqrt_close : isqrt 250000 = 500 := by decide

section Claim14

variable {F : Type} [LinearOrderedField F]

/-- C14. For an AI-driven entity `e` (id other than 0, with position and
velocity, its AI record `ai` pointing at the position of the player, the keys of
the AI map distinct) and `D` its distance to the player: when `D <= attackRange`
and the attack window closes (`attackCooldown - 120*dt <= 0` and
`attack_time + 90*dt >= attack_duration`) and no shot is fired
(`shoot_cooldown - 90*dt > 0`), `AISystem.update` leaves `attackCooldown =
attackCooldownDuration`, `attack_time = 0` and `shoot_cooldown` = the old
`shoot_cooldown - 90*dt`, not reset; and when `attackCooldown - 120*dt > 0` or
`D > attackRange`, `attack_time`, `shoot_cooldown` and the projectile sequence
of `e` are unchanged, and so is the whole projectile map when `e` is the only
AI-driven entity. -/
theorem AISystem.update_timers (m : MathLib F) (deltaTime : F) (w : World F) (e : Entity)
    (ai : AIComponent F) (hkeys : w.ais.keys.Nodup) (hfind : w.ais.find? e = some ai)
    (hpl : ai.playerPosition = playerEntity) (h0 : e ≠ 0)
    (hp : w.positions.contains e = true) (hv : w.velocities.contains e = true) :
    (AISystem.distance m w e ai ≤ ai.attackRange →
      ai.attackCooldown - 120 * deltaTime ≤ 0 →
      ai.attack_time + 90 * deltaTime ≥ ai.attack_duration →
      ai.shoot_cooldown - 90 * deltaTime > 0 →
        (AISystem.update m deltaTime w).ais.find? e =
          some { ai with attackCooldown := ai.attackCooldownDuration
                         attack_time := 0
                         shoot_cooldown := ai.shoot_cooldown - 90 * deltaTime }) ∧
    ((ai.attackCooldown - 120 * deltaTime > 0 ∨ AISystem.distance m w e ai > ai.attackRange) →
      (∃ ai1, (AISystem.update m deltaTime w).ais.find? e = some ai1 ∧
        ai1.attack_time = ai.attack_time ∧ ai1.shoot_cooldown = ai.shoot_cooldown) ∧
      (AISystem.update m deltaTime w).projectiles.ref e = w.projectiles.ref e ∧
      (w.ais = [(e, ai)] → (AISystem.update m deltaTime w).projectiles = w.projectiles)) := by
  have hentry := AISystem.update_entry m deltaTime w e ai hkeys hfind hpl h0 hp hv
  constructor
  · intro hd hc ht hs
    rw [hentry.1]
    unfold AISystem.recordAfter AISystem.attack
    simp [hd, hc, ht, not_le.mpr hs]
  · intro hor
    have hnofire : ¬(AISystem.distance m w e ai ≤ ai.attackRange ∧
        (AISystem.attack deltaTime ai).2 = true) := by
      rintro ⟨hd, hf⟩
      rcases hor with hc | hgt
      · unfold AISystem.attack at hf
        simp [not_le.mpr hc] at hf
      · exact absurd hd (not_le.mpr hgt)
    refine ⟨⟨_, hentry.1, ?_⟩, ?_, ?_⟩
    · unfold AISystem.recordAfter
      by_cases hd : AISystem.distance m w e ai ≤ ai.attackRange
      · rcases hor with hc | hgt
        · unfold AISystem.attack
          simp [hd, not_le.mpr hc]
        · exact absurd hd (not_le.mpr hgt)
      · simp [hd]
    · have hshots := congrArg AIView.shots hentry.2
      simp only [AISystem.view, AISystem.viewAfter, if_neg hnofire] at hshots
      exact hshots
    · intro hsingle
      unfold AISystem.update
      rw [hsingle]
      simp only [forEach]
      unfold AISystem.drive
      simp only [h0, hp, hv, if_false, Bool.not_true, Bool.or_self, Bool.false_eq_true]
      by_cases hd : AISystem.distance m w e ai ≤ ai.attackRange
      · have hf : (AISystem.attack deltaTime ai).2 = false := by
          cases hf : (AISystem.attack deltaTime ai).2
          · rfl
          · exact absurd ⟨hd, hf⟩ hnofire
        unfold AISystem.distance at hd
        simp only [hd, if_true, hf, Bool.false_eq_true, if_false]
      · unfold AISystem.distance at hd
        simp only [hd, if_false]

/-- C14 at the sample state `closing`: the window closes after 1/60 s, no shot is
due, and the shoot timer goes from 10 to 8.5 without being reset. -/
theorem AISystem.update_timers_witness :
    (AISystem.update MathLib.coarse (1 / 60 : ℚ) (closing ℚ)).ais.find? enemy1 =
      some ⟨playerEntity, 150, 1344, 180, 180, 0, 80, 17 / 2, 20⟩ := by
  have h := (AISystem.update_timers MathLib.coarse (1 / 60 : ℚ) (closing ℚ) enemy1
    ⟨playerEntity, 150, 1344, 0, 180, 79, 80, 10, 20⟩
    (by simp [closing, UMap.keys])
    (by simp [closing, UMap.find?])
    rfl (by decide)
    (by simp [closing, closeRange, UMap.contains, playerEntity, enemy1])
    (by simp [closing, closeRange, initialWorld, UMap.contains, playerEntity, enemy1])).1
    (by norm_num [AISystem.distance, MathLib.coarse, closing, closeRange, UMap.ref,
      UMap.find?, playerEntity, enemy1, isqrt_close])
    (by norm_num) (by norm_num) (by norm_num)
  rw [h]
  norm_num

end Claim14

/-! ## C15: where a projectile is spawned -/

section Claim15

variable {F : Type} [LinearOrderedField F]

/-- C15, as the code has it. Every projectile spawned by `ShootingSystem.update`
(for the single input-bearing entity, when the cooldown has run out and the
request is raised) or by `AISystem.update` (for an AI-driven entity in range
whose shoot timer has run out) is appended to the sequence of the shooter and is
created 5 units left of and above the sprite centre of the shooter, i.e. at
(position.x + spriteRect.w/2 - 5, position.y + spriteRect.h/2 - 5) for the
position of the shooter at spawn time (for the AI, its position after the move
of the same update), for every position and sprite size. -/
theorem projectile_origin (m : MathLib F) (deltaTime : F) (w : World F) (e : Entity) :
    (∀ input : InputComponent, w.inputs = [(e, input)] →
      w.attackCooldown - 90 * deltaTime ≤ 0 → input.shoot = true →
      ∃ q, (ShootingSystem.update m deltaTime w).projectiles.ref e =
          w.projectiles.ref e ++ [q] ∧
        q.x = (w.positions.ref e).x + ((w.renders.ref e).spriteRect.w : F) / 2 - 5 ∧
        q.y = (w.positions.ref e).y + ((w.renders.ref e).spriteRect.h : F) / 2 - 5) ∧
    (∀ ai : AIComponent F, w.ais.keys.Nodup → w.ais.find? e = some ai →
      ai.playerPosition = playerEntity → e ≠ 0 → w.positions.contains e = true →
      w.velocities.contains e = true →
      AISystem.distance m w e ai ≤ ai.attackRange → (AISystem.attack deltaTime ai).2 = true →
      ∃ q, (AISystem.update m deltaTime w).projectiles.ref e = w.projectiles.ref e ++ [q] ∧
        q.x = ((AISystem.update m deltaTime w).positions.ref e).x
          + (((AISystem.update m deltaTime w).renders.ref e).spriteRect.w : F) / 2 - 5 ∧
        q.y = ((AISystem.update m deltaTime w).positions.ref e).y
          + (((AISystem.update m deltaTime w).renders.ref e).spriteRect.h : F) / 2 - 5) := by
  constructor
  · intro input hin hcd hshoot
    rw [ShootingSystem.update_single m deltaTime w e input hin]
    unfold ShootingSystem.shoot
    simp only [if_pos (And.intro hcd hshoot)]
    refine ⟨_, UMap.ref_set_self _ _ _, ?_, ?_⟩ <;> norm_num <;> ring
  · intro ai hkeys hfind hpl h0 hp hv hd hf
    have hview := (AISystem.update_entry m deltaTime w e ai hkeys hfind hpl h0 hp hv).2
    have hshots := congrArg AIView.shots hview
    have hpos := congrArg AIView.position hview
    have hren := congrArg AIView.render hview
    simp only [AISystem.view, AISystem.viewAfter, if_pos (And.intro hd hf)] at hshots hpos hren
    refine ⟨_, hshots, ?_, ?_⟩
    · rw [hpos, hren]
      simp only [AISystem.shot, AISystem.renderOf]
      norm_num
      ring
    · rw [hpos, hren]
      simp only [AISystem.shot, AISystem.renderOf]
      norm_num
      ring

/-- C15 at the sample state `firing`: the player at (100, 100) with a 64 by 64
sprite spawns its projectile at (127, 127). -/
theorem projectile_origin_witness :
    ∃ q, (ShootingSystem.update MathLib.coarse (1 / 60 : ℚ) (firing ℚ)).projectiles.ref
          playerEntity = (firing ℚ).projectiles.ref playerEntity ++ [q] ∧
      q.x = 127 ∧ q.y = 127 := by
  obtain ⟨q, h1, h2, h3⟩ := (projectile_origin MathLib.coarse (1 / 60 : ℚ) (firing ℚ)
    playerEntity).1 ⟨false, false, false, false, true, true, false, false⟩ rfl
    (by norm_num [firing, initialWorld]) rfl
  refine ⟨q, h1, ?_, ?_⟩
  · rw [h2]
    norm_num [firing, initialWorld, sampleGame, UMap.ref, UMap.find?, playerEntity]
  · rw [h3]
    norm_num [firing, initialWorld, sampleGame, UMap.ref, UMap.find?, playerEntity]

/-- C15 as stated fails: in the sample state `firing` the sprite centre of the
player is (132, 132) and the projectile is spawned at (127, 127). -/
theorem projectile_origin_counterexample :
    ((firing ℚ).positions.ref playerEntity).x
        + (((firing ℚ).renders.ref playerEntity).spriteRect.w : ℚ) / 2 = 132 ∧
      ((firing ℚ).positions.ref playerEntity).y
        + (((firing ℚ).renders.ref playerEntity).spriteRect.h : ℚ) / 2 = 132 ∧
      (ShootingSystem.update MathLib.coarse (1 / 60 : ℚ) (firing ℚ)).projectiles =
        [(playerEntity, [⟨true, 127, 127, 450, 0, 10⟩])] := by
  refine ⟨?_, ?_, ?_⟩
  · norm_num [firing, initialWorld, sampleGame, UMap.ref, UMap.find?, playerEntity]
  · norm_num [firing, initialWorld, sampleGame, UMap.ref, UMap.find?, playerEntity]
  · norm_num [ShootingSystem.update, ShootingSystem.shoot, forEach, MathLib.coarse, firing,
      initialWorld, sampleGame, UMap.ref, UMap.find?, UMap.set, UMap.touch, UMap.contains,
      playerEntity, enemy1]
    rfl

end Claim15

/-! ## C13: a projectile of the AI in the frame that spawns it -/

section Claim13Lemmas

variable {F : Type} [LinearOrderedField F]

theorem UMap.find?_of_ref_ne_nil {X : Type} (ps : UMap (List X)) (e : Entity) (v : List X)
    (h : ps.ref e = v) (hne : v ≠ []) : ps.find? e = some v := by
  unfold UMap.ref at h
  cases hf : UMap.find? ps e with
  | none =>
    rw [hf] at h
    exact absurd h.symm hne
  | some v1 =>
    rw [hf] at h
    exact congrArg some h

/-- The call `projectiles[e].push_back(q)` keeps every sequence as a prefix. -/
theorem UMap.set_push_prefix {X : Type} (ps : UMap (List X)) (e : Entity) (q : X)
    (o : Entity) (v : List X) (hv : ps.find? o = some v) :
    ∃ v1, (ps.set e (ps.ref e ++ [q])).find? o = some v1 ∧ v <+: v1 := by
  by_cases hoe : e = o
  · subst hoe
    refine ⟨ps.ref e ++ [q], UMap.find?_set_self _ _ _, ?_⟩
    have hr : ps.ref e = v := by simp [UMap.ref, hv]
    rw [hr]
    exact List.prefix_append _ _
  · exact ⟨v, by rw [UMap.find?_set_ne _ _ _ _ hoe]; exact hv, List.prefix_refl _⟩

theorem ShootingSystem.shoot_prefix (m : MathLib F) (deltaTime : F)
    (a : Entity × InputComponent) (w : World F) (o : Entity)
    (v : List (ProjectileComponent F)) (hv : w.projectiles.find? o = some v) :
    ∃ v1, (ShootingSystem.shoot m deltaTime a w).2.projectiles.find? o = some v1 ∧
      v <+: v1 := by
  unfold ShootingSystem.shoot
  simp only
  split
  · exact UMap.set_push_prefix _ _ _ _ _ hv
  · exact ⟨v, hv, List.prefix_refl _⟩

/-- Method `ShootingSystem::update` only appends to the projectile sequences. -/
theorem ShootingSystem.shooting_prefix (m : MathLib F) (deltaTime : F) (w : World F)
    (o : Entity) (v : List (ProjectileComponent F)) (hv : w.projectiles.find? o = some v) :
    ∃ v1, (ShootingSystem.update m deltaTime w).projectiles.find? o = some v1 ∧ v <+: v1 :=
  forEach_state (ShootingSystem.shoot m deltaTime)
    (fun s => ∃ v1, s.projectiles.find? o = some v1 ∧ v <+: v1)
    (fun a s h => by
      obtain ⟨v1, h1, hp1⟩ := h
      obtain ⟨v2, h2, hp2⟩ := ShootingSystem.shoot_prefix m deltaTime a s o v1 h1
      exact ⟨v2, h2, hp1.trans hp2⟩)
    _ _ ⟨v, hv, List.prefix_refl _⟩

theorem ShootingSystem.shoot_keeps (m : MathLib F) (deltaTime : F)
    (a : Entity × InputComponent) (w : World F) :
    (ShootingSystem.shoot m deltaTime a w).2.healths = w.healths ∧
      (ShootingSystem.shoot m deltaTime a w).2.positions.ref = w.positions.ref ∧
      (ShootingSystem.shoot m deltaTime a w).2.renders.ref = w.renders.ref := by
  unfold ShootingSystem.shoot
  simp only
  split
  · refine ⟨rfl, ?_, ?_⟩
    · funext k
      exact UMap.ref_touch _ _ _
    · funext k
      exact UMap.ref_touch _ _ _
  · exact ⟨rfl, rfl, rfl⟩

theorem ShootingSystem.shooting_keeps_healths (m : MathLib F) (deltaTime : F) (w : World F) :
    (ShootingSystem.update m deltaTime w).healths = w.healths :=
  forEach_proj _ World.healths (fun a s => (ShootingSystem.shoot_keeps m deltaTime a s).1) _ _

theorem ShootingSystem.shooting_keeps_positions (m : MathLib F) (deltaTime : F) (w : World F) :
    (ShootingSystem.update m deltaTime w).positions.ref = w.positions.ref :=
  forEach_proj (ShootingSystem.shoot m deltaTime) (fun s => s.positions.ref)
    (fun a s => (ShootingSystem.shoot_keeps m deltaTime a s).2.1) _ _

theorem ShootingSystem.shooting_keeps_renders (m : MathLib F) (deltaTime : F) (w : World F) :
    (ShootingSystem.update m deltaTime w).renders.ref = w.renders.ref :=
  forEach_proj (ShootingSystem.shoot m deltaTime) (fun s => s.renders.ref)
    (fun a s => (ShootingSystem.shoot_keeps m deltaTime a s).2.2) _ _

theorem ProjectileSystem.projectile_keeps (deltaTime : F) (w : World F) :
    (ProjectileSystem.update deltaTime w).healths = w.healths ∧
      (ProjectileSystem.update deltaTime w).positions = w.positions ∧
      (ProjectileSystem.update deltaTime w).renders = w.renders := by
  unfold ProjectileSystem.update
  split <;> exact ⟨rfl, rfl, rfl⟩

theorem ProjectileSystem.update_projectiles_map (deltaTime : F) (w : World F) :
    (ProjectileSystem.update deltaTime w).projectiles =
      w.projectiles.map fun o => (o.1, o.2.map (ProjectileSystem.advance deltaTime)) := by
  unfold ProjectileSystem.update
  split
  · rename_i h
    have hnil : w.projectiles = [] := List.isEmpty_iff.mp h
    rw [hnil]
    rfl
  · rfl

theorem AISystem.ai_keeps_healths (m : MathLib F) (deltaTime : F) (w : World F) :
    (AISystem.update m deltaTime w).healths = w.healths :=
  forEach_proj _ World.healths
    (fun a s => by
      unfold AISystem.drive
      split
      · rfl
      · split
        · rfl
        · simp only
          split
          · split <;> rfl
          · rfl) _ _

theorem MovementSystem.movement_keeps_healths (m : MathLib F) (deltaTime : F) (w : World F) :
    (MovementSystem.update m deltaTime w).healths = w.healths :=
  forEach_proj _ World.healths
    (fun a s => by unfold MovementSystem.move; split <;> rfl) _ _

/-- What the loops of `HealthSystem::update` leave of the projectile at index `i`
of an owner entry: it is active afterwards exactly when it was active and its
point lies in the rectangle of no target other than the owner. -/
theorem HealthSystem.sweepAll_getElem (position : Entity → PositionComponent F)
    (render : Entity → RenderComponent) (hs : UMap HealthComponent)
    (o : Entity × List (ProjectileComponent F)) (i : Nat) (p : ProjectileComponent F)
    (hp : o.2[i]? = some p) :
    (HealthSystem.sweepAll position render hs o).2[i]? =
      some { p with
        active := p.active && !HealthSystem.collidesAny position render hs o.1 p } := by
  induction hs generalizing o p with
  | nil =>
    simp only [HealthSystem.sweepAll, HealthSystem.collidesAny, List.any_nil, Bool.not_false,
      Bool.and_true]
    exact hp
  | cons t rest ih =>
    simp only [HealthSystem.sweepAll]
    by_cases hto : t.1 = o.1
    · have hs : HealthSystem.sweepOwner t.1 (position t.1) (render t.1) o = o := by
        unfold HealthSystem.sweepOwner
        rw [if_pos hto]
      rw [hs, ih o p hp]
      simp [HealthSystem.collidesAny, hto]
    · have hs : HealthSystem.sweepOwner t.1 (position t.1) (render t.1) o =
          (o.1, o.2.map (HealthSystem.deactivate (position t.1) (render t.1))) := by
        unfold HealthSystem.sweepOwner
        rw [if_neg hto]
      rw [hs]
      have hp1 : (o.1, o.2.map (HealthSystem.deactivate (position t.1) (render t.1))).2[i]? =
          some (HealthSystem.deactivate (position t.1) (render t.1) p) := by
        simp only [List.getElem?_map, hp, Option.map_some']
      rw [ih _ _ hp1]
      have hc : HealthSystem.collidesAny position render rest o.1
          (HealthSystem.deactivate (position t.1) (render t.1) p) =
          HealthSystem.collidesAny position render rest o.1 p := by
        unfold HealthSystem.collidesAny
        simp only [HealthSystem.collides_deactivate]
      rw [hc, HealthSystem.deactivate_eq]
      simp only [HealthSystem.collidesAny, List.any_cons, hto, ne_eq, not_false_eq_true,
        decide_True, Bool.true_and, Bool.not_or, Bool.and_assoc]

theorem simulate_projectiles (m : MathLib F) (g : Game) (deltaTime : F) (w : World F)
    (hover : w.game_over = false) (hwon : w.won = false) :
    (simulate m g deltaTime w).projectiles = (runSystems m deltaTime w).projectiles := by
  unfold simulate
  simp [hover, hwon]

end Claim13Lemmas

section Claim13

variable {F : Type} [LinearOrderedField F]

/-- C13, as the code has it. In a Playing frame the systems run in the order
movement, AI, shooting, projectile, health, so a projectile spawned by
`AISystem.update` is moved and collision-checked in the same frame. For `w` the
world after the movement step and `e` the one AI-driven entity, as in the game
(id other than 0, with position and velocity, its AI record `ai` pointing at the
position of the player), that is not exactly on the player (distance `D > 0`,
so that the direction to the player exists), is in range, and whose shoot timer
has run out: `AISystem.update` appends the projectile `AISystem.shot` (at the
position of the enemy plus the sprite offset) to the sequence of `e`, and at the
end of the frame the projectile at that index of the sequence of `e` has the
spawn position advanced by velocity times `dt`, the same velocity, which is
750 x (player - enemy) / D, and damage, and is active exactly when its advanced
point lies strictly inside the sprite rectangle of no health-bearing entity
other than `e`. -/
theorem same_frame_projectile (m : MathLib F) (g : Game) (deltaTime : F) (w0 w : World F)
    (e : Entity) (ai : AIComponent F)
    (hover : w0.game_over = false) (hwon : w0.won = false)
    (hw : w = MovementSystem.update m deltaTime w0)
    (hais : w.ais = [(e, ai)])
    (hpl : ai.playerPosition = playerEntity) (h0 : e ≠ 0)
    (hp : w.positions.contains e = true) (hv : w.velocities.contains e = true)
    (hD : 0 < AISystem.distance m w e ai)
    (hd : AISystem.distance m w e ai ≤ ai.attackRange)
    (hf : (AISystem.attack deltaTime ai).2 = true) :
    (AISystem.update m deltaTime w).projectiles.ref e =
        w.projectiles.ref e ++ [AISystem.shot m deltaTime w e ai] ∧
    ∃ q, ((simulate m g deltaTime w0).projectiles.ref e)[(w.projectiles.ref e).length]? =
        some q ∧
      q.x = (AISystem.shot m deltaTime w e ai).x
        + (AISystem.shot m deltaTime w e ai).velocityX * deltaTime ∧
      q.y = (AISystem.shot m deltaTime w e ai).y
        + (AISystem.shot m deltaTime w e ai).velocityY * deltaTime ∧
      q.velocityX = (AISystem.shot m deltaTime w e ai).velocityX ∧
      q.velocityY = (AISystem.shot m deltaTime w e ai).velocityY ∧
      q.velocityX * AISystem.distance m w e ai =
        ((w.positions.ref playerEntity).x - (w.positions.ref e).x) * 750 ∧
      q.velocityY * AISystem.distance m w e ai =
        ((w.positions.ref playerEntity).y - (w.positions.ref e).y) * 750 ∧
      q.damage = (AISystem.shot m deltaTime w e ai).damage ∧
      q.active = !HealthSystem.collidesAny (AISystem.update m deltaTime w).positions.ref
        (AISystem.update m deltaTime w).renders.ref w0.healths e q := by
  have hkeys : w.ais.keys.Nodup := by simp [hais, UMap.keys]
  have hfind : w.ais.find? e = some ai := by simp [hais, UMap.find?]
  have hne : AISystem.distance m w e ai ≠ 0 := ne_of_gt hD
  have hview := (AISystem.update_entry m deltaTime w e ai hkeys hfind hpl h0 hp hv).2
  have hshots := congrArg AIView.shots hview
  simp only [AISystem.view, AISystem.viewAfter, if_pos (And.intro hd hf)] at hshots
  refine ⟨hshots, ?_⟩
  have hfind2 := UMap.find?_of_ref_ne_nil _ e _ hshots (by simp)
  obtain ⟨v3, h3, hpre⟩ := ShootingSystem.shooting_prefix m deltaTime _ e _ hfind2
  have hv3 : v3[(w.projectiles.ref e).length]? = some (AISystem.shot m deltaTime w e ai) := by
    obtain ⟨t, rfl⟩ := hpre
    rw [List.append_assoc, List.getElem?_append_right (le_refl _)]
    simp
  have h4 : (ProjectileSystem.update deltaTime (ShootingSystem.update m deltaTime
      (AISystem.update m deltaTime w))).projectiles.find? e =
      some (v3.map (ProjectileSystem.advance deltaTime)) := by
    rw [ProjectileSystem.update_projectiles_map,
      UMap.find?_map_entry (fun o : Entity × List (ProjectileComponent F) =>
        (o.1, o.2.map (ProjectileSystem.advance deltaTime))) (fun _ => rfl), h3]
    rfl
  have h5 : (runSystems m deltaTime w0).projectiles.find? e =
      some (HealthSystem.sweepAll (AISystem.update m deltaTime w).positions.ref
        (AISystem.update m deltaTime w).renders.ref w0.healths
        (e, v3.map (ProjectileSystem.advance deltaTime))).2 := by
    unfold runSystems
    rw [HealthSystem.update_projectiles_eq, HealthSystem.resolve_snd,
      UMap.find?_map_entry _ (HealthSystem.sweepAll_fst _ _ _), ← hw, h4,
      (ProjectileSystem.projectile_keeps _ _).1, (ProjectileSystem.projectile_keeps _ _).2.1,
      (ProjectileSystem.projectile_keeps _ _).2.2,
      ShootingSystem.shooting_keeps_healths, ShootingSystem.shooting_keeps_positions,
      ShootingSystem.shooting_keeps_renders, AISystem.ai_keeps_healths, hw,
      MovementSystem.movement_keeps_healths]
    rfl
  have hadv : (v3.map (ProjectileSystem.advance deltaTime))[(w.projectiles.ref e).length]? =
      some (ProjectileSystem.advance deltaTime (AISystem.shot m deltaTime w e ai)) := by
    simp only [List.getElem?_map, hv3, Option.map_some']
  have h6 := HealthSystem.sweepAll_getElem (AISystem.update m deltaTime w).positions.ref
    (AISystem.update m deltaTime w).renders.ref w0.healths
    (e, v3.map (ProjectileSystem.advance deltaTime)) _ _ hadv
  have href : (simulate m g deltaTime w0).projectiles.ref e =
      (HealthSystem.sweepAll (AISystem.update m deltaTime w).positions.ref
        (AISystem.update m deltaTime w).renders.ref w0.healths
        (e, v3.map (ProjectileSystem.advance deltaTime))).2 := by
    rw [simulate_projectiles m g deltaTime w0 hover hwon]
    unfold UMap.ref
    rw [h5]
    rfl
  rw [href]
  refine ⟨_, h6, ?_, ?_, ?_, ?_, ?_, ?_, ?_, ?_⟩
  · simp [ProjectileSystem.advance, AISystem.shot]
  · simp [ProjectileSystem.advance, AISystem.shot]
  · simp [ProjectileSystem.advance, AISystem.shot]
  · simp [ProjectileSystem.advance, AISystem.shot]
  · simp only [ProjectileSystem.advance, AISystem.shot, AISystem.direction, hpl,
      Bool.not_true, Bool.false_eq_true, if_false]
    field_simp
  · simp only [ProjectileSystem.advance, AISystem.shot, AISystem.direction, hpl,
      Bool.not_true, Bool.false_eq_true, if_false]
    field_simp
  · simp [ProjectileSystem.advance, AISystem.shot]
  · simp [ProjectileSystem.advance, AISystem.shot, HealthSystem.collidesAny,
      HealthSystem.collides]

end Claim13

theorem isqrt_blank : isqrt 100 = 10 := by decide

/-- The movement step leaves the sample state `closeRange` as it is: no key is
held and the enemy has no input record. -/
theorem movement_closeRange :
    MovementSystem.update MathLib.coarse (1 / 60 : ℚ) (closeRange ℚ) = closeRange ℚ := by
  norm_num [MovementSystem.update, MovementSystem.move, forEach, MathLib.coarse, closeRange,
    initialWorld, sampleGame, UMap.ref, UMap.find?, UMap.touch, UMap.contains, UMap.set,
    playerEntity, enemy1, wrapInt32, boolToInt]

/-- C13 at the sample state `closeRange`: the enemy at distance 500 fires in the
first frame, and at the end of that frame its projectile, spawned at
(425, 1573/3) with velocity (-450, -600), is at (835/2, 1543/3), still active
because that point is outside the sprite of the player. -/
theorem same_frame_projectile_witness :
    ∃ q, ((simulate MathLib.coarse sampleGame (1 / 60 : ℚ) (closeRange ℚ)).projectiles.ref
        enemy1)[0]? = some q ∧ q.x = 835 / 2 ∧ q.y = 1543 / 3 ∧ q.active = true := by
  obtain ⟨_, q, h1, hx, hy, _, _, _, _, _, hact⟩ := same_frame_projectile MathLib.coarse
    sampleGame (1 / 60 : ℚ) (closeRange ℚ) (closeRange ℚ) enemy1
    ⟨playerEntity, 150, 1344, 0, 180, 0, 80, 0, 20⟩ rfl rfl movement_closeRange.symm
    (by norm_num [closeRange, initialWorld, sampleGame, enemy1])
    rfl (by decide)
    (by simp [closeRange, UMap.contains, playerEntity, enemy1])
    (by simp [closeRange, initialWorld, UMap.contains, playerEntity, enemy1])
    (by norm_num [AISystem.distance, MathLib.coarse, closeRange, UMap.ref,
      UMap.find?, playerEntity, enemy1, isqrt_close])
    (by norm_num [AISystem.distance, MathLib.coarse, closeRange, UMap.ref,
      UMap.find?, playerEntity, enemy1, isqrt_close])
    (by norm_num [AISystem.attack])
  have hx1 : q.x = 835 / 2 := by
    rw [hx]
    norm_num [AISystem.shot, AISystem.positionOf, AISystem.velocityOf, AISystem.direction,
      AISystem.distance, MathLib.coarse, closeRange, initialWorld, sampleGame, UMap.ref,
      UMap.find?, playerEntity, enemy1, isqrt_close]
  have hy1 : q.y = 1543 / 3 := by
    rw [hy]
    norm_num [AISystem.shot, AISystem.positionOf, AISystem.velocityOf, AISystem.direction,
      AISystem.distance, MathLib.coarse, closeRange, initialWorld, sampleGame, UMap.ref,
      UMap.find?, playerEntity, enemy1, isqrt_close]
  refine ⟨q, h1, hx1, hy1, ?_⟩
  rw [hact]
  norm_num [HealthSystem.collidesAny, HealthSystem.collides, hx1, hy1, AISystem.update,
    AISystem.drive, AISystem.attack, forEach, MathLib.coarse, closeRange, initialWorld,
    sampleGame, UMap.ref, UMap.find?, UMap.touch, UMap.contains, UMap.set, playerEntity,
    enemy1, isqrt_close]

/-- C13 as stated fails. In the sample state `closeRange` the projectile that
`AISystem.update` spawns at (425, 1573/3) is at (835/2, 1543/3) at the end of the
same frame; in the sample state `pointBlank` the projectile spawned at (137, 127)
is at (249/2, 127) inside the sprite of the player at the end of the same frame,
inactive, and the player has lost 25 health. -/
theorem same_frame_projectile_counterexample :
    (closeRange ℚ).game_over = false ∧ (closeRange ℚ).won = false ∧
    (AISystem.update MathLib.coarse (1 / 60 : ℚ)
      (MovementSystem.update MathLib.coarse (1 / 60 : ℚ) (closeRange ℚ))).projectiles =
        [(enemy1, [⟨true, 425, 1573 / 3, -450, -600, 25⟩])] ∧
    (simulate MathLib.coarse sampleGame (1 / 60 : ℚ) (closeRange ℚ)).projectiles =
        [(enemy1, [⟨true, 835 / 2, 1543 / 3, -450, -600, 25⟩])] ∧
    (pointBlank ℚ).game_over = false ∧ (pointBlank ℚ).won = false ∧
    (AISystem.update MathLib.coarse (1 / 60 : ℚ)
      (MovementSystem.update MathLib.coarse (1 / 60 : ℚ) (pointBlank ℚ))).projectiles =
        [(enemy1, [⟨true, 137, 127, -750, 0, 25⟩])] ∧
    (simulate MathLib.coarse sampleGame (1 / 60 : ℚ) (pointBlank ℚ)).projectiles =
        [(enemy1, [⟨false, 249 / 2, 127, -750, 0, 25⟩])] ∧
    (simulate MathLib.coarse sampleGame (1 / 60 : ℚ) (pointBlank ℚ)).healths =
        [(playerEntity, ⟨75, 100⟩), (enemy1, ⟨100, 100⟩)] := by
  refine ⟨rfl, rfl, ?_, ?_, rfl, rfl, ?_, ?_, ?_⟩
  · norm_num [AISystem.update,
      AISystem.drive, AISystem.attack, MovementSystem.update, MovementSystem.move, forEach,
      MathLib.coarse, closeRange, initialWorld, sampleGame, UMap.ref, UMap.find?,
      UMap.touch, UMap.contains, UMap.set, playerEntity, enemy1, wrapInt32, boolToInt,
      isqrt_close]
    rfl
  · norm_num [simulate, runSystems, HealthSystem.update, HealthSystem.target,
      HealthSystem.hitOwner,
      HealthSystem.hit, forEach, HealthSystem.collides, ProjectileSystem.update,
      ProjectileSystem.advance, ShootingSystem.update, ShootingSystem.shoot, AISystem.update,
      AISystem.drive, AISystem.attack, MovementSystem.update, MovementSystem.move,
      MathLib.coarse, closeRange, initialWorld, sampleGame, UMap.ref, UMap.find?,
      UMap.touch, UMap.contains, UMap.set, playerEntity, enemy1, wrapInt32, boolToInt,
      isqrt_close]
  · norm_num [AISystem.update,
      AISystem.drive, AISystem.attack, MovementSystem.update, MovementSystem.move, forEach,
      MathLib.coarse, pointBlank, initialWorld, sampleGame, UMap.ref, UMap.find?,
      UMap.touch, UMap.contains, UMap.set, playerEntity, enemy1, wrapInt32, boolToInt,
      isqrt_blank]
    rfl
  · norm_num [simulate, runSystems, HealthSystem.update, HealthSystem.target,
      HealthSystem.hitOwner,
      HealthSystem.hit, forEach, HealthSystem.collides, ProjectileSystem.update,
      ProjectileSystem.advance, ShootingSystem.update, ShootingSystem.shoot, AISystem.update,
      AISystem.drive, AISystem.attack, MovementSystem.update, MovementSystem.move,
      MathLib.coarse, pointBlank, initialWorld, sampleGame, UMap.ref, UMap.find?,
      UMap.touch, UMap.contains, UMap.set, playerEntity, enemy1, wrapInt32, boolToInt,
      isqrt_blank]
  · norm_num [simulate, runSystems, HealthSystem.update, HealthSystem.target,
      HealthSystem.hitOwner,
      HealthSystem.hit, forEach, HealthSystem.collides, ProjectileSystem.update,
      ProjectileSystem.advance, ShootingSystem.update, ShootingSystem.shoot, AISystem.update,
      AISystem.drive, AISystem.attack, MovementSystem.update, MovementSystem.move,
      MathLib.coarse, pointBlank, initialWorld, sampleGame, UMap.ref, UMap.find?,
      UMap.touch, UMap.contains, UMap.set, playerEntity, enemy1, wrapInt32, boolToInt,
      isqrt_blank]
